import Mathlib

set_option maxHeartbeats 1600000

namespace PH

/-! # A shallow embedding of the page-level heap of `src/src/page_heap.h`

The constants, `RecordSpan`, the `MapSelector` level table, the size-class
cache accessors, the aggressive-decommit accessors and the `Stats` fields are
translated directly from `src/src/page_heap.h`.  The bodies of `New`, `Delete`,
`Split`, `ReleaseAtLeastNPages`, `ReleaseSpan`, `MergeIntoFreeSet`, `GrowHeap`,
`IncrementalScavenge` and of the packed size-class cache are declared in the
header but are not part of the repository snapshot; each such definition below
carries a doc comment starting with `Modelled from the spec:` naming what is
missing and which part of the spec it follows. -/

/-- Page size in bytes.  The page shift is 12 (4 KiB pages), the value the
spec and the comments in src/src/page_heap.h (lines 227-234) work with. -/
def kPageSize : Nat := 4096

/-- From src/src/page_heap.h line 221: minimum number of pages to fetch from
the system at a time (`static const int kMinSystemAlloc = 2`). -/
def kMinSystemAlloc : Nat := 2

/-- From src/src/page_heap.h line 230: never delay scavenging for more than
this number of deallocated pages (`1 << 20`; with 4 KiB pages this is 4 GiB). -/
def kMaxReleaseDelay : Int := 2 ^ 20

/-- From src/src/page_heap.h line 234: if there is nothing to release, wait
for this many deallocated pages before scavenging again (`1 << 18`;
with 4 KiB pages this is 1 GiB). -/
def kDefaultReleaseDelay : Int := 2 ^ 18

/-- From src/src/page_heap.h lines 83-104: the number of interior levels of
the pagemap radix trie picked by `MapSelector<BITS>`.  The general template
uses `TCMalloc_PageMap3`; the `BITS = 48` specialization uses
`TCMalloc_PageMap2` but is compiled out under `TCMALLOC_SMALL_BUT_SLOW`;
the `BITS = 32` specialization uses `TCMalloc_PageMap2` unconditionally. -/
def mapSelectorLevels (bits : Nat) (smallButSlow : Bool) : Nat :=
  if bits = 48 ∧ ¬smallButSlow then 2
  else if bits = 32 then 2
  else 3

/-- Span location, from span.h as used throughout src/src/page_heap.h
(IN_USE, ON_NORMAL_FREELIST, ON_RETURNED_FREELIST). -/
inductive Location where
  | inUse
  | onNormalFreelist
  | onReturnedFreelist
deriving DecidableEq, Repr

/-- A span descriptor: a contiguous run of `length` pages starting at page
`start`, together with its location state, size class and sample flag
(spec §3, span.h). -/
structure Span where
  start : Nat
  length : Nat
  location : Location
  sizeclass : Nat
  sample : Bool
deriving DecidableEq, Repr

/-- The four statistics of PageHeap::PageMap::Stats that the page-heap
operations maintain (src/src/page_heap.h lines 249-268): total bytes obtained
from the system, bytes on the normal freelists, bytes on the returned
freelists, and committed bytes. -/
structure Stats where
  system_bytes : Nat
  free_bytes : Nat
  unmapped_bytes : Nat
  committed_bytes : Nat
deriving DecidableEq, Repr

/-- Association-list get (first binding wins). -/
def alGet {α : Type} : List (Nat × α) → Nat → Option α
  | [], _ => none
  | (k, v) :: r, p => if p = k then some v else alGet r p

/-- Association-list removal of every binding of a key. -/
def alRemove {α : Type} : List (Nat × α) → Nat → List (Nat × α)
  | [], _ => []
  | (k, v) :: r, p => if k = p then alRemove r p else (k, v) :: alRemove r p

/-- The pagemap: page number to span identity.  The source's radix trie
(pagemap.h) is out of the snapshot; only its `get`/`set` interface is used by
src/src/page_heap.h, so slots are modelled as an association list. -/
abbrev PageMap := List (Nat × Nat)

/-- Span store: span identity to span descriptor. -/
abbrev SpanMap := List (Nat × Span)

def pmSet (pm : PageMap) (p v : Nat) : PageMap := (p, v) :: pm

def smSet (m : SpanMap) (id : Nat) (s : Span) : SpanMap := (id, s) :: alRemove m id

/-- From src/src/page_heap.h lines 314-319 (`PageHeap::PageMap::RecordSpan`):
set the pagemap slot of the span's first page to the span, and, when the
length exceeds 1, also the slot of its last page. -/
def recordSpan (pm : PageMap) (id : Nat) (s : Span) : PageMap :=
  let pm1 := pmSet pm s.start id
  if 1 < s.length then pmSet pm1 (s.start + s.length - 1) id else pm1

def spanBytes (s : Span) : Nat := kPageSize * s.length

/-- Sum of the lengths of the spans satisfying a location predicate. -/
def sumLenIf (P : Span → Bool) : SpanMap → Nat
  | [] => 0
  | e :: r => (if P e.2 then e.2.length else 0) + sumLenIf P r

/-- Sum of the lengths of all spans in the store. -/
def sumLenAll : SpanMap → Nat
  | [] => 0
  | e :: r => e.2.length + sumLenAll r

def isNormal (s : Span) : Bool := s.location == Location.onNormalFreelist

def isReturned (s : Span) : Bool := s.location == Location.onReturnedFreelist

def isInUse (s : Span) : Bool := s.location == Location.inUse

/-- Ordering key of a span inside a free set: (length, start), the key of the
spec's ordered large-span multisets (spec §4.4). -/
def keyOf (m : SpanMap) (id : Nat) : Nat × Nat :=
  match alGet m id with
  | some s => (s.length, s.start)
  | none => (0, 0)

def keyLtB (a b : Nat × Nat) : Bool := a.1 < b.1 || (a.1 == b.1 && a.2 < b.2)

/-- Insert an id into a free list kept sorted by `keyOf`. -/
def insertSorted (m : SpanMap) (l : List Nat) (id : Nat) : List Nat :=
  match l with
  | [] => [id]
  | x :: xs =>
    if keyLtB (keyOf m id) (keyOf m x) then id :: x :: xs
    else x :: insertSorted m xs id

/-- Remove the first occurrence of an id from a free list. -/
def removeId : List Nat → Nat → List Nat
  | [], _ => []
  | x :: xs, id => if x = id then xs else x :: removeId xs id

/-- The behaviour of the external system allocator (spec §6): the outcome of
one growth request (base page and actual page count) and whether decommitting
a page range succeeds. -/
structure SysBehavior where
  growResult : Nat → Option (Nat × Nat)
  decommitOk : Nat → Nat → Bool

/-- The state of the page heap: the span store with its id supply, the
pagemap, the two free structures (normal and returned, kept as lists of span
ids sorted by (length, start) — the ordered-set free-structure representation
of spec §4.4/§9), the statistics, the scavenge counter (int64_t
`scavenge_counter_`, src line 213), the aggressive-decommit flag (src line
209), and the trace of page counts requested from the system allocator. -/
@[ext]
structure Heap where
  nextId : Nat
  spans : SpanMap
  pagemap : PageMap
  normalFree : List Nat
  returnedFree : List Nat
  stats : Stats
  scavengeCounter : Int
  aggressiveDecommit : Bool
  growRequests : List Nat
deriving DecidableEq, Repr

/-- The empty heap.  The initial scavenge counter is not fixed by the spec;
it is modelled as 0 (the first deallocation may trigger a scavenge). -/
def emptyHeap : Heap :=
  { nextId := 0, spans := [], pagemap := [], normalFree := [], returnedFree := [],
    stats := ⟨0, 0, 0, 0⟩, scavengeCounter := 0, aggressiveDecommit := false,
    growRequests := [] }

/-- From src/src/page_heap.h line 176. -/
def GetAggressiveDecommit (h : Heap) : Bool := h.aggressiveDecommit

/-- From src/src/page_heap.h lines 177-179. -/
def SetAggressiveDecommit (h : Heap) (b : Bool) : Heap :=
  { h with aggressiveDecommit := b }

/-- Modelled from the spec: `PrependToFreeSet` (declared at src/src/page_heap.h
line 195, body not in the snapshot) — insert the span into the free structure
matching its location and add its bytes to the matching statistic. -/
def insertToFreeSet (h : Heap) (id : Nat) : Heap :=
  match alGet h.spans id with
  | none => h
  | some s =>
    match s.location with
    | Location.onNormalFreelist =>
      { h with normalFree := insertSorted h.spans h.normalFree id,
               stats := { h.stats with free_bytes := h.stats.free_bytes + spanBytes s } }
    | Location.onReturnedFreelist =>
      { h with returnedFree := insertSorted h.spans h.returnedFree id,
               stats := { h.stats with unmapped_bytes := h.stats.unmapped_bytes + spanBytes s } }
    | Location.inUse => h

/-- Modelled from the spec: `RemoveFromFreeSet` (declared at src/src/page_heap.h
line 192, body not in the snapshot) — remove the span from its free structure
and subtract its bytes from the matching statistic. -/
def removeFromFreeSet (h : Heap) (id : Nat) : Heap :=
  match alGet h.spans id with
  | none => h
  | some s =>
    match s.location with
    | Location.onNormalFreelist =>
      { h with normalFree := removeId h.normalFree id,
               stats := { h.stats with free_bytes := h.stats.free_bytes - spanBytes s } }
    | Location.onReturnedFreelist =>
      { h with returnedFree := removeId h.returnedFree id,
               stats := { h.stats with unmapped_bytes := h.stats.unmapped_bytes - spanBytes s } }
    | Location.inUse => h

/-- Remove a merged-away neighbor: take it off its free structure and retire
its descriptor from the span store. -/
def doMerge (h : Heap) (pid : Nat) : Heap :=
  let h1 := removeFromFreeSet h pid
  { h1 with spans := alRemove h1.spans pid }

/-- The page whose pagemap slot is probed to find the neighbor of `s` on the
given side (spec §4.4 deallocation step 2): `start - 1` for the previous
neighbor, `start + length` for the next one. -/
def neighborPage (s : Span) (prevSide : Bool) : Nat :=
  if prevSide then s.start - 1 else s.start + s.length

/-- Modelled from the spec (§4.4 deallocation steps 2-3): look the neighbor
up through the pagemap and return its identity and descriptor when it exists,
is exactly adjacent on the probed side, is free and is not sampled. -/
def coalesceCandidate (h : Heap) (id : Nat) (s : Span) (prevSide : Bool) :
    Option (Nat × Span) :=
  if prevSide ∧ s.start = 0 then none else
  match alGet h.pagemap (neighborPage s prevSide) with
  | none => none
  | some pid =>
    if pid = id then none else
    match alGet h.spans pid with
    | none => none
    | some p =>
      if ¬(if prevSide then p.start + p.length = s.start
           else p.start = s.start + s.length) then none else
      if p.location = Location.inUse ∨ p.sample then none else
      some (pid, p)

/-- The span covering the union of the ranges of `s` and its neighbor `p`. -/
def mergedSpan (s p : Span) (prevSide : Bool) : Span :=
  if prevSide then { s with start := p.start, length := p.length + s.length }
  else { s with length := s.length + p.length }

/-- Subtract decommitted bytes from the committed statistic. -/
def subCommitted (h : Heap) (b : Nat) : Heap :=
  { h with stats := { h.stats with committed_bytes := h.stats.committed_bytes - b } }

/-- Modelled from the spec (§4.4 deallocation steps 2-4 and the
aggressive-decommit paragraph): one coalescing attempt of the in-flight span
`s` (identity `id`, currently out of the span store) with the neighbor found
through the pagemap on the given side; `CheckAndHandlePreMerge` and
`MergeIntoFreeSet` are declared at src/src/page_heap.h lines 206-208 but
their bodies are not in the snapshot.  The candidate neighbor is merged when
the locations agree; otherwise the pre-merge step of the spec applies: a
normal in-flight span is decommitted to merge it into an adjacent returned
span, and under aggressive decommit a normal neighbor is decommitted to merge
it into a returned in-flight span.  `premerge = false` restricts coalescing
to equal-location neighbors (span release coalesces only within the returned
set, spec §4.4 release step 4). -/
def coalesceOne (h : Heap) (sys : SysBehavior) (id : Nat) (s : Span)
    (prevSide premerge : Bool) : Heap × Span :=
  match coalesceCandidate h id s prevSide with
  | none => (h, s)
  | some (pid, p) =>
    if p.location = s.location then
      (doMerge h pid, mergedSpan s p prevSide)
    else if premerge = false then (h, s)
    else if s.location = Location.onNormalFreelist ∧
            p.location = Location.onReturnedFreelist then
      if sys.decommitOk s.start s.length then
        (doMerge (subCommitted h (spanBytes s)) pid,
         { mergedSpan s p prevSide with location := Location.onReturnedFreelist })
      else (h, s)
    else if s.location = Location.onReturnedFreelist ∧
            p.location = Location.onNormalFreelist then
      if h.aggressiveDecommit ∧ sys.decommitOk p.start p.length then
        (doMerge (subCommitted h (spanBytes p)) pid, mergedSpan s p prevSide)
      else (h, s)
    else (h, s)

/-- Modelled from the spec (§4.4 deallocation steps 2-6): coalesce the
in-flight span with its two neighbors, re-record it in the span store and the
pagemap, and insert it into the free structure of its final location
(`MergeIntoFreeSet`, declared at src/src/page_heap.h line 206, body not in
the snapshot). -/
def mergeIntoFreeSet (h : Heap) (sys : SysBehavior) (id : Nat) (s : Span)
    (premerge : Bool) : Heap :=
  let r1 := coalesceOne h sys id s true premerge
  let r2 := coalesceOne r1.1 sys id r1.2 false premerge
  let h3 := { r2.1 with spans := smSet r2.1.spans id r2.2,
                        pagemap := recordSpan r2.1.pagemap id r2.2 }
  insertToFreeSet h3 id

/-- Modelled from the spec (§4.4 release steps 1-5): `ReleaseSpan` (declared
at src/src/page_heap.h lines 196-202, body not in the snapshot).  Remove the
span from the normal free structure and decommit it; on decommit failure
re-insert it into the normal structure and return 0; on success move its
bytes from free to unmapped, coalesce within the returned set, insert the
result into the returned structure, and return the span's page count. -/
def releaseSpan (h : Heap) (sys : SysBehavior) (id : Nat) : Nat × Heap :=
  match alGet h.spans id with
  | none => (0, h)
  | some s =>
    if s.location ≠ Location.onNormalFreelist then (0, h) else
    let h1 := removeFromFreeSet h id
    if sys.decommitOk s.start s.length then
      let h2 := { h1 with
        spans := alRemove h1.spans id,
        stats := { h1.stats with
          committed_bytes := h1.stats.committed_bytes - spanBytes s } }
      (s.length, mergeIntoFreeSet h2 sys id { s with location := Location.onReturnedFreelist } false)
    else
      (0, insertToFreeSet h1 id)

/-- Modelled from the spec (§4.4 release): the scan of the normal free
structure, releasing whole spans until at least `need` pages are released.
The fuel argument bounds the number of released spans by the length of the
normal free structure; a failed decommit ends the scan of this call. -/
def releaseLoop : Nat → Heap → SysBehavior → Nat → Nat × Heap
  | 0, h, _, _ => (0, h)
  | fuel + 1, h, sys, need =>
    match h.normalFree with
    | [] => (0, h)
    | id :: _ =>
      let r := releaseSpan h sys id
      if r.1 = 0 then (0, r.2)
      else if need ≤ r.1 then r
      else
        let rr := releaseLoop fuel r.2 sys (need - r.1)
        (r.1 + rr.1, rr.2)

/-- Modelled from the spec (§4.4 release): `ReleaseAtLeastNPages` (declared
at src/src/page_heap.h lines 145-151, body not in the snapshot).  Returns the
actual number of pages released, which can exceed the request when the last
released span is larger than the remaining need.  The spec's round-robin
cursor over per-length lists is modelled as a scan of the ordered normal free
structure from its smallest element. -/
def releaseAtLeastNPages (h : Heap) (sys : SysBehavior) (numPages : Nat) : Nat × Heap :=
  releaseLoop h.normalFree.length h sys numPages

/-- Modelled from the spec (§4.4 incremental scavenger):
`IncrementalScavenge` (declared at src/src/page_heap.h line 210, body not in
the snapshot).  Decrement the counter by the deallocated length; once it is
no longer positive, attempt `release_at_least(1)` and reset the counter to
`kDefaultReleaseDelay` on success and `kMaxReleaseDelay` on failure. -/
def incrementalScavenge (h : Heap) (sys : SysBehavior) (n : Nat) : Heap :=
  let c : Int := h.scavengeCounter - (n : Int)
  if 0 < c then { h with scavengeCounter := c }
  else
    let r := releaseAtLeastNPages { h with scavengeCounter := c } sys 1
    if 0 < r.1 then { r.2 with scavengeCounter := kDefaultReleaseDelay }
    else { r.2 with scavengeCounter := kMaxReleaseDelay }

/-- Modelled from the spec (§4.4 deallocate): `Delete` (declared at
src/src/page_heap.h lines 160-163, body not in the snapshot).  The span is
tentatively marked normal-free (decommitted immediately under aggressive
decommit when the system decommit succeeds), coalesced with its neighbors,
inserted into the matching free structure, and the incremental scavenger is
run with the deallocated span's length. -/
def deleteSpan (h : Heap) (sys : SysBehavior) (id : Nat) : Heap :=
  match alGet h.spans id with
  | none => h
  | some s =>
    if s.location ≠ Location.inUse then h else
    let n := s.length
    let h0 := { h with spans := alRemove h.spans id }
    let s0 := { s with location := Location.onNormalFreelist }
    let r :=
      if h.aggressiveDecommit then
        if sys.decommitOk s0.start s0.length then
          ({ h0 with stats := { h0.stats with
               committed_bytes := h0.stats.committed_bytes - spanBytes s0 } },
           { s0 with location := Location.onReturnedFreelist })
        else (h0, s0)
      else (h0, s0)
    let h2 := mergeIntoFreeSet r.1 sys id r.2 true
    incrementalScavenge h2 sys n

/-- Modelled from the spec (§4.4 carving): remove a free span of length at
least `n`, hand out its first `n` pages as an IN_USE span (re-committed when
the span came from the returned structure), and put the leftover back into
the structure the span came from, recording the new boundary pages of both
parts (the shrunk span's new last page and the leftover's first and last
pages). -/
def carve (h : Heap) (id : Nat) (n : Nat) : Heap :=
  match alGet h.spans id with
  | none => h
  | some s =>
    if s.location = Location.inUse ∨ s.length < n ∨ n = 0 then h else
    let oldLoc := s.location
    let h1 := removeFromFreeSet h id
    let sNew : Span := { s with length := n, location := Location.inUse }
    if n < s.length then
      let leftover : Span :=
        { start := s.start + n, length := s.length - n, location := oldLoc,
          sizeclass := 0, sample := false }
      let lid := h1.nextId
      let h2 := { h1 with nextId := lid + 1,
                          spans := smSet h1.spans id sNew,
                          pagemap := pmSet h1.pagemap (s.start + n - 1) id }
      let h2c :=
        if oldLoc = Location.onReturnedFreelist then
          { h2 with stats := { h2.stats with
              committed_bytes := h2.stats.committed_bytes + kPageSize * n } }
        else h2
      insertToFreeSet
        { h2c with spans := smSet h2c.spans lid leftover,
                   pagemap := recordSpan h2c.pagemap lid leftover } lid
    else
      let h3 := { h1 with spans := smSet h1.spans id sNew }
      if oldLoc = Location.onReturnedFreelist then
        { h3 with stats := { h3.stats with
            committed_bytes := h3.stats.committed_bytes + kPageSize * n } }
      else h3

/-- First id in a free list whose span is at least `n` pages long; on a list
sorted by (length, start) this is the spec's best fit (§4.4 step 3). -/
def bestFitIn (m : SpanMap) : List Nat → Nat → Option Nat
  | [], _ => none
  | id :: rest, n =>
    match alGet m id with
    | some s => if n ≤ s.length then some id else bestFitIn m rest n
    | none => bestFitIn m rest n

/-- Modelled from the spec (§4.4 allocate steps 1-3): search the normal free
structure and then the returned free structure for the best-fitting span. -/
def searchFree (h : Heap) (n : Nat) : Option Nat :=
  match bestFitIn h.spans h.normalFree n with
  | some id => some id
  | none => bestFitIn h.spans h.returnedFree n

/-- Modelled from the spec (§4.4 allocate step 4): `GrowHeap` (declared at
src/src/page_heap.h line 186, body not in the snapshot).  Request `ask` pages
from the system allocator (the request is also recorded in the
`growRequests` trace); on success account the new bytes to system_bytes and
register the new span as returned, coalescing it on entry. -/
def growHeap (h : Heap) (sys : SysBehavior) (ask : Nat) : Heap :=
  let h0 := { h with growRequests := ask :: h.growRequests }
  match sys.growResult ask with
  | none => h0
  | some br =>
    let s : Span := { start := br.1, length := br.2,
                      location := Location.onReturnedFreelist,
                      sizeclass := 0, sample := false }
    let id := h0.nextId
    let h1 := { h0 with nextId := id + 1,
                        stats := { h0.stats with
                          system_bytes := h0.stats.system_bytes + spanBytes s } }
    mergeIntoFreeSet h1 sys id s true

/-- Modelled from the spec (§4.4 allocate): `New` (declared at
src/src/page_heap.h lines 117-120, body not in the snapshot).  Search the
free structures for a best fit and carve it; otherwise grow the heap by
`max n kMinSystemAlloc` pages and search again.  The user byte limit of spec
§4.5 is modelled as unlimited. -/
def newSpan (h : Heap) (sys : SysBehavior) (n : Nat) : Option Nat × Heap :=
  if n = 0 then (none, h) else
  match searchFree h n with
  | some id => (some id, carve h id n)
  | none =>
    let h1 := growHeap h sys (max n kMinSystemAlloc)
    match searchFree h1 n with
    | some id => (some id, carve h1 id n)
    | none => (none, h1)

/-- Modelled from the spec (§4.4 split): `Split` (declared at
src/src/page_heap.h lines 165-173, body not in the snapshot; its REQUIRES
clauses are in the header).  Under the preconditions `0 < n < length`,
location IN_USE and sizeclass 0, produce a new IN_USE span for the tail
`[start+n, start+length)`, record its boundary pages, shrink the original
span to `n` pages and re-point the pagemap slot of its new last page. -/
def splitSpan (h : Heap) (id : Nat) (n : Nat) : Option Nat × Heap :=
  match alGet h.spans id with
  | none => (none, h)
  | some s =>
    if s.location = Location.inUse ∧ s.sizeclass = 0 ∧ 0 < n ∧ n < s.length then
      let tid := h.nextId
      let tail : Span := { start := s.start + n, length := s.length - n,
                           location := Location.inUse, sizeclass := 0, sample := false }
      (some tid,
        { h with nextId := tid + 1,
                 spans := smSet (smSet h.spans id { s with length := n }) tid tail,
                 pagemap := pmSet (recordSpan h.pagemap tid tail) (s.start + n - 1) id })
    else (none, h)

/-! ## The packed size-class cache (claim C9) -/

/-- Number of slots of the direct-mapped size-class cache. -/
def kCacheSlots : Nat := 2 ^ 16

/-- Modelled from the spec (§4.2): packed-cache-inl.h is not in the snapshot.
A direct-mapped cache from page number to size class, with 0 as the explicit
absent sentinel; a slot stores the full key and its value. -/
structure PackedCache where
  entries : List (Nat × (Nat × Nat))
deriving DecidableEq, Repr

/-- Modelled from the spec (§4.2): store (key, value) in the slot the page
hashes to. -/
def cachePut (c : PackedCache) (p : Nat) (cl : Nat) : PackedCache :=
  ⟨(p % kCacheSlots, (p, cl)) :: c.entries⟩

/-- Modelled from the spec (§4.2): probe the slot the page hashes to; the
probe hits only when the stored key matches and the stored value is not the
absent sentinel 0. -/
def cacheTryGet (c : PackedCache) (p : Nat) : Option Nat :=
  match alGet c.entries (p % kCacheSlots) with
  | some kv => if kv.1 = p ∧ kv.2 ≠ 0 then some kv.2 else none
  | none => none

/-- From src/src/page_heap.h lines 288-290 (`TryGetSizeClass`): delegate to
the packed cache probe; `Option` models the bool-and-out-parameter calling
convention. -/
def TryGetSizeClass (c : PackedCache) (p : Nat) : Option Nat :=
  cacheTryGet c p

/-- From src/src/page_heap.h lines 291-294 (`SetCachedSizeClass`): store the
size class of a page in the cache.  The `ASSERT(cl != 0)` of the source is
the precondition of claim C9. -/
def SetCachedSizeClass (c : PackedCache) (p : Nat) (cl : Nat) : PackedCache :=
  cachePut c p cl

/-- From src/src/page_heap.h lines 296-302 (`GetSizeClassOrZero`): the cached
size class on a hit and 0 on a miss. -/
def GetSizeClassOrZero (c : PackedCache) (p : Nat) : Nat :=
  match TryGetSizeClass c p with
  | some v => v
  | none => 0

/-! ## Invariants -/

/-- Two spans occupy disjoint page ranges. -/
def SpanDisj (a b : Span) : Prop :=
  a.start + a.length ≤ b.start ∨ b.start + b.length ≤ a.start

def keysOf (m : SpanMap) : List Nat := m.map Prod.fst

def locOf (m : SpanMap) (id : Nat) : Option Location :=
  (alGet m id).map Span.location

/-- Structural well-formedness of the span store and the pagemap: distinct
identities, spans start past page 0 with positive length, pairwise disjoint
ranges, and the pagemap contract of the spec (§3): the slot of every span's
first page holds the span, and so does the slot of its last page when the
span is longer than one page. -/
@[mk_iff]
structure InvCore (m : SpanMap) (pm : PageMap) : Prop where
  nodup : (keysOf m).Nodup
  startPos : ∀ e ∈ m, 1 ≤ e.2.start
  lenPos : ∀ e ∈ m, 1 ≤ e.2.length
  disj : m.Pairwise (fun a b => SpanDisj a.2 b.2)
  pmFirst : ∀ e ∈ m, alGet pm e.2.start = some e.1
  pmLast : ∀ e ∈ m, 1 < e.2.length → alGet pm (e.2.start + e.2.length - 1) = some e.1

/-- The free structures hold exactly the ids of the spans in the matching
free location, sorted by (length, start). -/
@[mk_iff]
structure ListsInv (m : SpanMap) (nf rf : List Nat) : Prop where
  nfSub : ∀ id ∈ nf, locOf m id = some Location.onNormalFreelist
  nfFull : ∀ e ∈ m, e.2.location = Location.onNormalFreelist → e.1 ∈ nf
  nfSorted : nf.Pairwise (fun a b => keyLtB (keyOf m a) (keyOf m b) = true)
  rfSub : ∀ id ∈ rf, locOf m id = some Location.onReturnedFreelist
  rfFull : ∀ e ∈ m, e.2.location = Location.onReturnedFreelist → e.1 ∈ rf
  rfSorted : rf.Pairwise (fun a b => keyLtB (keyOf m a) (keyOf m b) = true)

/-- The statistics agree with the span store (spec §3 invariants):
free/unmapped bytes are the page bytes of the normal/returned spans,
system bytes are the page bytes of all spans, and committed plus unmapped
bytes equal system bytes. -/
@[mk_iff]
structure StatsInv (m : SpanMap) (st : Stats) : Prop where
  free_eq : st.free_bytes = kPageSize * sumLenIf isNormal m
  unmapped_eq : st.unmapped_bytes = kPageSize * sumLenIf isReturned m
  system_eq : st.system_bytes = kPageSize * sumLenAll m
  committed_eq : st.committed_bytes + st.unmapped_bytes = st.system_bytes

/-- The quiescent-state invariant of the heap. -/
@[mk_iff]
structure Inv (h : Heap) : Prop where
  core : InvCore h.spans h.pagemap
  lists : ListsInv h.spans h.normalFree h.returnedFree
  statsInv : StatsInv h.spans h.stats
  keysLt : ∀ e ∈ h.spans, e.1 < h.nextId

/-- The invariant in the middle of freeing: the span `s` of identity `id` is
in flight (out of the span store and of the free structures); its bytes are
in system_bytes, and already subtracted from committed bytes when it is
already decommitted. -/
@[mk_iff]
structure InvMid (h : Heap) (id : Nat) (s : Span) : Prop where
  core : InvCore h.spans h.pagemap
  lists : ListsInv h.spans h.normalFree h.returnedFree
  keysLt : ∀ e ∈ h.spans, e.1 < h.nextId
  idLt : id < h.nextId
  idAbsent : alGet h.spans id = none
  sStart : 1 ≤ s.start
  sLen : 1 ≤ s.length
  sDisj : ∀ e ∈ h.spans, SpanDisj e.2 s
  sFreeLoc : s.location ≠ Location.inUse
  free_eq : h.stats.free_bytes = kPageSize * sumLenIf isNormal h.spans
  unmapped_eq : h.stats.unmapped_bytes = kPageSize * sumLenIf isReturned h.spans
  system_eq : h.stats.system_bytes = kPageSize * (sumLenAll h.spans + s.length)
  committed_eq : h.stats.committed_bytes + h.stats.unmapped_bytes
      + (if s.location = Location.onReturnedFreelist then spanBytes s else 0)
      = h.stats.system_bytes

instance (a b : Span) : Decidable (SpanDisj a b) := by
  unfold SpanDisj; infer_instance

instance (m : SpanMap) (pm : PageMap) : Decidable (InvCore m pm) :=
  decidable_of_iff _ (invCore_iff m pm).symm

instance (m : SpanMap) (nf rf : List Nat) : Decidable (ListsInv m nf rf) :=
  decidable_of_iff _ (listsInv_iff m nf rf).symm

instance (m : SpanMap) (st : Stats) : Decidable (StatsInv m st) :=
  decidable_of_iff _ (statsInv_iff m st).symm

instance (h : Heap) : Decidable (Inv h) :=
  decidable_of_iff _ (inv_iff h).symm

instance (h : Heap) (id : Nat) (s : Span) : Decidable (InvMid h id s) :=
  decidable_of_iff _ (invMid_iff h id s).symm

/-! ## Reachability -/

/-- The system-allocator responses that an execution can rely on: any granted
growth request yields at least the requested number of pages (and at least
`kMinSystemAlloc`), starts past page 0 and is fresh, i.e. disjoint from
every span the heap currently knows (spec §6: the system allocator hands out
new address ranges). -/
def GoodSys (sys : SysBehavior) (h : Heap) : Prop :=
  ∀ n base actual, sys.growResult n = some (base, actual) →
    max n kMinSystemAlloc ≤ actual ∧ 1 ≤ base ∧
    ∀ e ∈ h.spans, e.2.start + e.2.length ≤ base ∨ base + actual ≤ e.2.start

/-- One public page-heap operation (spec §6). -/
inductive Step : Heap → Heap → Prop where
  | newStep : ∀ h sys n, GoodSys sys h → Step h (newSpan h sys n).2
  | deleteStep : ∀ h sys id, Step h (deleteSpan h sys id)
  | splitStep : ∀ h id n, Step h (splitSpan h id n).2
  | releaseStep : ∀ h sys n, Step h (releaseAtLeastNPages h sys n).2
  | setAggressiveStep : ∀ h b, Step h (SetAggressiveDecommit h b)

/-- Heap states reachable from the empty heap by public operations. -/
inductive Reach : Heap → Prop where
  | empty : Reach emptyHeap
  | step : ∀ h h', Reach h → Step h h' → Reach h'

/-! ## Concrete fixtures used by witness theorems -/

/-- A system allocator that grants growth requests of up to 8 pages with the
fixed fresh range [1, 9) and always succeeds in decommitting. -/
def sysW : SysBehavior :=
  { growResult := fun n => if n ≤ 8 then some (1, 8) else none,
    decommitOk := fun _ _ => true }

/-- A system allocator that refuses growth and fails every decommit. -/
def sysF : SysBehavior :=
  { growResult := fun _ => none, decommitOk := fun _ _ => false }

/-- A 4-page allocation (span 0) carved out of a fresh 8-page growth. -/
def heapW1 : Heap := (newSpan emptyHeap sysW 4).2

/-- `heapW1` after freeing the allocation while decommits fail: span 0 sits
on the normal free structure with 4 pages. -/
def heapW2 : Heap := deleteSpan heapW1 sysF 0

/-! ## Association-list lemmas -/

@[simp]
theorem alGet_nil {α : Type} (p : Nat) : alGet ([] : List (Nat × α)) p = none := rfl

theorem alGet_cons {α : Type} (e : Nat × α) (r : List (Nat × α)) (p : Nat) :
    alGet (e :: r) p = if p = e.1 then some e.2 else alGet r p := by
  cases e; rfl

theorem alGet_mem {α : Type} {m : List (Nat × α)} {p : Nat} {v : α}
    (hget : alGet m p = some v) : (p, v) ∈ m := by
  induction m with
  | nil => simp at hget
  | cons e r ih =>
    rw [alGet_cons] at hget
    split at hget
    · cases e
      simp_all
    · exact List.mem_cons_of_mem _ (ih hget)

theorem alGet_eq_none_iff {α : Type} {m : List (Nat × α)} {p : Nat} :
    alGet m p = none ↔ ∀ e ∈ m, e.1 ≠ p := by
  induction m with
  | nil => simp
  | cons e r ih =>
    rw [alGet_cons]
    constructor
    · intro hnone
      split at hnone
      · simp at hnone
      · rename_i hne
        intro f hf
        rcases List.mem_cons.mp hf with hf | hf
        · subst hf; omega
        · exact (ih.mp hnone) f hf
    · intro hall
      rw [if_neg (fun hc => (hall e (List.mem_cons_self e r)) hc.symm)]
      exact ih.mpr (fun f hf => hall f (List.mem_cons_of_mem _ hf))

theorem mem_alRemove {α : Type} {m : List (Nat × α)} {id : Nat} {e : Nat × α} :
    e ∈ alRemove m id ↔ e ∈ m ∧ e.1 ≠ id := by
  induction m with
  | nil => simp [alRemove]
  | cons f r ih =>
    obtain ⟨k, v⟩ := f
    by_cases hk : k = id <;> simp [alRemove, hk, ih] <;> aesop

theorem alRemove_sublist {α : Type} (m : List (Nat × α)) (id : Nat) :
    List.Sublist (alRemove m id) m := by
  induction m with
  | nil => simp [alRemove]
  | cons f r ih =>
    obtain ⟨k, v⟩ := f
    by_cases hk : k = id <;> simp [alRemove, hk]
    · exact ih.cons _
    · exact ih

theorem alRemove_of_get_none {α : Type} {m : List (Nat × α)} {id : Nat}
    (hnone : alGet m id = none) : alRemove m id = m := by
  induction m with
  | nil => rfl
  | cons f r ih =>
    obtain ⟨k, v⟩ := f
    rw [alGet_cons] at hnone
    split at hnone
    · simp at hnone
    · simp only [alRemove]
      rw [if_neg (by omega), ih hnone]

@[simp]
theorem alGet_alRemove_self {α : Type} (m : List (Nat × α)) (id : Nat) :
    alGet (alRemove m id) id = none := by
  rw [alGet_eq_none_iff]
  intro e he
  exact (mem_alRemove.mp he).2

theorem alGet_alRemove_ne {α : Type} (m : List (Nat × α)) {id p : Nat}
    (hne : p ≠ id) : alGet (alRemove m id) p = alGet m p := by
  induction m with
  | nil => rfl
  | cons f r ih =>
    obtain ⟨k, v⟩ := f
    simp only [alRemove]
    by_cases hk : k = id
    · subst hk
      rw [if_pos rfl, alGet_cons, if_neg (by simpa using hne), ih]
    · rw [if_neg hk, alGet_cons, alGet_cons]
      split
      · rfl
      · exact ih

@[simp]
theorem alGet_smSet_self (m : SpanMap) (id : Nat) (s : Span) :
    alGet (smSet m id s) id = some s := by
  simp [smSet, alGet_cons]

theorem alGet_smSet_ne (m : SpanMap) {id p : Nat} (s : Span) (hne : p ≠ id) :
    alGet (smSet m id s) p = alGet m p := by
  simp only [smSet]
  rw [alGet_cons, if_neg (by simpa using hne)]
  exact alGet_alRemove_ne m hne

theorem alGet_pmSet (pm : PageMap) (p v q : Nat) :
    alGet (pmSet pm p v) q = if q = p then some v else alGet pm q := by
  simp [pmSet, alGet_cons]

theorem keysOf_nodup_alRemove {m : SpanMap} (hn : (keysOf m).Nodup) (id : Nat) :
    (keysOf (alRemove m id)).Nodup :=
  ((alRemove_sublist m id).map Prod.fst).nodup hn

theorem alGet_of_mem_nodup {m : SpanMap} {e : Nat × Span}
    (hn : (keysOf m).Nodup) (hmem : e ∈ m) : alGet m e.1 = some e.2 := by
  induction m with
  | nil => simp at hmem
  | cons f r ih =>
    rw [alGet_cons]
    rcases List.mem_cons.mp hmem with hf | hmem
    · subst hf; simp
    · rw [keysOf, List.map_cons, List.nodup_cons] at hn
      have : e.1 ≠ f.1 := by
        intro hc
        exact hn.1 (hc ▸ (List.mem_map_of_mem Prod.fst hmem))
      rw [if_neg this]
      exact ih hn.2 hmem

/-! ## Key-order lemmas -/

theorem keyLtB_iff (a b : Nat × Nat) :
    keyLtB a b = true ↔ a.1 < b.1 ∨ (a.1 = b.1 ∧ a.2 < b.2) := by
  simp only [keyLtB, Bool.or_eq_true, Bool.and_eq_true, decide_eq_true_eq, beq_iff_eq]

theorem keyLtB_trans {a b c : Nat × Nat} (h1 : keyLtB a b = true)
    (h2 : keyLtB b c = true) : keyLtB a c = true := by
  rw [keyLtB_iff] at *
  omega

theorem keyLtB_asymm {a b : Nat × Nat} (h1 : keyLtB a b = true) :
    ¬keyLtB b a = true := by
  rw [keyLtB_iff] at *
  omega

theorem keyLtB_total {a b : Nat × Nat} (hne : a ≠ b) :
    keyLtB a b = true ∨ keyLtB b a = true := by
  rw [keyLtB_iff, keyLtB_iff]
  rcases a with ⟨a1, a2⟩
  rcases b with ⟨b1, b2⟩
  have hne2 : ¬(a1 = b1 ∧ a2 = b2) := by
    intro hc
    exact hne (by rw [hc.1, hc.2])
  by_cases h1 : a1 = b1
  · have := fun hc => hne2 ⟨h1, hc⟩
    omega
  · omega

/-! ## recordSpan lemmas -/

theorem recordSpan_get_start (pm : PageMap) (id : Nat) (s : Span) :
    alGet (recordSpan pm id s) s.start = some id := by
  unfold recordSpan
  split
  · rename_i hlen
    have hne : s.start ≠ s.start + s.length - 1 := by omega
    rw [alGet_pmSet, if_neg hne, alGet_pmSet, if_pos rfl]
  · rw [alGet_pmSet, if_pos rfl]

theorem recordSpan_get_last (pm : PageMap) (id : Nat) (s : Span)
    (hlen : 1 < s.length) :
    alGet (recordSpan pm id s) (s.start + s.length - 1) = some id := by
  unfold recordSpan
  rw [if_pos hlen, alGet_pmSet, if_pos rfl]

theorem recordSpan_get_other (pm : PageMap) (id : Nat) (s : Span) {p : Nat}
    (h1 : p ≠ s.start) (h2 : p ≠ s.start + s.length - 1) :
    alGet (recordSpan pm id s) p = alGet pm p := by
  unfold recordSpan
  split
  · rw [alGet_pmSet, if_neg h2, alGet_pmSet, if_neg h1]
  · rw [alGet_pmSet, if_neg h1]

/-- The slots written by `recordSpan` lie inside the span's page range. -/
theorem recordSpan_get_outside (pm : PageMap) (id : Nat) (s : Span) {p : Nat}
    (hlen : 1 ≤ s.length) (hout : p < s.start ∨ s.start + s.length ≤ p) :
    alGet (recordSpan pm id s) p = alGet pm p := by
  have h1 : p ≠ s.start := by omega
  have h2 : p ≠ s.start + s.length - 1 := by omega
  exact recordSpan_get_other pm id s h1 h2

/-! ## removeId lemmas -/

theorem removeId_sublist (l : List Nat) (id : Nat) :
    List.Sublist (removeId l id) l := by
  induction l with
  | nil => simp [removeId]
  | cons x xs ih =>
    simp only [removeId]
    split
    · exact List.sublist_cons_self x xs
    · exact List.Sublist.cons₂ x ih

theorem mem_of_mem_removeId {l : List Nat} {id x : Nat}
    (hmem : x ∈ removeId l id) : x ∈ l :=
  (removeId_sublist l id).mem hmem

theorem removeId_of_not_mem {l : List Nat} {id : Nat} (h : id ∉ l) :
    removeId l id = l := by
  induction l with
  | nil => rfl
  | cons x xs ih =>
    have hx : ¬x = id := fun hc => h (List.mem_cons.mpr (Or.inl hc.symm))
    simp only [removeId]
    rw [if_neg hx, ih (fun hc => h (List.mem_cons_of_mem _ hc))]

theorem mem_removeId_of_ne {l : List Nat} {id x : Nat}
    (hmem : x ∈ l) (hne : x ≠ id) : x ∈ removeId l id := by
  induction l with
  | nil => simp at hmem
  | cons y ys ih =>
    simp only [removeId]
    rcases List.mem_cons.mp hmem with hy | hy
    · subst hy
      rw [if_neg (fun hc => hne hc)]
      exact List.mem_cons.mpr (Or.inl rfl)
    · split
      · exact hy
      · exact List.mem_cons_of_mem _ (ih hy)

theorem not_mem_removeId {l : List Nat} {id : Nat} (hnd : l.Nodup) :
    id ∉ removeId l id := by
  induction l with
  | nil => simp [removeId]
  | cons x xs ih =>
    rw [List.nodup_cons] at hnd
    simp only [removeId]
    split
    · rename_i hx
      subst hx
      exact hnd.1
    · rename_i hx
      intro hc
      rcases List.mem_cons.mp hc with hc | hc
      · exact hx hc.symm
      · exact ih hnd.2 hc

/-! ## insertSorted lemmas -/

theorem mem_insertSorted {m : SpanMap} {l : List Nat} {id x : Nat} :
    x ∈ insertSorted m l id ↔ x = id ∨ x ∈ l := by
  induction l with
  | nil => simp [insertSorted]
  | cons y ys ih =>
    simp only [insertSorted]
    split
    · simp only [List.mem_cons]
    · simp only [List.mem_cons, ih]
      tauto

theorem pairwise_insertSorted {m : SpanMap} {l : List Nat} {id : Nat}
    (hp : l.Pairwise (fun a b => keyLtB (keyOf m a) (keyOf m b) = true))
    (htot : ∀ x ∈ l, keyLtB (keyOf m id) (keyOf m x) = true ∨
                     keyLtB (keyOf m x) (keyOf m id) = true) :
    (insertSorted m l id).Pairwise
      (fun a b => keyLtB (keyOf m a) (keyOf m b) = true) := by
  induction l with
  | nil => simp [insertSorted]
  | cons y ys ih =>
    rw [List.pairwise_cons] at hp
    simp only [insertSorted]
    split
    · rename_i hlt
      rw [List.pairwise_cons]
      refine ⟨?_, List.Pairwise.cons hp.1 hp.2⟩
      intro z hz
      rcases List.mem_cons.mp hz with hz | hz
      · subst hz; exact hlt
      · exact keyLtB_trans hlt (hp.1 z hz)
    · rename_i hnlt
      rw [List.pairwise_cons]
      constructor
      · intro z hz
        rcases mem_insertSorted.mp hz with hz | hz
        · subst hz
          rcases htot y (List.mem_cons_self y ys) with hc | hc
          · exact absurd hc hnlt
          · exact hc
        · exact hp.1 z hz
      · exact ih hp.2 (fun x hx => htot x (List.mem_cons_of_mem _ hx))

/-- Re-inserting a removed element of a sorted list restores the list. -/
theorem insertSorted_removeId {m : SpanMap} {l : List Nat} {id : Nat}
    (hp : l.Pairwise (fun a b => keyLtB (keyOf m a) (keyOf m b) = true))
    (hmem : id ∈ l) :
    insertSorted m (removeId l id) id = l := by
  induction l with
  | nil => simp at hmem
  | cons y ys ih =>
    rw [List.pairwise_cons] at hp
    simp only [removeId]
    by_cases hy : y = id
    · subst hy
      rw [if_pos rfl]
      cases ys with
      | nil => rfl
      | cons z zs =>
        simp only [insertSorted]
        rw [if_pos (hp.1 z (List.mem_cons_self z zs))]
    · rw [if_neg hy]
      have hid : id ∈ ys := by
        rcases List.mem_cons.mp hmem with hc | hc
        · exact absurd hc.symm hy
        · exact hc
      simp only [insertSorted]
      have hyid : keyLtB (keyOf m y) (keyOf m id) = true := hp.1 id hid
      rw [if_neg (keyLtB_asymm hyid), ih hp.2 hid]

/-! ## Sum lemmas -/

theorem sumLenIf_le_all (P : Span → Bool) (m : SpanMap) :
    sumLenIf P m ≤ sumLenAll m := by
  induction m with
  | nil => simp [sumLenIf, sumLenAll]
  | cons e r ih =>
    simp only [sumLenIf, sumLenAll]
    split <;> omega

theorem sumLenIf_remove (P : Span → Bool) {m : SpanMap} {id : Nat} {s : Span}
    (hn : (keysOf m).Nodup) (hget : alGet m id = some s) :
    sumLenIf P m = (if P s then s.length else 0) + sumLenIf P (alRemove m id) := by
  induction m with
  | nil => simp at hget
  | cons e r ih =>
    obtain ⟨k, v⟩ := e
    rw [keysOf, List.map_cons, List.nodup_cons] at hn
    rw [alGet_cons] at hget
    by_cases hk : k = id
    · have hv : v = s := by
        rw [if_pos hk.symm] at hget
        simpa using hget
      have hnone : alGet r id = none := by
        rw [alGet_eq_none_iff]
        intro f hf hc
        apply hn.1
        rw [hk, ← hc]
        exact List.mem_map.mpr ⟨f, hf, rfl⟩
      calc sumLenIf P ((k, v) :: r)
          = (if P v then v.length else 0) + sumLenIf P r := by simp only [sumLenIf]
        _ = (if P s then s.length else 0) + sumLenIf P (alRemove ((k, v) :: r) id) := by
            simp only [alRemove, if_pos hk, alRemove_of_get_none hnone, hv]
    · rw [if_neg (fun hc => hk hc.symm)] at hget
      calc sumLenIf P ((k, v) :: r)
          = (if P v then v.length else 0) + sumLenIf P r := by simp only [sumLenIf]
        _ = (if P v then v.length else 0) +
              ((if P s then s.length else 0) + sumLenIf P (alRemove r id)) := by
            rw [ih hn.2 hget]
        _ = (if P s then s.length else 0) + sumLenIf P (alRemove ((k, v) :: r) id) := by
            simp only [alRemove, if_neg hk, sumLenIf]
            omega

theorem sumLenAll_remove {m : SpanMap} {id : Nat} {s : Span}
    (hn : (keysOf m).Nodup) (hget : alGet m id = some s) :
    sumLenAll m = s.length + sumLenAll (alRemove m id) := by
  induction m with
  | nil => simp at hget
  | cons e r ih =>
    obtain ⟨k, v⟩ := e
    rw [keysOf, List.map_cons, List.nodup_cons] at hn
    rw [alGet_cons] at hget
    by_cases hk : k = id
    · have hv : v = s := by
        rw [if_pos hk.symm] at hget
        simpa using hget
      have hnone : alGet r id = none := by
        rw [alGet_eq_none_iff]
        intro f hf hc
        apply hn.1
        rw [hk, ← hc]
        exact List.mem_map.mpr ⟨f, hf, rfl⟩
      calc sumLenAll ((k, v) :: r) = v.length + sumLenAll r := by simp only [sumLenAll]
        _ = s.length + sumLenAll (alRemove ((k, v) :: r) id) := by
            simp only [alRemove, if_pos hk, alRemove_of_get_none hnone, hv]
    · rw [if_neg (fun hc => hk hc.symm)] at hget
      calc sumLenAll ((k, v) :: r) = v.length + sumLenAll r := by simp only [sumLenAll]
        _ = v.length + (s.length + sumLenAll (alRemove r id)) := by rw [ih hn.2 hget]
        _ = s.length + sumLenAll (alRemove ((k, v) :: r) id) := by
            simp only [alRemove, if_neg hk, sumLenAll]
            omega

theorem sumLenIf_smSet_absent (P : Span → Bool) {m : SpanMap} {id : Nat}
    (s : Span) (hnone : alGet m id = none) :
    sumLenIf P (smSet m id s) = (if P s then s.length else 0) + sumLenIf P m := by
  simp only [smSet, alRemove_of_get_none hnone, sumLenIf]

theorem sumLenAll_smSet_absent {m : SpanMap} {id : Nat} (s : Span)
    (hnone : alGet m id = none) :
    sumLenAll (smSet m id s) = s.length + sumLenAll m := by
  simp only [smSet, alRemove_of_get_none hnone, sumLenAll]

theorem sumLen_split (m : SpanMap) :
    sumLenIf isNormal m + sumLenIf isReturned m + sumLenIf isInUse m = sumLenAll m := by
  induction m with
  | nil => simp [sumLenIf, sumLenAll]
  | cons e r ih =>
    simp only [sumLenIf, sumLenAll]
    cases hloc : e.2.location <;>
      simp only [isNormal, isReturned, isInUse, hloc] <;> simp <;> omega


/-! ## Frame lemmas: fields untouched by each operation -/

@[simp]
theorem removeFromFreeSet_nextId (h : Heap) (id : Nat) :
    (removeFromFreeSet h id).nextId = h.nextId := by
  unfold removeFromFreeSet
  split
  · rfl
  · split <;> rfl

@[simp]
theorem removeFromFreeSet_spans (h : Heap) (id : Nat) :
    (removeFromFreeSet h id).spans = h.spans := by
  unfold removeFromFreeSet
  split
  · rfl
  · split <;> rfl

@[simp]
theorem removeFromFreeSet_pagemap (h : Heap) (id : Nat) :
    (removeFromFreeSet h id).pagemap = h.pagemap := by
  unfold removeFromFreeSet
  split
  · rfl
  · split <;> rfl

@[simp]
theorem removeFromFreeSet_scavengeCounter (h : Heap) (id : Nat) :
    (removeFromFreeSet h id).scavengeCounter = h.scavengeCounter := by
  unfold removeFromFreeSet
  split
  · rfl
  · split <;> rfl

@[simp]
theorem removeFromFreeSet_aggressiveDecommit (h : Heap) (id : Nat) :
    (removeFromFreeSet h id).aggressiveDecommit = h.aggressiveDecommit := by
  unfold removeFromFreeSet
  split
  · rfl
  · split <;> rfl

@[simp]
theorem removeFromFreeSet_growRequests (h : Heap) (id : Nat) :
    (removeFromFreeSet h id).growRequests = h.growRequests := by
  unfold removeFromFreeSet
  split
  · rfl
  · split <;> rfl

@[simp]
theorem removeFromFreeSet_system (h : Heap) (id : Nat) :
    (removeFromFreeSet h id).stats.system_bytes = h.stats.system_bytes := by
  unfold removeFromFreeSet
  split
  · rfl
  · split <;> rfl

@[simp]
theorem removeFromFreeSet_committed (h : Heap) (id : Nat) :
    (removeFromFreeSet h id).stats.committed_bytes = h.stats.committed_bytes := by
  unfold removeFromFreeSet
  split
  · rfl
  · split <;> rfl

@[simp]
theorem insertToFreeSet_nextId (h : Heap) (id : Nat) :
    (insertToFreeSet h id).nextId = h.nextId := by
  unfold insertToFreeSet
  split
  · rfl
  · split <;> rfl

@[simp]
theorem insertToFreeSet_spans (h : Heap) (id : Nat) :
    (insertToFreeSet h id).spans = h.spans := by
  unfold insertToFreeSet
  split
  · rfl
  · split <;> rfl

@[simp]
theorem insertToFreeSet_pagemap (h : Heap) (id : Nat) :
    (insertToFreeSet h id).pagemap = h.pagemap := by
  unfold insertToFreeSet
  split
  · rfl
  · split <;> rfl

@[simp]
theorem insertToFreeSet_scavengeCounter (h : Heap) (id : Nat) :
    (insertToFreeSet h id).scavengeCounter = h.scavengeCounter := by
  unfold insertToFreeSet
  split
  · rfl
  · split <;> rfl

@[simp]
theorem insertToFreeSet_aggressiveDecommit (h : Heap) (id : Nat) :
    (insertToFreeSet h id).aggressiveDecommit = h.aggressiveDecommit := by
  unfold insertToFreeSet
  split
  · rfl
  · split <;> rfl

@[simp]
theorem insertToFreeSet_growRequests (h : Heap) (id : Nat) :
    (insertToFreeSet h id).growRequests = h.growRequests := by
  unfold insertToFreeSet
  split
  · rfl
  · split <;> rfl

@[simp]
theorem insertToFreeSet_system (h : Heap) (id : Nat) :
    (insertToFreeSet h id).stats.system_bytes = h.stats.system_bytes := by
  unfold insertToFreeSet
  split
  · rfl
  · split <;> rfl

@[simp]
theorem insertToFreeSet_committed (h : Heap) (id : Nat) :
    (insertToFreeSet h id).stats.committed_bytes = h.stats.committed_bytes := by
  unfold insertToFreeSet
  split
  · rfl
  · split <;> rfl

@[simp]
theorem doMerge_nextId (h : Heap) (pid : Nat) :
    (doMerge h pid).nextId = h.nextId := by
  unfold doMerge
  simp

@[simp]
theorem doMerge_pagemap (h : Heap) (pid : Nat) :
    (doMerge h pid).pagemap = h.pagemap := by
  unfold doMerge
  simp

@[simp]
theorem doMerge_scavengeCounter (h : Heap) (pid : Nat) :
    (doMerge h pid).scavengeCounter = h.scavengeCounter := by
  unfold doMerge
  simp

@[simp]
theorem doMerge_aggressiveDecommit (h : Heap) (pid : Nat) :
    (doMerge h pid).aggressiveDecommit = h.aggressiveDecommit := by
  unfold doMerge
  simp

@[simp]
theorem doMerge_growRequests (h : Heap) (pid : Nat) :
    (doMerge h pid).growRequests = h.growRequests := by
  unfold doMerge
  simp

@[simp]
theorem doMerge_system (h : Heap) (pid : Nat) :
    (doMerge h pid).stats.system_bytes = h.stats.system_bytes := by
  unfold doMerge
  simp

@[simp]
theorem doMerge_committed (h : Heap) (pid : Nat) :
    (doMerge h pid).stats.committed_bytes = h.stats.committed_bytes := by
  unfold doMerge
  simp

@[simp]
theorem coalesceOne_nextId (h : Heap) (sys : SysBehavior) (id : Nat) (s : Span)
    (prevSide premerge : Bool) :
    (coalesceOne h sys id s prevSide premerge).1.nextId = h.nextId := by
  unfold coalesceOne
  repeat' split
  all_goals simp [subCommitted]

@[simp]
theorem coalesceOne_pagemap (h : Heap) (sys : SysBehavior) (id : Nat) (s : Span)
    (prevSide premerge : Bool) :
    (coalesceOne h sys id s prevSide premerge).1.pagemap = h.pagemap := by
  unfold coalesceOne
  repeat' split
  all_goals simp [subCommitted]

@[simp]
theorem coalesceOne_scavengeCounter (h : Heap) (sys : SysBehavior) (id : Nat)
    (s : Span) (prevSide premerge : Bool) :
    (coalesceOne h sys id s prevSide premerge).1.scavengeCounter = h.scavengeCounter := by
  unfold coalesceOne
  repeat' split
  all_goals simp [subCommitted]

@[simp]
theorem coalesceOne_aggressiveDecommit (h : Heap) (sys : SysBehavior) (id : Nat)
    (s : Span) (prevSide premerge : Bool) :
    (coalesceOne h sys id s prevSide premerge).1.aggressiveDecommit = h.aggressiveDecommit := by
  unfold coalesceOne
  repeat' split
  all_goals simp [subCommitted]

@[simp]
theorem coalesceOne_growRequests (h : Heap) (sys : SysBehavior) (id : Nat)
    (s : Span) (prevSide premerge : Bool) :
    (coalesceOne h sys id s prevSide premerge).1.growRequests = h.growRequests := by
  unfold coalesceOne
  repeat' split
  all_goals simp [subCommitted]

@[simp]
theorem coalesceOne_system (h : Heap) (sys : SysBehavior) (id : Nat) (s : Span)
    (prevSide premerge : Bool) :
    (coalesceOne h sys id s prevSide premerge).1.stats.system_bytes = h.stats.system_bytes := by
  unfold coalesceOne
  repeat' split
  all_goals simp [subCommitted]

@[simp]
theorem mergeIntoFreeSet_nextId (h : Heap) (sys : SysBehavior) (id : Nat)
    (s : Span) (premerge : Bool) :
    (mergeIntoFreeSet h sys id s premerge).nextId = h.nextId := by
  unfold mergeIntoFreeSet
  simp

@[simp]
theorem mergeIntoFreeSet_scavengeCounter (h : Heap) (sys : SysBehavior) (id : Nat)
    (s : Span) (premerge : Bool) :
    (mergeIntoFreeSet h sys id s premerge).scavengeCounter = h.scavengeCounter := by
  unfold mergeIntoFreeSet
  simp

@[simp]
theorem mergeIntoFreeSet_aggressiveDecommit (h : Heap) (sys : SysBehavior) (id : Nat)
    (s : Span) (premerge : Bool) :
    (mergeIntoFreeSet h sys id s premerge).aggressiveDecommit = h.aggressiveDecommit := by
  unfold mergeIntoFreeSet
  simp

@[simp]
theorem mergeIntoFreeSet_growRequests (h : Heap) (sys : SysBehavior) (id : Nat)
    (s : Span) (premerge : Bool) :
    (mergeIntoFreeSet h sys id s premerge).growRequests = h.growRequests := by
  unfold mergeIntoFreeSet
  simp

@[simp]
theorem mergeIntoFreeSet_system (h : Heap) (sys : SysBehavior) (id : Nat)
    (s : Span) (premerge : Bool) :
    (mergeIntoFreeSet h sys id s premerge).stats.system_bytes = h.stats.system_bytes := by
  unfold mergeIntoFreeSet
  simp

@[simp]
theorem releaseSpan_nextId (h : Heap) (sys : SysBehavior) (id : Nat) :
    (releaseSpan h sys id).2.nextId = h.nextId := by
  unfold releaseSpan
  repeat' split
  all_goals simp

@[simp]
theorem releaseSpan_scavengeCounter (h : Heap) (sys : SysBehavior) (id : Nat) :
    (releaseSpan h sys id).2.scavengeCounter = h.scavengeCounter := by
  unfold releaseSpan
  repeat' split
  all_goals simp

@[simp]
theorem releaseSpan_aggressiveDecommit (h : Heap) (sys : SysBehavior) (id : Nat) :
    (releaseSpan h sys id).2.aggressiveDecommit = h.aggressiveDecommit := by
  unfold releaseSpan
  repeat' split
  all_goals simp

@[simp]
theorem releaseSpan_growRequests (h : Heap) (sys : SysBehavior) (id : Nat) :
    (releaseSpan h sys id).2.growRequests = h.growRequests := by
  unfold releaseSpan
  repeat' split
  all_goals simp

@[simp]
theorem releaseSpan_system (h : Heap) (sys : SysBehavior) (id : Nat) :
    (releaseSpan h sys id).2.stats.system_bytes = h.stats.system_bytes := by
  unfold releaseSpan
  repeat' split
  all_goals simp

@[simp]
theorem releaseLoop_scavengeCounter (fuel : Nat) (h : Heap) (sys : SysBehavior)
    (need : Nat) :
    (releaseLoop fuel h sys need).2.scavengeCounter = h.scavengeCounter := by
  induction fuel generalizing h need with
  | zero => rfl
  | succ fuel ih =>
    unfold releaseLoop
    split
    · rfl
    · rename_i id rest heq
      by_cases h0 : (releaseSpan h sys id).1 = 0
      · simp [h0]
      · by_cases hle : need ≤ (releaseSpan h sys id).1
        · simp [h0, hle]
        · simp [h0, hle, ih]

@[simp]
theorem releaseLoop_system (fuel : Nat) (h : Heap) (sys : SysBehavior)
    (need : Nat) :
    (releaseLoop fuel h sys need).2.stats.system_bytes = h.stats.system_bytes := by
  induction fuel generalizing h need with
  | zero => rfl
  | succ fuel ih =>
    unfold releaseLoop
    split
    · rfl
    · rename_i id rest heq
      by_cases h0 : (releaseSpan h sys id).1 = 0
      · simp [h0]
      · by_cases hle : need ≤ (releaseSpan h sys id).1
        · simp [h0, hle]
        · simp [h0, hle, ih]

@[simp]
theorem releaseLoop_nextId (fuel : Nat) (h : Heap) (sys : SysBehavior)
    (need : Nat) :
    (releaseLoop fuel h sys need).2.nextId = h.nextId := by
  induction fuel generalizing h need with
  | zero => rfl
  | succ fuel ih =>
    unfold releaseLoop
    split
    · rfl
    · rename_i id rest heq
      by_cases h0 : (releaseSpan h sys id).1 = 0
      · simp [h0]
      · by_cases hle : need ≤ (releaseSpan h sys id).1
        · simp [h0, hle]
        · simp [h0, hle, ih]

@[simp]
theorem releaseLoop_aggressiveDecommit (fuel : Nat) (h : Heap) (sys : SysBehavior)
    (need : Nat) :
    (releaseLoop fuel h sys need).2.aggressiveDecommit = h.aggressiveDecommit := by
  induction fuel generalizing h need with
  | zero => rfl
  | succ fuel ih =>
    unfold releaseLoop
    split
    · rfl
    · rename_i id rest heq
      by_cases h0 : (releaseSpan h sys id).1 = 0
      · simp [h0]
      · by_cases hle : need ≤ (releaseSpan h sys id).1
        · simp [h0, hle]
        · simp [h0, hle, ih]

@[simp]
theorem releaseLoop_growRequests (fuel : Nat) (h : Heap) (sys : SysBehavior)
    (need : Nat) :
    (releaseLoop fuel h sys need).2.growRequests = h.growRequests := by
  induction fuel generalizing h need with
  | zero => rfl
  | succ fuel ih =>
    unfold releaseLoop
    split
    · rfl
    · rename_i id rest heq
      by_cases h0 : (releaseSpan h sys id).1 = 0
      · simp [h0]
      · by_cases hle : need ≤ (releaseSpan h sys id).1
        · simp [h0, hle]
        · simp [h0, hle, ih]

@[simp]
theorem releaseAtLeastNPages_system (h : Heap) (sys : SysBehavior) (n : Nat) :
    (releaseAtLeastNPages h sys n).2.stats.system_bytes = h.stats.system_bytes := by
  unfold releaseAtLeastNPages
  simp

@[simp]
theorem carve_growRequests (h : Heap) (id n : Nat) :
    (carve h id n).growRequests = h.growRequests := by
  unfold carve
  split
  · rfl
  · rename_i s hs
    split
    · rfl
    · by_cases hloc : s.location = Location.onReturnedFreelist <;>
        by_cases hlt : n < s.length <;>
        simp [hloc, hlt]

@[simp]
theorem carve_scavengeCounter (h : Heap) (id n : Nat) :
    (carve h id n).scavengeCounter = h.scavengeCounter := by
  unfold carve
  split
  · rfl
  · rename_i s hs
    split
    · rfl
    · by_cases hloc : s.location = Location.onReturnedFreelist <;>
        by_cases hlt : n < s.length <;>
        simp [hloc, hlt]

@[simp]
theorem carve_aggressiveDecommit (h : Heap) (id n : Nat) :
    (carve h id n).aggressiveDecommit = h.aggressiveDecommit := by
  unfold carve
  split
  · rfl
  · rename_i s hs
    split
    · rfl
    · by_cases hloc : s.location = Location.onReturnedFreelist <;>
        by_cases hlt : n < s.length <;>
        simp [hloc, hlt]

@[simp]
theorem growHeap_growRequests (h : Heap) (sys : SysBehavior) (ask : Nat) :
    (growHeap h sys ask).growRequests = ask :: h.growRequests := by
  unfold growHeap
  split
  · rfl
  · simp


/-! ## Claim C10 -/

/-- Claim C10: for every heap state and boolean b, `GetAggressiveDecommit`
read after `SetAggressiveDecommit b` returns b, and `SetAggressiveDecommit`
changes no heap state other than the aggressive-decommit flag: the span
store, pagemap, free structures, stats, id supply, scavenge counter and
grow-request trace are unchanged. -/
theorem claim_C10 (h : Heap) (b : Bool) :
    GetAggressiveDecommit (SetAggressiveDecommit h b) = b ∧
    (SetAggressiveDecommit h b).spans = h.spans ∧
    (SetAggressiveDecommit h b).pagemap = h.pagemap ∧
    (SetAggressiveDecommit h b).normalFree = h.normalFree ∧
    (SetAggressiveDecommit h b).returnedFree = h.returnedFree ∧
    (SetAggressiveDecommit h b).stats = h.stats ∧
    (SetAggressiveDecommit h b).nextId = h.nextId ∧
    (SetAggressiveDecommit h b).scavengeCounter = h.scavengeCounter ∧
    (SetAggressiveDecommit h b).growRequests = h.growRequests :=
  ⟨rfl, rfl, rfl, rfl, rfl, rfl, rfl, rfl, rfl⟩

/-! ## Claim C9 -/

/-- Claim C9: a probe hit of the size-class cache is never the sentinel 0,
`GetSizeClassOrZero` returns the cached size class exactly when
`TryGetSizeClass` succeeds and 0 exactly when the probe misses (it is a
total function, so it never faults), and a `SetCachedSizeClass` that
respects the `cl != 0` assertion of the source is a visible non-zero hit. -/
theorem claim_C9 (c : PackedCache) (p : Nat) :
    (∀ v, TryGetSizeClass c p = some v → v ≠ 0) ∧
    (∀ v, TryGetSizeClass c p = some v → GetSizeClassOrZero c p = v) ∧
    (TryGetSizeClass c p = none → GetSizeClassOrZero c p = 0) ∧
    (GetSizeClassOrZero c p = 0 ↔ TryGetSizeClass c p = none) ∧
    (∀ cl, cl ≠ 0 → TryGetSizeClass (SetCachedSizeClass c p cl) p = some cl) := by
  have hitNZ : ∀ v, TryGetSizeClass c p = some v → v ≠ 0 := by
    intro v hv
    unfold TryGetSizeClass cacheTryGet at hv
    split at hv
    · split at hv
      · rename_i hcond
        injection hv with hv
        rw [← hv]
        exact hcond.2
      · simp at hv
    · simp at hv
  refine ⟨hitNZ, ?_, ?_, ?_, ?_⟩
  · intro v hv
    unfold GetSizeClassOrZero
    rw [hv]
  · intro hnone
    unfold GetSizeClassOrZero
    rw [hnone]
  · constructor
    · intro h0
      rcases htry : TryGetSizeClass c p with _ | v
      · rfl
      · exfalso
        apply hitNZ v htry
        unfold GetSizeClassOrZero at h0
        rw [htry] at h0
        exact h0
    · intro hnone
      unfold GetSizeClassOrZero
      rw [hnone]
  · intro cl hcl
    unfold TryGetSizeClass cacheTryGet SetCachedSizeClass cachePut
    rw [alGet_cons, if_pos rfl]
    exact if_pos ⟨rfl, hcl⟩

/-- Witness for claim C9: a put of size class 3 for page 5 into the empty
cache is a visible non-zero hit. -/
theorem claim_C9_witness :
    TryGetSizeClass (SetCachedSizeClass ⟨[]⟩ 5 3) 5 = some 3 :=
  (claim_C9 ⟨[]⟩ 5).2.2.2.2 3 (by decide)

/-! ## Claim C7 -/

/-- Claim C7 counterexample: a 32-bit address space is narrower than 48 bits
yet `MapSelector<32>` picks the two-level map, not a three-level one. -/
theorem claim_C7_counterexample :
    32 < 48 ∧ mapSelectorLevels 32 false = 2 ∧ mapSelectorLevels 32 false ≠ 3 :=
  ⟨by norm_num, by decide, by decide⟩

/-- Claim C7 (amended): the pagemap has two or three interior levels chosen
by virtual-address width: a 48-bit address space uses the two-level map
unless the build is memory-conscious (TCMALLOC_SMALL_BUT_SLOW), a 32-bit
address space also uses the two-level map, and any other width, as well as
a memory-conscious 48-bit build, uses the three-level map. -/
theorem claim_C7 :
    mapSelectorLevels 48 false = 2 ∧
    mapSelectorLevels 48 true = 3 ∧
    (∀ sbs, mapSelectorLevels 32 sbs = 2) ∧
    (∀ bits sbs, bits ≠ 48 → bits ≠ 32 → mapSelectorLevels bits sbs = 3) := by
  refine ⟨by decide, by decide, ?_, ?_⟩
  · intro sbs
    cases sbs <;> decide
  · intro bits sbs h48 h32
    unfold mapSelectorLevels
    rw [if_neg (fun hc => h48 hc.1), if_neg h32]

/-- Witness for claim C7: a 40-bit build uses the three-level map. -/
theorem claim_C7_witness : mapSelectorLevels 40 false = 3 :=
  claim_C7.2.2.2 40 false (by decide) (by decide)


/-! ## Claim C3 -/

/-- Claim C3: under the REQUIRES clauses of Split (span IN_USE, sizeclass 0,
0 < n < length) and with the heap invariant (so the span store id supply is
fresh), `splitSpan` returns a new span with the heap's next id describing
exactly [start+n, start+length), IN_USE with sizeclass 0; the original span
is shrunk to n pages and stays IN_USE; the pagemap maps the new spans'
first and last pages (the tail's first page and, when it is longer than one
page, its last page, to the tail; the shrunk span's new last page to the
span); and neither the free structures nor the stats — in particular the
committed byte count, i.e. the commit state — change. -/
theorem claim_C3 (h : Heap) (id n : Nat) (s : Span)
    (hinv : Inv h)
    (hget : alGet h.spans id = some s)
    (hloc : s.location = Location.inUse)
    (hsc : s.sizeclass = 0)
    (hn0 : 0 < n) (hnlen : n < s.length) :
    (splitSpan h id n).1 = some h.nextId ∧
    alGet (splitSpan h id n).2.spans h.nextId =
      some { start := s.start + n, length := s.length - n,
             location := Location.inUse, sizeclass := 0, sample := false } ∧
    alGet (splitSpan h id n).2.spans id = some { s with length := n } ∧
    ({ s with length := n } : Span).location = Location.inUse ∧
    alGet (splitSpan h id n).2.pagemap (s.start + n) = some h.nextId ∧
    (1 < s.length - n →
      alGet (splitSpan h id n).2.pagemap (s.start + s.length - 1) = some h.nextId) ∧
    alGet (splitSpan h id n).2.pagemap (s.start + n - 1) = some id ∧
    (splitSpan h id n).2.normalFree = h.normalFree ∧
    (splitSpan h id n).2.returnedFree = h.returnedFree ∧
    (splitSpan h id n).2.stats = h.stats := by
  have hidlt : id < h.nextId := hinv.keysLt _ (alGet_mem hget)
  have hids : id ≠ h.nextId := by omega
  unfold splitSpan
  simp only [hget]
  rw [if_pos ⟨hloc, hsc, hn0, hnlen⟩]
  refine ⟨rfl, ?_, ?_, by rw [hloc], ?_, ?_, ?_, rfl, rfl, rfl⟩
  · exact alGet_smSet_self _ _ _
  · rw [alGet_smSet_ne _ _ hids, alGet_smSet_self]
  · rw [alGet_pmSet, if_neg (by omega)]
    exact recordSpan_get_start _ _ _
  · intro htl
    rw [alGet_pmSet, if_neg (by omega)]
    have harith : s.start + s.length - 1 = s.start + n + (s.length - n) - 1 := by
      omega
    rw [harith]
    exact recordSpan_get_last _ _ _ htl
  · rw [alGet_pmSet, if_pos rfl]

/-- Witness for claim C3: splitting the 4-page in-use span of `heapW1` at
n = 1 hands out span 1 describing pages [2, 5). -/
theorem claim_C3_witness :
    (splitSpan heapW1 0 1).1 = some heapW1.nextId ∧
    alGet (splitSpan heapW1 0 1).2.spans heapW1.nextId =
      some { start := 2, length := 3, location := Location.inUse,
             sizeclass := 0, sample := false } :=
  have hc := claim_C3 heapW1 0 1 ⟨1, 4, Location.inUse, 0, false⟩
    (by decide) (by decide) (by decide) (by decide) (by decide) (by decide)
  ⟨hc.1, hc.2.1⟩

/-! ## Claim C8 -/

theorem searchFree_of_empty (h : Heap) (n : Nat)
    (hnf : h.normalFree = []) (hrf : h.returnedFree = []) :
    searchFree h n = none := by
  unfold searchFree
  rw [hnf, hrf]
  rfl

/-- Claim C8: on the grow path the heap requests exactly
max(n, kMinSystemAlloc) pages from the system allocator, where
kMinSystemAlloc = 2 (the alignment slack is supplied by the allocator on
top of the request); in particular `new(n)` on a heap with empty free
structures records that request, and for n = 4 with 4096-byte pages the
request is at least kMinSystemAlloc pages, i.e. at least 8192 bytes. -/
theorem claim_C8 (h : Heap) (sys : SysBehavior) (n : Nat)
    (hn : 0 < n) (hnf : h.normalFree = []) (hrf : h.returnedFree = []) :
    (newSpan h sys n).2.growRequests = (max n kMinSystemAlloc) :: h.growRequests ∧
    kMinSystemAlloc ≤ max n kMinSystemAlloc ∧
    kMinSystemAlloc = 2 ∧
    8192 ≤ max 4 kMinSystemAlloc * kPageSize ∧
    kMinSystemAlloc * kPageSize = 8192 := by
  refine ⟨?_, le_max_right n kMinSystemAlloc, rfl, by decide, by decide⟩
  unfold newSpan
  rw [if_neg (by omega), searchFree_of_empty h n hnf hrf]
  rcases hsearch : searchFree (growHeap h sys (max n kMinSystemAlloc)) n with _ | id <;>
    simp [hsearch, growHeap_growRequests]

/-- Witness for claim C8: `new(4)` on the empty heap records a system
request of max(4, kMinSystemAlloc) = 4 pages. -/
theorem claim_C8_witness :
    (newSpan emptyHeap sysW 4).2.growRequests =
      (max 4 kMinSystemAlloc) :: emptyHeap.growRequests :=
  (claim_C8 emptyHeap sysW 4 (by decide) rfl rfl).1

/-! ## Claim C6 -/

/-- Claim C6: the deallocation path decrements `scavenge_counter_` by the
deallocated span's length; once the counter is no longer positive the
scavenger attempts `release_at_least(1)` and resets the counter to
kDefaultReleaseDelay = 2^18 on success (about 1 GiB at 4 KiB pages:
2^18 * 4096 = 2^30 bytes) and to kMaxReleaseDelay = 2^20 on failure
(about 4 GiB: 2^20 * 4096 = 2^32 bytes). -/
theorem claim_C6 (h : Heap) (sys : SysBehavior) (n : Nat) :
    kDefaultReleaseDelay = 2 ^ 18 ∧
    kMaxReleaseDelay = 2 ^ 20 ∧
    ((2 ^ 18 : Nat) * kPageSize = 2 ^ 30) ∧
    ((2 ^ 20 : Nat) * kPageSize = 2 ^ 32) ∧
    (0 < h.scavengeCounter - (n : Int) →
      incrementalScavenge h sys n =
        { h with scavengeCounter := h.scavengeCounter - (n : Int) }) ∧
    (h.scavengeCounter - (n : Int) ≤ 0 →
      incrementalScavenge h sys n =
        (if 0 < (releaseAtLeastNPages
                  { h with scavengeCounter := h.scavengeCounter - (n : Int) } sys 1).1 then
          { (releaseAtLeastNPages
              { h with scavengeCounter := h.scavengeCounter - (n : Int) } sys 1).2 with
            scavengeCounter := kDefaultReleaseDelay }
        else
          { (releaseAtLeastNPages
              { h with scavengeCounter := h.scavengeCounter - (n : Int) } sys 1).2 with
            scavengeCounter := kMaxReleaseDelay })) ∧
    (∀ id s, alGet h.spans id = some s → s.location = Location.inUse →
      0 < h.scavengeCounter - (s.length : Int) →
      (deleteSpan h sys id).scavengeCounter = h.scavengeCounter - (s.length : Int)) := by
  refine ⟨rfl, rfl, by decide, by decide, ?_, ?_, ?_⟩
  · intro hpos
    unfold incrementalScavenge
    rw [if_pos hpos]
  · intro hnonpos
    unfold incrementalScavenge
    rw [if_neg (by omega)]
  · intro id s hget hloc hpos
    unfold deleteSpan
    simp only [hget]
    rw [if_neg (by simp [hloc])]
    have hmid : ∀ h2 : Heap, h2.scavengeCounter = h.scavengeCounter →
        (incrementalScavenge h2 sys s.length).scavengeCounter =
          h.scavengeCounter - (s.length : Int) := by
      intro h2 hc
      unfold incrementalScavenge
      rw [hc, if_pos hpos]
    apply hmid
    rw [mergeIntoFreeSet_scavengeCounter]
    split
    · split <;> rfl
    · rfl

/-- Witness for claim C6: after the failed-release delete of `heapW2` the
counter sits at kMaxReleaseDelay, so a further scavenge by 1 page only
decrements it. -/
theorem claim_C6_witness :
    incrementalScavenge heapW2 sysF 1 =
      { heapW2 with scavengeCounter := heapW2.scavengeCounter - (1 : Int) } :=
  (claim_C6 heapW2 sysF 1).2.2.2.2.1 (by decide)


/-! ## Claim C4 -/

/-- Removing a normal-free span from the free structure and re-inserting it
restores the heap exactly: the sorted free list is restored by
`insertSorted_removeId` and the free-byte count by `Nat.sub_add_cancel`. -/
theorem insert_remove_restore (h : Heap) (id : Nat) (s : Span)
    (hinv : Inv h) (hget : alGet h.spans id = some s)
    (hloc : s.location = Location.onNormalFreelist)
    (hmem : id ∈ h.normalFree) :
    insertToFreeSet (removeFromFreeSet h id) id = h := by
  have hB : spanBytes s ≤ h.stats.free_bytes := by
    rw [hinv.statsInv.free_eq, sumLenIf_remove isNormal hinv.core.nodup hget,
        if_pos (by simp [isNormal, hloc])]
    unfold spanBytes
    rw [Nat.mul_add]
    exact Nat.le_add_right _ _
  unfold removeFromFreeSet insertToFreeSet
  simp only [hget, hloc]
  rw [insertSorted_removeId hinv.lists.nfSorted hmem, Nat.sub_add_cancel hB]

/-- Claim C4: when `ReleaseSpan` is applied to a span on the NORMAL free
structure and the decommit of its page range fails, it returns 0 and
re-inserts the span, leaving the heap state — free structures and stats —
exactly as before the attempt: the removal is paired with a re-insertion on
the failure branch. -/
theorem claim_C4 (h : Heap) (sys : SysBehavior) (id : Nat) (s : Span)
    (hinv : Inv h) (hget : alGet h.spans id = some s) (hmem : id ∈ h.normalFree)
    (hfail : sys.decommitOk s.start s.length = false) :
    releaseSpan h sys id = (0, h) := by
  have hlocOf := hinv.lists.nfSub id hmem
  unfold locOf at hlocOf
  rw [hget] at hlocOf
  have hloc : s.location = Location.onNormalFreelist := by
    simpa using hlocOf
  unfold releaseSpan
  simp only [hget]
  rw [if_neg (by simp [hloc]), if_neg (by simp [hfail])]
  rw [insert_remove_restore h id s hinv hget hloc hmem]

/-- Witness for claim C4: releasing the 4-page normal span of `heapW2` under
an allocator that fails every decommit returns 0 and leaves the heap
unchanged. -/
theorem claim_C4_witness : releaseSpan heapW2 sysF 0 = (0, heapW2) :=
  claim_C4 heapW2 sysF 0 ⟨1, 4, Location.onNormalFreelist, 0, false⟩
    (by decide) (by decide) (by decide) (by decide)


/-! ## Characterization lemmas for the free-structure primitives -/

theorem removeFromFreeSet_eq_normal {h : Heap} {id : Nat} {s : Span}
    (hget : alGet h.spans id = some s)
    (hloc : s.location = Location.onNormalFreelist) :
    removeFromFreeSet h id =
      { h with normalFree := removeId h.normalFree id,
               stats := { h.stats with
                 free_bytes := h.stats.free_bytes - spanBytes s } } := by
  unfold removeFromFreeSet
  simp only [hget, hloc]

theorem removeFromFreeSet_eq_returned {h : Heap} {id : Nat} {s : Span}
    (hget : alGet h.spans id = some s)
    (hloc : s.location = Location.onReturnedFreelist) :
    removeFromFreeSet h id =
      { h with returnedFree := removeId h.returnedFree id,
               stats := { h.stats with
                 unmapped_bytes := h.stats.unmapped_bytes - spanBytes s } } := by
  unfold removeFromFreeSet
  simp only [hget, hloc]

theorem insertToFreeSet_eq_normal {h : Heap} {id : Nat} {s : Span}
    (hget : alGet h.spans id = some s)
    (hloc : s.location = Location.onNormalFreelist) :
    insertToFreeSet h id =
      { h with normalFree := insertSorted h.spans h.normalFree id,
               stats := { h.stats with
                 free_bytes := h.stats.free_bytes + spanBytes s } } := by
  unfold insertToFreeSet
  simp only [hget, hloc]

theorem insertToFreeSet_eq_returned {h : Heap} {id : Nat} {s : Span}
    (hget : alGet h.spans id = some s)
    (hloc : s.location = Location.onReturnedFreelist) :
    insertToFreeSet h id =
      { h with returnedFree := insertSorted h.spans h.returnedFree id,
               stats := { h.stats with
                 unmapped_bytes := h.stats.unmapped_bytes + spanBytes s } } := by
  unfold insertToFreeSet
  simp only [hget, hloc]

theorem doMerge_eq_normal {h : Heap} {pid : Nat} {p : Span}
    (hpget : alGet h.spans pid = some p)
    (hploc : p.location = Location.onNormalFreelist) :
    doMerge h pid =
      { h with spans := alRemove h.spans pid,
               normalFree := removeId h.normalFree pid,
               stats := { h.stats with
                 free_bytes := h.stats.free_bytes - spanBytes p } } := by
  unfold doMerge
  rw [removeFromFreeSet_eq_normal hpget hploc]

theorem doMerge_eq_returned {h : Heap} {pid : Nat} {p : Span}
    (hpget : alGet h.spans pid = some p)
    (hploc : p.location = Location.onReturnedFreelist) :
    doMerge h pid =
      { h with spans := alRemove h.spans pid,
               returnedFree := removeId h.returnedFree pid,
               stats := { h.stats with
                 unmapped_bytes := h.stats.unmapped_bytes - spanBytes p } } := by
  unfold doMerge
  rw [removeFromFreeSet_eq_returned hpget hploc]

/-! ## Structural helpers for the invariant proofs -/

theorem spanDisj_symm {a b : Span} (hd : SpanDisj a b) : SpanDisj b a := by
  unfold SpanDisj at *
  omega

theorem sorted_nodup {m : SpanMap} {l : List Nat}
    (hp : l.Pairwise (fun a b => keyLtB (keyOf m a) (keyOf m b) = true)) :
    l.Nodup := by
  refine hp.imp ?_
  intro a b hab
  intro hc
  subst hc
  exact keyLtB_asymm hab hab

theorem pairwise_keyOf_congr {m m2 : SpanMap} {l : List Nat}
    (hmk : ∀ x ∈ l, keyOf m2 x = keyOf m x)
    (hp : l.Pairwise (fun a b => keyLtB (keyOf m a) (keyOf m b) = true)) :
    l.Pairwise (fun a b => keyLtB (keyOf m2 a) (keyOf m2 b) = true) := by
  refine List.Pairwise.imp_of_mem ?_ hp
  intro a b ha hb hab
  rw [hmk a ha, hmk b hb]
  exact hab

theorem keyOf_alRemove_ne {m : SpanMap} {id x : Nat} (hne : x ≠ id) :
    keyOf (alRemove m id) x = keyOf m x := by
  unfold keyOf
  rw [alGet_alRemove_ne m hne]

theorem invCore_alRemove {m : SpanMap} {pm : PageMap} (hc : InvCore m pm)
    (pid : Nat) : InvCore (alRemove m pid) pm := by
  refine ⟨keysOf_nodup_alRemove hc.nodup pid, ?_, ?_, ?_, ?_, ?_⟩
  · exact fun e he => hc.startPos e (mem_alRemove.mp he).1
  · exact fun e he => hc.lenPos e (mem_alRemove.mp he).1
  · exact hc.disj.sublist (alRemove_sublist m pid)
  · exact fun e he => hc.pmFirst e (mem_alRemove.mp he).1
  · exact fun e he hl => hc.pmLast e (mem_alRemove.mp he).1 hl

theorem alGet_alRemove_none {m : SpanMap} {id : Nat}
    (hnone : alGet m id = none) (pid : Nat) :
    alGet (alRemove m pid) id = none := by
  by_cases hip : id = pid
  · subst hip
    exact alGet_alRemove_self m id
  · rw [alGet_alRemove_ne m hip]
    exact hnone

theorem disj_of_mem_mem {m : SpanMap} (hd : m.Pairwise (fun a b => SpanDisj a.2 b.2))
    {e f : Nat × Span} (he : e ∈ m) (hf : f ∈ m) (hne : e.1 ≠ f.1) :
    SpanDisj e.2 f.2 := by
  have hsym : Symmetric (fun a b : Nat × Span => SpanDisj a.2 b.2) := by
    intro a b hab
    exact spanDisj_symm hab
  exact hd.forall hsym he hf (fun hc => hne (by rw [hc]))

/-- Removing a normal span from the span store and its id from the normal
free structure preserves the free-structure invariant. -/
theorem listsInv_removeNormal {m : SpanMap} {nf rf : List Nat} {pid : Nat} {p : Span}
    (hl : ListsInv m nf rf) (hpget : alGet m pid = some p)
    (hploc : p.location = Location.onNormalFreelist) :
    ListsInv (alRemove m pid) (removeId nf pid) rf := by
  have hnfNodup : nf.Nodup := sorted_nodup hl.nfSorted
  refine ⟨?_, ?_, ?_, ?_, ?_, ?_⟩
  · intro x hx
    have hxm : x ∈ nf := mem_of_mem_removeId hx
    have hxne : x ≠ pid := by
      intro hc
      subst hc
      exact not_mem_removeId hnfNodup hx
    unfold locOf
    rw [alGet_alRemove_ne m hxne]
    exact hl.nfSub x hxm
  · intro e he hloc2
    have hem := mem_alRemove.mp he
    exact mem_removeId_of_ne (hl.nfFull e hem.1 hloc2) hem.2
  · refine pairwise_keyOf_congr ?_ (hl.nfSorted.sublist (removeId_sublist nf pid))
    intro x hx
    refine keyOf_alRemove_ne ?_
    intro hc
    subst hc
    exact not_mem_removeId hnfNodup hx
  · intro x hx
    have hxne : x ≠ pid := by
      intro hc
      rw [hc] at hx
      have hcontra := hl.rfSub pid hx
      unfold locOf at hcontra
      rw [hpget] at hcontra
      simp [hploc] at hcontra
    unfold locOf
    rw [alGet_alRemove_ne m hxne]
    exact hl.rfSub x hx
  · intro e he hloc2
    exact hl.rfFull e (mem_alRemove.mp he).1 hloc2
  · refine pairwise_keyOf_congr ?_ hl.rfSorted
    intro x hx
    refine keyOf_alRemove_ne ?_
    intro hc
    rw [hc] at hx
    have hcontra := hl.rfSub pid hx
    unfold locOf at hcontra
    rw [hpget] at hcontra
    simp [hploc] at hcontra

/-- Removing a returned span from the span store and its id from the
returned free structure preserves the free-structure invariant. -/
theorem listsInv_removeReturned {m : SpanMap} {nf rf : List Nat} {pid : Nat} {p : Span}
    (hl : ListsInv m nf rf) (hpget : alGet m pid = some p)
    (hploc : p.location = Location.onReturnedFreelist) :
    ListsInv (alRemove m pid) nf (removeId rf pid) := by
  have hrfNodup : rf.Nodup := sorted_nodup hl.rfSorted
  refine ⟨?_, ?_, ?_, ?_, ?_, ?_⟩
  · intro x hx
    have hxne : x ≠ pid := by
      intro hc
      rw [hc] at hx
      have hcontra := hl.nfSub pid hx
      unfold locOf at hcontra
      rw [hpget] at hcontra
      simp [hploc] at hcontra
    unfold locOf
    rw [alGet_alRemove_ne m hxne]
    exact hl.nfSub x hx
  · intro e he hloc2
    exact hl.nfFull e (mem_alRemove.mp he).1 hloc2
  · refine pairwise_keyOf_congr ?_ hl.nfSorted
    intro x hx
    refine keyOf_alRemove_ne ?_
    intro hc
    rw [hc] at hx
    have hcontra := hl.nfSub pid hx
    unfold locOf at hcontra
    rw [hpget] at hcontra
    simp [hploc] at hcontra
  · intro x hx
    have hxm : x ∈ rf := mem_of_mem_removeId hx
    have hxne : x ≠ pid := by
      intro hc
      subst hc
      exact not_mem_removeId hrfNodup hx
    unfold locOf
    rw [alGet_alRemove_ne m hxne]
    exact hl.rfSub x hxm
  · intro e he hloc2
    have hem := mem_alRemove.mp he
    exact mem_removeId_of_ne (hl.rfFull e hem.1 hloc2) hem.2
  · refine pairwise_keyOf_congr ?_ (hl.rfSorted.sublist (removeId_sublist rf pid))
    intro x hx
    refine keyOf_alRemove_ne ?_
    intro hc
    subst hc
    exact not_mem_removeId hrfNodup hx


/-! ## mergedSpan facts -/

theorem mergedSpan_location (s p : Span) (b : Bool) :
    (mergedSpan s p b).location = s.location := by
  unfold mergedSpan
  split <;> rfl

theorem mergedSpan_length (s p : Span) (b : Bool) :
    (mergedSpan s p b).length = s.length + p.length := by
  unfold mergedSpan
  split
  · show p.length + s.length = s.length + p.length
    omega
  · rfl

/-! ## The merge step preserves the mid-free invariant -/

/-- Merging an adjacent free neighbor of the same location into the
in-flight span preserves the mid-free invariant. -/
theorem invMid_merge_eqloc {h : Heap} {id pid : Nat} {s p : Span} {prevSide : Bool}
    (hm : InvMid h id s)
    (hpget : alGet h.spans pid = some p)
    (hadj : if prevSide = true then p.start + p.length = s.start
            else p.start = s.start + s.length)
    (heq : p.location = s.location) :
    InvMid (doMerge h pid) id (mergedSpan s p prevSide) := by
  have hpmem : (pid, p) ∈ h.spans := alGet_mem hpget
  have hpdisj : SpanDisj p s := hm.sDisj _ hpmem
  have hplen : 1 ≤ p.length := hm.core.lenPos _ hpmem
  have hpstart : 1 ≤ p.start := hm.core.startPos _ hpmem
  have hkeysLt : ∀ e ∈ alRemove h.spans pid, e.1 < h.nextId :=
    fun e he => hm.keysLt e (mem_alRemove.mp he).1
  have hsDisj : ∀ e ∈ alRemove h.spans pid, SpanDisj e.2 (mergedSpan s p prevSide) := by
    intro e he
    obtain ⟨hem, hne⟩ := mem_alRemove.mp he
    have hd1 : SpanDisj e.2 s := hm.sDisj e hem
    have hd2 : SpanDisj e.2 p := disj_of_mem_mem hm.core.disj hem hpmem hne
    have helen : 1 ≤ e.2.length := hm.core.lenPos e hem
    have hslen : 1 ≤ s.length := hm.sLen
    unfold SpanDisj at hd1 hd2
    cases prevSide
    · simp only [Bool.false_eq_true, if_false] at hadj
      show e.2.start + e.2.length ≤ s.start ∨ s.start + (s.length + p.length) ≤ e.2.start
      omega
    · simp only [if_pos] at hadj
      show e.2.start + e.2.length ≤ p.start ∨ p.start + (p.length + s.length) ≤ e.2.start
      omega
  have hsStart : 1 ≤ (mergedSpan s p prevSide).start := by
    have h1 := hm.sStart
    unfold mergedSpan
    split
    · exact hpstart
    · exact h1
  have hsLen : 1 ≤ (mergedSpan s p prevSide).length := by
    rw [mergedSpan_length]
    have := hm.sLen
    omega
  have hsFreeLoc : (mergedSpan s p prevSide).location ≠ Location.inUse := by
    rw [mergedSpan_location]
    exact hm.sFreeLoc
  have hsysEq : h.stats.system_bytes =
      kPageSize * (sumLenAll (alRemove h.spans pid) + (mergedSpan s p prevSide).length) := by
    rw [hm.system_eq, sumLenAll_remove hm.core.nodup hpget, mergedSpan_length]
    ring
  rcases hsloc : s.location with _ | _ | _
  · exact absurd hsloc hm.sFreeLoc
  · -- both normal
    have hploc : p.location = Location.onNormalFreelist := by rw [heq, hsloc]
    have hdecN := sumLenIf_remove isNormal hm.core.nodup hpget
    rw [if_pos (by simp [isNormal, hploc])] at hdecN
    have hdecR := sumLenIf_remove isReturned hm.core.nodup hpget
    rw [if_neg (by simp [isReturned, hploc])] at hdecR
    rw [doMerge_eq_normal hpget hploc]
    refine ⟨invCore_alRemove hm.core pid,
            listsInv_removeNormal hm.lists hpget hploc,
            hkeysLt, hm.idLt, alGet_alRemove_none hm.idAbsent pid,
            hsStart, hsLen, hsDisj, hsFreeLoc, ?_, ?_, hsysEq, ?_⟩
    · show h.stats.free_bytes - spanBytes p =
        kPageSize * sumLenIf isNormal (alRemove h.spans pid)
      rw [hm.free_eq, hdecN, Nat.mul_add]
      unfold spanBytes
      omega
    · show h.stats.unmapped_bytes =
        kPageSize * sumLenIf isReturned (alRemove h.spans pid)
      rw [Nat.zero_add] at hdecR
      rw [hm.unmapped_eq, hdecR]
    · show h.stats.committed_bytes + h.stats.unmapped_bytes
        + (if (mergedSpan s p prevSide).location = Location.onReturnedFreelist
           then spanBytes (mergedSpan s p prevSide) else 0)
        = h.stats.system_bytes
      rw [if_neg (by rw [mergedSpan_location, hsloc]; simp)]
      have hcm := hm.committed_eq
      rw [if_neg (by rw [hsloc]; simp)] at hcm
      omega
  · -- both returned
    have hploc : p.location = Location.onReturnedFreelist := by rw [heq, hsloc]
    have hdecN := sumLenIf_remove isNormal hm.core.nodup hpget
    rw [if_neg (by simp [isNormal, hploc])] at hdecN
    have hdecR := sumLenIf_remove isReturned hm.core.nodup hpget
    rw [if_pos (by simp [isReturned, hploc])] at hdecR
    rw [doMerge_eq_returned hpget hploc]
    refine ⟨invCore_alRemove hm.core pid,
            listsInv_removeReturned hm.lists hpget hploc,
            hkeysLt, hm.idLt, alGet_alRemove_none hm.idAbsent pid,
            hsStart, hsLen, hsDisj, hsFreeLoc, ?_, ?_, hsysEq, ?_⟩
    · show h.stats.free_bytes =
        kPageSize * sumLenIf isNormal (alRemove h.spans pid)
      rw [Nat.zero_add] at hdecN
      rw [hm.free_eq, hdecN]
    · show h.stats.unmapped_bytes - spanBytes p =
        kPageSize * sumLenIf isReturned (alRemove h.spans pid)
      rw [hm.unmapped_eq, hdecR, Nat.mul_add]
      unfold spanBytes
      omega
    · show h.stats.committed_bytes + (h.stats.unmapped_bytes - spanBytes p)
        + (if (mergedSpan s p prevSide).location = Location.onReturnedFreelist
           then spanBytes (mergedSpan s p prevSide) else 0)
        = h.stats.system_bytes
      rw [if_pos (by rw [mergedSpan_location, hsloc])]
      have hcm := hm.committed_eq
      rw [if_pos hsloc] at hcm
      have hunm := hm.unmapped_eq
      rw [hdecR, Nat.mul_add] at hunm
      unfold spanBytes at *
      rw [mergedSpan_length, Nat.mul_add]
      omega


/-- Merging the in-flight normal span into an adjacent returned neighbor
after decommitting the in-flight span preserves the mid-free invariant. -/
theorem invMid_merge_decommitSelf {h : Heap} {id pid : Nat} {s p : Span}
    {prevSide : Bool}
    (hm : InvMid h id s)
    (hpget : alGet h.spans pid = some p)
    (hadj : if prevSide = true then p.start + p.length = s.start
            else p.start = s.start + s.length)
    (hsloc : s.location = Location.onNormalFreelist)
    (hploc : p.location = Location.onReturnedFreelist) :
    InvMid (doMerge (subCommitted h (spanBytes s)) pid) id
      { mergedSpan s p prevSide with location := Location.onReturnedFreelist } := by
  have hpmem : (pid, p) ∈ h.spans := alGet_mem hpget
  have hplen : 1 ≤ p.length := hm.core.lenPos _ hpmem
  have hpstart : 1 ≤ p.start := hm.core.startPos _ hpmem
  have hkeysLt : ∀ e ∈ alRemove h.spans pid, e.1 < h.nextId :=
    fun e he => hm.keysLt e (mem_alRemove.mp he).1
  have hsDisj : ∀ e ∈ alRemove h.spans pid,
      SpanDisj e.2 (mergedSpan s p prevSide) := by
    intro e he
    obtain ⟨hem, hne⟩ := mem_alRemove.mp he
    have hd1 : SpanDisj e.2 s := hm.sDisj e hem
    have hd2 : SpanDisj e.2 p := disj_of_mem_mem hm.core.disj hem hpmem hne
    have helen : 1 ≤ e.2.length := hm.core.lenPos e hem
    have hslen : 1 ≤ s.length := hm.sLen
    unfold SpanDisj at hd1 hd2
    cases prevSide
    · simp only [Bool.false_eq_true, if_false] at hadj
      show e.2.start + e.2.length ≤ s.start ∨ s.start + (s.length + p.length) ≤ e.2.start
      omega
    · simp only [if_pos] at hadj
      show e.2.start + e.2.length ≤ p.start ∨ p.start + (p.length + s.length) ≤ e.2.start
      omega
  have hsStart : 1 ≤ (mergedSpan s p prevSide).start := by
    have h1 := hm.sStart
    unfold mergedSpan
    split
    · exact hpstart
    · exact h1
  have hsLen : 1 ≤ (mergedSpan s p prevSide).length := by
    rw [mergedSpan_length]
    have := hm.sLen
    omega
  have hdecN := sumLenIf_remove isNormal hm.core.nodup hpget
  rw [if_neg (by simp [isNormal, hploc])] at hdecN
  rw [Nat.zero_add] at hdecN
  have hdecR := sumLenIf_remove isReturned hm.core.nodup hpget
  rw [if_pos (by simp [isReturned, hploc])] at hdecR
  have hpget2 : alGet (subCommitted h (spanBytes s)).spans pid = some p := hpget
  rw [doMerge_eq_returned hpget2 hploc]
  refine ⟨invCore_alRemove hm.core pid,
          listsInv_removeReturned hm.lists hpget hploc,
          hkeysLt, hm.idLt, alGet_alRemove_none hm.idAbsent pid,
          hsStart, hsLen, hsDisj, by simp, ?_, ?_, ?_, ?_⟩
  · show h.stats.free_bytes = kPageSize * sumLenIf isNormal (alRemove h.spans pid)
    rw [hm.free_eq, hdecN]
  · show h.stats.unmapped_bytes - spanBytes p =
      kPageSize * sumLenIf isReturned (alRemove h.spans pid)
    rw [hm.unmapped_eq, hdecR, Nat.mul_add]
    unfold spanBytes
    omega
  · show h.stats.system_bytes =
      kPageSize * (sumLenAll (alRemove h.spans pid)
        + ({ mergedSpan s p prevSide with
             location := Location.onReturnedFreelist } : Span).length)
    rw [hm.system_eq, sumLenAll_remove hm.core.nodup hpget]
    have hl2 : ({ mergedSpan s p prevSide with
        location := Location.onReturnedFreelist } : Span).length
        = s.length + p.length := by
      simp [mergedSpan_length]
    rw [hl2]
    ring
  · show (h.stats.committed_bytes - spanBytes s)
      + (h.stats.unmapped_bytes - spanBytes p)
      + (if (Location.onReturnedFreelist = Location.onReturnedFreelist)
         then spanBytes ({ mergedSpan s p prevSide with
                location := Location.onReturnedFreelist } : Span) else 0)
      = h.stats.system_bytes
    rw [if_pos rfl]
    have hsb : spanBytes ({ mergedSpan s p prevSide with
        location := Location.onReturnedFreelist } : Span)
        = kPageSize * s.length + kPageSize * p.length := by
      unfold spanBytes
      simp [mergedSpan_length, Nat.mul_add]
    rw [hsb]
    have hcm := hm.committed_eq
    rw [if_neg (by rw [hsloc]; simp)] at hcm
    have hsys := hm.system_eq
    rw [Nat.mul_add] at hsys
    have hunm := hm.unmapped_eq
    rw [hdecR, Nat.mul_add] at hunm
    have hret_le : sumLenIf isReturned h.spans ≤ sumLenAll h.spans :=
      sumLenIf_le_all isReturned h.spans
    have hunm_le : h.stats.unmapped_bytes ≤ kPageSize * sumLenAll h.spans := by
      rw [hm.unmapped_eq]
      exact Nat.mul_le_mul_left kPageSize hret_le
    unfold spanBytes
    omega

/-- Merging an adjacent normal neighbor into the in-flight returned span
after decommitting the neighbor (aggressive decommit) preserves the mid-free
invariant. -/
theorem invMid_merge_decommitOther {h : Heap} {id pid : Nat} {s p : Span}
    {prevSide : Bool}
    (hm : InvMid h id s)
    (hpget : alGet h.spans pid = some p)
    (hadj : if prevSide = true then p.start + p.length = s.start
            else p.start = s.start + s.length)
    (hsloc : s.location = Location.onReturnedFreelist)
    (hploc : p.location = Location.onNormalFreelist) :
    InvMid (doMerge (subCommitted h (spanBytes p)) pid) id
      (mergedSpan s p prevSide) := by
  have hpmem : (pid, p) ∈ h.spans := alGet_mem hpget
  have hplen : 1 ≤ p.length := hm.core.lenPos _ hpmem
  have hpstart : 1 ≤ p.start := hm.core.startPos _ hpmem
  have hkeysLt : ∀ e ∈ alRemove h.spans pid, e.1 < h.nextId :=
    fun e he => hm.keysLt e (mem_alRemove.mp he).1
  have hsDisj : ∀ e ∈ alRemove h.spans pid,
      SpanDisj e.2 (mergedSpan s p prevSide) := by
    intro e he
    obtain ⟨hem, hne⟩ := mem_alRemove.mp he
    have hd1 : SpanDisj e.2 s := hm.sDisj e hem
    have hd2 : SpanDisj e.2 p := disj_of_mem_mem hm.core.disj hem hpmem hne
    have helen : 1 ≤ e.2.length := hm.core.lenPos e hem
    have hslen : 1 ≤ s.length := hm.sLen
    unfold SpanDisj at hd1 hd2
    cases prevSide
    · simp only [Bool.false_eq_true, if_false] at hadj
      show e.2.start + e.2.length ≤ s.start ∨ s.start + (s.length + p.length) ≤ e.2.start
      omega
    · simp only [if_pos] at hadj
      show e.2.start + e.2.length ≤ p.start ∨ p.start + (p.length + s.length) ≤ e.2.start
      omega
  have hsStart : 1 ≤ (mergedSpan s p prevSide).start := by
    have h1 := hm.sStart
    unfold mergedSpan
    split
    · exact hpstart
    · exact h1
  have hsLen : 1 ≤ (mergedSpan s p prevSide).length := by
    rw [mergedSpan_length]
    have := hm.sLen
    omega
  have hsFreeLoc : (mergedSpan s p prevSide).location ≠ Location.inUse := by
    rw [mergedSpan_location]
    exact hm.sFreeLoc
  have hdecN := sumLenIf_remove isNormal hm.core.nodup hpget
  rw [if_pos (by simp [isNormal, hploc])] at hdecN
  have hdecR := sumLenIf_remove isReturned hm.core.nodup hpget
  rw [if_neg (by simp [isReturned, hploc])] at hdecR
  rw [Nat.zero_add] at hdecR
  have hpget2 : alGet (subCommitted h (spanBytes p)).spans pid = some p := hpget
  rw [doMerge_eq_normal hpget2 hploc]
  refine ⟨invCore_alRemove hm.core pid,
          listsInv_removeNormal hm.lists hpget hploc,
          hkeysLt, hm.idLt, alGet_alRemove_none hm.idAbsent pid,
          hsStart, hsLen, hsDisj, hsFreeLoc, ?_, ?_, ?_, ?_⟩
  · show h.stats.free_bytes - spanBytes p =
      kPageSize * sumLenIf isNormal (alRemove h.spans pid)
    rw [hm.free_eq, hdecN, Nat.mul_add]
    unfold spanBytes
    omega
  · show h.stats.unmapped_bytes =
      kPageSize * sumLenIf isReturned (alRemove h.spans pid)
    rw [hm.unmapped_eq, hdecR]
  · show h.stats.system_bytes =
      kPageSize * (sumLenAll (alRemove h.spans pid)
        + (mergedSpan s p prevSide).length)
    rw [hm.system_eq, sumLenAll_remove hm.core.nodup hpget, mergedSpan_length]
    ring
  · show (h.stats.committed_bytes - spanBytes p) + h.stats.unmapped_bytes
      + (if (mergedSpan s p prevSide).location = Location.onReturnedFreelist
         then spanBytes (mergedSpan s p prevSide) else 0)
      = h.stats.system_bytes
    rw [if_pos (by rw [mergedSpan_location]; exact hsloc)]
    have hsb : spanBytes (mergedSpan s p prevSide)
        = kPageSize * s.length + kPageSize * p.length := by
      unfold spanBytes
      rw [mergedSpan_length, Nat.mul_add]
    rw [hsb]
    have hcm := hm.committed_eq
    rw [if_pos hsloc] at hcm
    have hsys := hm.system_eq
    rw [Nat.mul_add] at hsys
    have hsumAll := sumLenAll_remove hm.core.nodup hpget
    have hret_le : sumLenIf isReturned (alRemove h.spans pid)
        ≤ sumLenAll (alRemove h.spans pid) :=
      sumLenIf_le_all isReturned (alRemove h.spans pid)
    have hret_le2 : kPageSize * sumLenIf isReturned (alRemove h.spans pid)
        ≤ kPageSize * sumLenAll (alRemove h.spans pid) :=
      Nat.mul_le_mul_left kPageSize hret_le
    have hall2 : kPageSize * sumLenAll h.spans
        = kPageSize * p.length + kPageSize * sumLenAll (alRemove h.spans pid) := by
      rw [hsumAll, Nat.mul_add]
    have hunm := hm.unmapped_eq
    rw [hdecR] at hunm
    unfold spanBytes at *
    omega


/-- What a successful neighbor lookup guarantees. -/
theorem coalesceCandidate_spec {h : Heap} {id : Nat} {s : Span} {prevSide : Bool}
    {pid : Nat} {p : Span}
    (hc : coalesceCandidate h id s prevSide = some (pid, p)) :
    alGet h.spans pid = some p ∧
    (if prevSide = true then p.start + p.length = s.start
     else p.start = s.start + s.length) ∧
    p.location ≠ Location.inUse ∧ pid ≠ id := by
  unfold coalesceCandidate at hc
  split at hc
  · simp at hc
  · split at hc
    · simp at hc
    · rename_i pid2 hpm
      split at hc
      · simp at hc
      · rename_i hpid2
        split at hc
        · simp at hc
        · rename_i p2 hget2
          by_cases hadj2 : (if prevSide = true then p2.start + p2.length = s.start
                            else p2.start = s.start + s.length)
          · rw [if_neg (not_not_intro hadj2)] at hc
            by_cases huse : p2.location = Location.inUse ∨ p2.sample = true
            · rw [if_pos huse] at hc
              simp at hc
            · rw [if_neg huse] at hc
              injection hc with hc
              injection hc with hc1 hc2
              subst hc1
              subst hc2
              exact ⟨hget2, hadj2, fun hcu => huse (Or.inl hcu), hpid2⟩
          · rw [if_pos hadj2] at hc
            simp at hc

/-- One coalescing attempt preserves the mid-free invariant. -/
theorem invMid_coalesceOne {h : Heap} {sys : SysBehavior} {id : Nat} {s : Span}
    (prevSide premerge : Bool) (hm : InvMid h id s) :
    InvMid (coalesceOne h sys id s prevSide premerge).1 id
           (coalesceOne h sys id s prevSide premerge).2 := by
  unfold coalesceOne
  rcases hc : coalesceCandidate h id s prevSide with _ | ⟨pid, p⟩
  · exact hm
  · simp only []
    obtain ⟨hpget, hadj, hploc, hpid⟩ := coalesceCandidate_spec hc
    by_cases heq : p.location = s.location
    · rw [if_pos heq]
      exact invMid_merge_eqloc hm hpget hadj heq
    · rw [if_neg heq]
      by_cases hpm : premerge = false
      · rw [if_pos hpm]
        exact hm
      · rw [if_neg hpm]
        by_cases hcase1 : s.location = Location.onNormalFreelist ∧
            p.location = Location.onReturnedFreelist
        · rw [if_pos hcase1]
          by_cases hdec : sys.decommitOk s.start s.length = true
          · rw [if_pos hdec]
            exact invMid_merge_decommitSelf hm hpget hadj hcase1.1 hcase1.2
          · rw [if_neg hdec]
            exact hm
        · rw [if_neg hcase1]
          by_cases hcase2 : s.location = Location.onReturnedFreelist ∧
              p.location = Location.onNormalFreelist
          · rw [if_pos hcase2]
            by_cases hdec : h.aggressiveDecommit = true ∧
                sys.decommitOk p.start p.length = true
            · rw [if_pos hdec]
              exact invMid_merge_decommitOther hm hpget hadj hcase2.1 hcase2.2
            · rw [if_neg hdec]
              exact hm
          · rw [if_neg hcase2]
            exact hm


theorem keyOf_smSet_self (m : SpanMap) (id : Nat) (s : Span) :
    keyOf (smSet m id s) id = (s.length, s.start) := by
  unfold keyOf
  rw [alGet_smSet_self]

theorem keyOf_smSet_ne (m : SpanMap) {id x : Nat} (s : Span) (hne : x ≠ id) :
    keyOf (smSet m id s) x = keyOf m x := by
  unfold keyOf
  rw [alGet_smSet_ne m s hne]

theorem key_ne_of_disj {s sx : Span} (hd : SpanDisj sx s)
    (hl1 : 1 ≤ sx.length) (hl2 : 1 ≤ s.length) :
    ((sx.length, sx.start) : Nat × Nat) ≠ (s.length, s.start) := by
  intro hc
  have h1 : sx.start = s.start := congrArg Prod.snd hc
  unfold SpanDisj at hd
  omega

/-- Re-recording the coalesced in-flight span in the span store and the
pagemap and inserting it into its free structure restores the full heap
invariant. -/
theorem inv_mergeExit {h : Heap} {id : Nat} {s : Span} (hm : InvMid h id s) :
    Inv (insertToFreeSet
      { h with spans := smSet h.spans id s,
               pagemap := recordSpan h.pagemap id s } id) := by
  have habs := hm.idAbsent
  have hsm : smSet h.spans id s = (id, s) :: h.spans := by
    unfold smSet
    rw [alRemove_of_get_none habs]
  have hidkeys : ∀ e ∈ h.spans, e.1 ≠ id := alGet_eq_none_iff.mp habs
  have hnotinkeys : id ∉ keysOf h.spans := by
    intro hc
    obtain ⟨e, he, heq⟩ := List.mem_map.mp hc
    exact hidkeys e he heq
  have hcore : InvCore (smSet h.spans id s) (recordSpan h.pagemap id s) := by
    rw [hsm]
    refine ⟨?_, ?_, ?_, ?_, ?_, ?_⟩
    · rw [keysOf, List.map_cons]
      exact List.nodup_cons.mpr ⟨hnotinkeys, hm.core.nodup⟩
    · intro e he
      rcases List.mem_cons.mp he with he | he
      · rw [he]
        exact hm.sStart
      · exact hm.core.startPos e he
    · intro e he
      rcases List.mem_cons.mp he with he | he
      · rw [he]
        exact hm.sLen
      · exact hm.core.lenPos e he
    · rw [List.pairwise_cons]
      exact ⟨fun e he => spanDisj_symm (hm.sDisj e he), hm.core.disj⟩
    · intro e he
      rcases List.mem_cons.mp he with he | he
      · rw [he]
        exact recordSpan_get_start h.pagemap id s
      · have hd := hm.sDisj e he
        have hel := hm.core.lenPos e he
        unfold SpanDisj at hd
        have hout : e.2.start < s.start ∨ s.start + s.length ≤ e.2.start := by
          omega
        rw [recordSpan_get_outside h.pagemap id s hm.sLen hout]
        exact hm.core.pmFirst e he
    · intro e he hlen
      rcases List.mem_cons.mp he with he | he
      · rw [he]
        rw [he] at hlen
        exact recordSpan_get_last h.pagemap id s hlen
      · have hd := hm.sDisj e he
        have hel := hm.core.lenPos e he
        unfold SpanDisj at hd
        have hout : e.2.start + e.2.length - 1 < s.start ∨
            s.start + s.length ≤ e.2.start + e.2.length - 1 := by
          omega
        rw [recordSpan_get_outside h.pagemap id s hm.sLen hout]
        exact hm.core.pmLast e he hlen
  have hspanOfN : ∀ x ∈ h.normalFree, ∃ sx, alGet h.spans x = some sx ∧
      sx.location = Location.onNormalFreelist := by
    intro x hx
    have hl := hm.lists.nfSub x hx
    unfold locOf at hl
    rcases hg : alGet h.spans x with _ | sx
    · rw [hg] at hl
      simp at hl
    · rw [hg] at hl
      simp at hl
      exact ⟨sx, rfl, hl⟩
  have hspanOfR : ∀ x ∈ h.returnedFree, ∃ sx, alGet h.spans x = some sx ∧
      sx.location = Location.onReturnedFreelist := by
    intro x hx
    have hl := hm.lists.rfSub x hx
    unfold locOf at hl
    rcases hg : alGet h.spans x with _ | sx
    · rw [hg] at hl
      simp at hl
    · rw [hg] at hl
      simp at hl
      exact ⟨sx, rfl, hl⟩
  have hninf : id ∉ h.normalFree := by
    intro hx
    have hl := hm.lists.nfSub id hx
    unfold locOf at hl
    rw [habs] at hl
    simp at hl
  have hnirf : id ∉ h.returnedFree := by
    intro hx
    have hl := hm.lists.rfSub id hx
    unfold locOf at hl
    rw [habs] at hl
    simp at hl
  have hkey_ne : ∀ x (sx : Span), alGet h.spans x = some sx →
      ((s.length, s.start) : Nat × Nat) ≠ (sx.length, sx.start) := by
    intro x sx hg
    have hd := hm.sDisj (x, sx) (alGet_mem hg)
    have hlx := hm.core.lenPos (x, sx) (alGet_mem hg)
    exact (key_ne_of_disj hd hlx hm.sLen).symm
  have htotalN : ∀ x ∈ h.normalFree,
      keyLtB (keyOf (smSet h.spans id s) id) (keyOf (smSet h.spans id s) x) = true ∨
      keyLtB (keyOf (smSet h.spans id s) x) (keyOf (smSet h.spans id s) id) = true := by
    intro x hx
    obtain ⟨sx, hg, _⟩ := hspanOfN x hx
    have hxid : x ≠ id := by
      intro hc
      rw [hc] at hx
      exact hninf hx
    have hkx : keyOf (smSet h.spans id s) x = (sx.length, sx.start) := by
      rw [keyOf_smSet_ne h.spans s hxid]
      unfold keyOf
      rw [hg]
    rw [hkx, keyOf_smSet_self]
    exact keyLtB_total (hkey_ne x sx hg)
  have htotalR : ∀ x ∈ h.returnedFree,
      keyLtB (keyOf (smSet h.spans id s) id) (keyOf (smSet h.spans id s) x) = true ∨
      keyLtB (keyOf (smSet h.spans id s) x) (keyOf (smSet h.spans id s) id) = true := by
    intro x hx
    obtain ⟨sx, hg, _⟩ := hspanOfR x hx
    have hxid : x ≠ id := by
      intro hc
      rw [hc] at hx
      exact hnirf hx
    have hkx : keyOf (smSet h.spans id s) x = (sx.length, sx.start) := by
      rw [keyOf_smSet_ne h.spans s hxid]
      unfold keyOf
      rw [hg]
    rw [hkx, keyOf_smSet_self]
    exact keyLtB_total (hkey_ne x sx hg)
  have hsortN : h.normalFree.Pairwise
      (fun a b => keyLtB (keyOf (smSet h.spans id s) a)
                        (keyOf (smSet h.spans id s) b) = true) := by
    refine pairwise_keyOf_congr ?_ hm.lists.nfSorted
    intro x hx
    refine keyOf_smSet_ne h.spans s ?_
    intro hc
    rw [hc] at hx
    exact hninf hx
  have hsortR : h.returnedFree.Pairwise
      (fun a b => keyLtB (keyOf (smSet h.spans id s) a)
                        (keyOf (smSet h.spans id s) b) = true) := by
    refine pairwise_keyOf_congr ?_ hm.lists.rfSorted
    intro x hx
    refine keyOf_smSet_ne h.spans s ?_
    intro hc
    rw [hc] at hx
    exact hnirf hx
  have hkeysLt : ∀ e ∈ smSet h.spans id s, e.1 < h.nextId := by
    rw [hsm]
    intro e he
    rcases List.mem_cons.mp he with he | he
    · rw [he]
      exact hm.idLt
    · exact hm.keysLt e he
  have hget3 : alGet (smSet h.spans id s) id = some s := alGet_smSet_self _ _ _
  rcases hsloc : s.location with _ | _ | _
  · exact absurd hsloc hm.sFreeLoc
  · -- the in-flight span ends on the normal free structure
    rw [insertToFreeSet_eq_normal hget3 hsloc]
    refine ⟨hcore, ⟨?_, ?_, ?_, ?_, ?_, ?_⟩, ⟨?_, ?_, ?_, ?_⟩, hkeysLt⟩
    · intro x hx
      rcases mem_insertSorted.mp hx with hx | hx
      · rw [hx]
        unfold locOf
        rw [alGet_smSet_self]
        simp [hsloc]
      · have hxid : x ≠ id := by
          intro hc
          rw [hc] at hx
          exact hninf hx
        unfold locOf
        rw [alGet_smSet_ne h.spans s hxid]
        exact hm.lists.nfSub x hx
    · intro e he hloc2
      rw [hsm] at he
      rcases List.mem_cons.mp he with he | he
      · rw [he]
        exact mem_insertSorted.mpr (Or.inl rfl)
      · exact mem_insertSorted.mpr (Or.inr (hm.lists.nfFull e he hloc2))
    · exact pairwise_insertSorted hsortN htotalN
    · intro x hx
      have hxid : x ≠ id := by
        intro hc
        rw [hc] at hx
        exact hnirf hx
      unfold locOf
      rw [alGet_smSet_ne h.spans s hxid]
      exact hm.lists.rfSub x hx
    · intro e he hloc2
      rw [hsm] at he
      rcases List.mem_cons.mp he with he | he
      · rw [he] at hloc2
        rw [hsloc] at hloc2
        simp at hloc2
      · exact hm.lists.rfFull e he hloc2
    · exact hsortR
    · show h.stats.free_bytes + spanBytes s =
        kPageSize * sumLenIf isNormal (smSet h.spans id s)
      rw [sumLenIf_smSet_absent isNormal s habs,
          if_pos (by simp [isNormal, hsloc]), hm.free_eq, Nat.mul_add]
      unfold spanBytes
      omega
    · show h.stats.unmapped_bytes =
        kPageSize * sumLenIf isReturned (smSet h.spans id s)
      rw [sumLenIf_smSet_absent isReturned s habs,
          if_neg (by simp [isReturned, hsloc]), Nat.zero_add, hm.unmapped_eq]
    · show h.stats.system_bytes = kPageSize * sumLenAll (smSet h.spans id s)
      rw [sumLenAll_smSet_absent s habs, hm.system_eq]
      ring
    · show h.stats.committed_bytes + h.stats.unmapped_bytes = h.stats.system_bytes
      have hcm := hm.committed_eq
      rw [if_neg (by rw [hsloc]; simp)] at hcm
      omega
  · -- the in-flight span ends on the returned free structure
    rw [insertToFreeSet_eq_returned hget3 hsloc]
    refine ⟨hcore, ⟨?_, ?_, ?_, ?_, ?_, ?_⟩, ⟨?_, ?_, ?_, ?_⟩, hkeysLt⟩
    · intro x hx
      have hxid : x ≠ id := by
        intro hc
        rw [hc] at hx
        exact hninf hx
      unfold locOf
      rw [alGet_smSet_ne h.spans s hxid]
      exact hm.lists.nfSub x hx
    · intro e he hloc2
      rw [hsm] at he
      rcases List.mem_cons.mp he with he | he
      · rw [he] at hloc2
        rw [hsloc] at hloc2
        simp at hloc2
      · exact hm.lists.nfFull e he hloc2
    · exact hsortN
    · intro x hx
      rcases mem_insertSorted.mp hx with hx | hx
      · rw [hx]
        unfold locOf
        rw [alGet_smSet_self]
        simp [hsloc]
      · have hxid : x ≠ id := by
          intro hc
          rw [hc] at hx
          exact hnirf hx
        unfold locOf
        rw [alGet_smSet_ne h.spans s hxid]
        exact hm.lists.rfSub x hx
    · intro e he hloc2
      rw [hsm] at he
      rcases List.mem_cons.mp he with he | he
      · rw [he]
        exact mem_insertSorted.mpr (Or.inl rfl)
      · exact mem_insertSorted.mpr (Or.inr (hm.lists.rfFull e he hloc2))
    · exact pairwise_insertSorted hsortR htotalR
    · show h.stats.free_bytes =
        kPageSize * sumLenIf isNormal (smSet h.spans id s)
      rw [sumLenIf_smSet_absent isNormal s habs,
          if_neg (by simp [isNormal, hsloc]), Nat.zero_add, hm.free_eq]
    · show h.stats.unmapped_bytes + spanBytes s =
        kPageSize * sumLenIf isReturned (smSet h.spans id s)
      rw [sumLenIf_smSet_absent isReturned s habs,
          if_pos (by simp [isReturned, hsloc]), hm.unmapped_eq, Nat.mul_add]
      unfold spanBytes
      omega
    · show h.stats.system_bytes = kPageSize * sumLenAll (smSet h.spans id s)
      rw [sumLenAll_smSet_absent s habs, hm.system_eq]
      ring
    · show h.stats.committed_bytes + (h.stats.unmapped_bytes + spanBytes s)
        = h.stats.system_bytes
      have hcm := hm.committed_eq
      rw [if_pos hsloc] at hcm
      omega

/-- The whole coalesce-and-insert step turns the mid-free invariant into the
full invariant. -/
theorem inv_mergeIntoFreeSet {h : Heap} {sys : SysBehavior} {id : Nat} {s : Span}
    (premerge : Bool) (hm : InvMid h id s) :
    Inv (mergeIntoFreeSet h sys id s premerge) := by
  unfold mergeIntoFreeSet
  exact inv_mergeExit (invMid_coalesceOne false premerge (invMid_coalesceOne true premerge hm))


/-! ## Entry lemmas: reaching the mid-free invariant -/

/-- Removing an in-use span from the span store leaves the free structures
untouched and their invariant intact. -/
theorem listsInv_removeInUse {m : SpanMap} {nf rf : List Nat} {pid : Nat} {p : Span}
    (hl : ListsInv m nf rf) (hpget : alGet m pid = some p)
    (hploc : p.location = Location.inUse) :
    ListsInv (alRemove m pid) nf rf := by
  have hneN : ∀ x ∈ nf, x ≠ pid := by
    intro x hx hc
    rw [hc] at hx
    have hcontra := hl.nfSub pid hx
    unfold locOf at hcontra
    rw [hpget] at hcontra
    simp [hploc] at hcontra
  have hneR : ∀ x ∈ rf, x ≠ pid := by
    intro x hx hc
    rw [hc] at hx
    have hcontra := hl.rfSub pid hx
    unfold locOf at hcontra
    rw [hpget] at hcontra
    simp [hploc] at hcontra
  refine ⟨?_, ?_, ?_, ?_, ?_, ?_⟩
  · intro x hx
    unfold locOf
    rw [alGet_alRemove_ne m (hneN x hx)]
    exact hl.nfSub x hx
  · intro e he hloc2
    exact hl.nfFull e (mem_alRemove.mp he).1 hloc2
  · exact pairwise_keyOf_congr (fun x hx => keyOf_alRemove_ne (hneN x hx)) hl.nfSorted
  · intro x hx
    unfold locOf
    rw [alGet_alRemove_ne m (hneR x hx)]
    exact hl.rfSub x hx
  · intro e he hloc2
    exact hl.rfFull e (mem_alRemove.mp he).1 hloc2
  · exact pairwise_keyOf_congr (fun x hx => keyOf_alRemove_ne (hneR x hx)) hl.rfSorted

/-- Starting to free an in-use span: taking it out of the span store and
tentatively marking it normal establishes the mid-free invariant. -/
theorem invMid_delete_entry {h : Heap} {id : Nat} {s : Span}
    (hinv : Inv h) (hget : alGet h.spans id = some s)
    (hloc : s.location = Location.inUse) :
    InvMid { h with spans := alRemove h.spans id } id
      { s with location := Location.onNormalFreelist } := by
  have hmem : (id, s) ∈ h.spans := alGet_mem hget
  have hdecN := sumLenIf_remove isNormal hinv.core.nodup hget
  rw [if_neg (by simp [isNormal, hloc]), Nat.zero_add] at hdecN
  have hdecR := sumLenIf_remove isReturned hinv.core.nodup hget
  rw [if_neg (by simp [isReturned, hloc]), Nat.zero_add] at hdecR
  refine ⟨invCore_alRemove hinv.core id,
          listsInv_removeInUse hinv.lists hget hloc,
          fun e he => hinv.keysLt e (mem_alRemove.mp he).1,
          hinv.keysLt (id, s) hmem,
          alGet_alRemove_self h.spans id,
          hinv.core.startPos (id, s) hmem,
          hinv.core.lenPos (id, s) hmem,
          ?_, by simp, ?_, ?_, ?_, ?_⟩
  · intro e he
    obtain ⟨hem, hne⟩ := mem_alRemove.mp he
    exact disj_of_mem_mem hinv.core.disj hem hmem hne
  · show h.stats.free_bytes = kPageSize * sumLenIf isNormal (alRemove h.spans id)
    rw [hinv.statsInv.free_eq, hdecN]
  · show h.stats.unmapped_bytes = kPageSize * sumLenIf isReturned (alRemove h.spans id)
    rw [hinv.statsInv.unmapped_eq, hdecR]
  · show h.stats.system_bytes = kPageSize * (sumLenAll (alRemove h.spans id) + s.length)
    rw [hinv.statsInv.system_eq, sumLenAll_remove hinv.core.nodup hget]
    ring
  · show h.stats.committed_bytes + h.stats.unmapped_bytes + 0 = h.stats.system_bytes
    rw [Nat.add_zero]
    exact hinv.statsInv.committed_eq

/-- Decommitting the in-flight normal span (the aggressive-decommit entry of
deallocation and the pre-merge step) keeps the mid-free invariant. -/
theorem invMid_decommit_self {h : Heap} {id : Nat} {s : Span}
    (hm : InvMid h id s) (hloc : s.location = Location.onNormalFreelist) :
    InvMid (subCommitted h (spanBytes s)) id
      { s with location := Location.onReturnedFreelist } := by
  refine ⟨hm.core, hm.lists, hm.keysLt, hm.idLt, hm.idAbsent,
          hm.sStart, hm.sLen, hm.sDisj, by simp,
          hm.free_eq, hm.unmapped_eq, hm.system_eq, ?_⟩
  show (h.stats.committed_bytes - spanBytes s) + h.stats.unmapped_bytes
      + spanBytes ({ s with location := Location.onReturnedFreelist } : Span)
      = h.stats.system_bytes
  have hcm := hm.committed_eq
  rw [if_neg (by rw [hloc]; simp)] at hcm
  have hsys := hm.system_eq
  rw [Nat.mul_add] at hsys
  have hle : h.stats.unmapped_bytes ≤ kPageSize * sumLenAll h.spans := by
    rw [hm.unmapped_eq]
    exact Nat.mul_le_mul_left kPageSize (sumLenIf_le_all isReturned h.spans)
  have hsb : spanBytes ({ s with location := Location.onReturnedFreelist } : Span)
      = kPageSize * s.length := rfl
  rw [hsb]
  unfold spanBytes
  omega

/-- Starting to release a normal-free span: removing it from the normal free
structure and the span store and decommitting it establishes the mid-free
invariant. -/
theorem invMid_release_entry {h : Heap} {id : Nat} {s : Span}
    (hinv : Inv h) (hget : alGet h.spans id = some s)
    (hloc : s.location = Location.onNormalFreelist) :
    InvMid { h with
             spans := alRemove h.spans id,
             normalFree := removeId h.normalFree id,
             stats := { h.stats with
               free_bytes := h.stats.free_bytes - spanBytes s,
               committed_bytes := h.stats.committed_bytes - spanBytes s } } id
      { s with location := Location.onReturnedFreelist } := by
  have hmem : (id, s) ∈ h.spans := alGet_mem hget
  have hdecN := sumLenIf_remove isNormal hinv.core.nodup hget
  rw [if_pos (by simp [isNormal, hloc])] at hdecN
  have hdecR := sumLenIf_remove isReturned hinv.core.nodup hget
  rw [if_neg (by simp [isReturned, hloc]), Nat.zero_add] at hdecR
  refine ⟨invCore_alRemove hinv.core id,
          listsInv_removeNormal hinv.lists hget hloc,
          fun e he => hinv.keysLt e (mem_alRemove.mp he).1,
          hinv.keysLt (id, s) hmem,
          alGet_alRemove_self h.spans id,
          hinv.core.startPos (id, s) hmem,
          hinv.core.lenPos (id, s) hmem,
          ?_, by simp, ?_, ?_, ?_, ?_⟩
  · intro e he
    obtain ⟨hem, hne⟩ := mem_alRemove.mp he
    exact disj_of_mem_mem hinv.core.disj hem hmem hne
  · show h.stats.free_bytes - spanBytes s
        = kPageSize * sumLenIf isNormal (alRemove h.spans id)
    rw [hinv.statsInv.free_eq, hdecN, Nat.mul_add]
    unfold spanBytes
    omega
  · show h.stats.unmapped_bytes = kPageSize * sumLenIf isReturned (alRemove h.spans id)
    rw [hinv.statsInv.unmapped_eq, hdecR]
  · show h.stats.system_bytes = kPageSize * (sumLenAll (alRemove h.spans id) + s.length)
    rw [hinv.statsInv.system_eq, sumLenAll_remove hinv.core.nodup hget]
    ring
  · show (h.stats.committed_bytes - spanBytes s) + h.stats.unmapped_bytes
        + spanBytes ({ s with location := Location.onReturnedFreelist } : Span)
        = h.stats.system_bytes
    have hcm := hinv.statsInv.committed_eq
    have hsys := hinv.statsInv.system_eq
    rw [sumLenAll_remove hinv.core.nodup hget, Nat.mul_add] at hsys
    have hle : h.stats.unmapped_bytes
        ≤ kPageSize * sumLenAll (alRemove h.spans id) := by
      rw [hinv.statsInv.unmapped_eq, hdecR]
      exact Nat.mul_le_mul_left kPageSize (sumLenIf_le_all isReturned _)
    have hsb : spanBytes ({ s with location := Location.onReturnedFreelist } : Span)
        = kPageSize * s.length := rfl
    rw [hsb]
    unfold spanBytes
    omega

/-- Registering a fresh system range as an in-flight returned span
establishes the mid-free invariant. -/
theorem invMid_grow_entry {h : Heap} {base actual ask : Nat}
    (hinv : Inv h) (hbase : 1 ≤ base) (hactual : 1 ≤ actual)
    (hfresh : ∀ e ∈ h.spans, e.2.start + e.2.length ≤ base ∨ base + actual ≤ e.2.start) :
    InvMid { h with nextId := h.nextId + 1,
                    growRequests := ask :: h.growRequests,
                    stats := { h.stats with
                      system_bytes := h.stats.system_bytes +
                        spanBytes ⟨base, actual, Location.onReturnedFreelist, 0, false⟩ } }
            h.nextId
            ⟨base, actual, Location.onReturnedFreelist, 0, false⟩ := by
  have habs : alGet h.spans h.nextId = none := by
    rw [alGet_eq_none_iff]
    intro e he hc
    have := hinv.keysLt e he
    omega
  refine ⟨hinv.core, hinv.lists,
          fun e he => Nat.lt_succ_of_lt (hinv.keysLt e he),
          Nat.lt_succ_self h.nextId, habs, hbase, hactual,
          fun e he => hfresh e he, by simp,
          hinv.statsInv.free_eq, hinv.statsInv.unmapped_eq, ?_, ?_⟩
  · show h.stats.system_bytes
        + spanBytes ⟨base, actual, Location.onReturnedFreelist, 0, false⟩
        = kPageSize * (sumLenAll h.spans + actual)
    rw [hinv.statsInv.system_eq]
    unfold spanBytes
    rw [Nat.mul_add]
  · show h.stats.committed_bytes + h.stats.unmapped_bytes
        + spanBytes ⟨base, actual, Location.onReturnedFreelist, 0, false⟩
        = h.stats.system_bytes
          + spanBytes ⟨base, actual, Location.onReturnedFreelist, 0, false⟩
    rw [hinv.statsInv.committed_eq]


/-! ## The public operations preserve the invariant -/

theorem inv_releaseSpan (h : Heap) (sys : SysBehavior) (id : Nat) (hinv : Inv h) :
    Inv (releaseSpan h sys id).2 := by
  unfold releaseSpan
  rcases hget : alGet h.spans id with _ | s
  · simp only [hget]
    exact hinv
  · simp only [hget]
    by_cases hloc : s.location ≠ Location.onNormalFreelist
    · rw [if_pos hloc]
      exact hinv
    · rw [if_neg hloc]
      push_neg at hloc
      have hmem : id ∈ h.normalFree := hinv.lists.nfFull (id, s) (alGet_mem hget) hloc
      split
      · show Inv (mergeIntoFreeSet _ sys id _ false)
        rw [removeFromFreeSet_eq_normal hget hloc]
        exact inv_mergeIntoFreeSet false (invMid_release_entry hinv hget hloc)
      · show Inv (insertToFreeSet (removeFromFreeSet h id) id)
        rw [insert_remove_restore h id s hinv hget hloc hmem]
        exact hinv

theorem inv_releaseLoop (fuel : Nat) (h : Heap) (sys : SysBehavior) (need : Nat)
    (hinv : Inv h) : Inv (releaseLoop fuel h sys need).2 := by
  induction fuel generalizing h need with
  | zero => exact hinv
  | succ fuel ih =>
    unfold releaseLoop
    split
    · exact hinv
    · rename_i id rest heq
      by_cases h0 : (releaseSpan h sys id).1 = 0
      · rw [if_pos h0]
        exact inv_releaseSpan h sys id hinv
      · rw [if_neg h0]
        by_cases hle : need ≤ (releaseSpan h sys id).1
        · rw [if_pos hle]
          exact inv_releaseSpan h sys id hinv
        · rw [if_neg hle]
          exact ih _ _ (inv_releaseSpan h sys id hinv)

theorem inv_releaseAtLeastNPages (h : Heap) (sys : SysBehavior) (n : Nat)
    (hinv : Inv h) : Inv (releaseAtLeastNPages h sys n).2 := by
  unfold releaseAtLeastNPages
  exact inv_releaseLoop _ h sys n hinv

theorem inv_incrementalScavenge (h : Heap) (sys : SysBehavior) (n : Nat)
    (hinv : Inv h) : Inv (incrementalScavenge h sys n) := by
  unfold incrementalScavenge
  dsimp only
  split
  · exact ⟨hinv.core, hinv.lists, hinv.statsInv, hinv.keysLt⟩
  · have h2 : Inv { h with scavengeCounter := h.scavengeCounter - (n : Int) } :=
      ⟨hinv.core, hinv.lists, hinv.statsInv, hinv.keysLt⟩
    have h3 := inv_releaseAtLeastNPages _ sys 1 h2
    split
    · exact ⟨h3.core, h3.lists, h3.statsInv, h3.keysLt⟩
    · exact ⟨h3.core, h3.lists, h3.statsInv, h3.keysLt⟩

theorem inv_deleteSpan (h : Heap) (sys : SysBehavior) (id : Nat) (hinv : Inv h) :
    Inv (deleteSpan h sys id) := by
  unfold deleteSpan
  rcases hget : alGet h.spans id with _ | s
  · simp only [hget]
    exact hinv
  · simp only [hget]
    by_cases hloc : s.location ≠ Location.inUse
    · rw [if_pos hloc]
      exact hinv
    · rw [if_neg hloc]
      push_neg at hloc
      have hmid := invMid_delete_entry hinv hget hloc
      apply inv_incrementalScavenge
      split
      · split
        · exact inv_mergeIntoFreeSet true (invMid_decommit_self hmid rfl)
        · exact inv_mergeIntoFreeSet true hmid
      · exact inv_mergeIntoFreeSet true hmid


/-! ## Carving preserves the invariant -/

theorem sumLenAll_smSet (m : SpanMap) (id : Nat) (v : Span) :
    sumLenAll (smSet m id v) = v.length + sumLenAll (alRemove m id) := rfl

theorem sumLenIf_smSet (P : Span → Bool) (m : SpanMap) (id : Nat) (v : Span) :
    sumLenIf P (smSet m id v)
      = (if P v then v.length else 0) + sumLenIf P (alRemove m id) := rfl

/-- Shrinking a normal free span in place to its first `n` pages (hand-out
part, now IN_USE) puts the heap in the mid-free state whose in-flight span is
the leftover. -/
theorem invMid_carve_shrink_normal {h : Heap} {id n : Nat} {s : Span}
    (hinv : Inv h) (hget : alGet h.spans id = some s)
    (hloc : s.location = Location.onNormalFreelist)
    (hn : 1 ≤ n) (hlt : n < s.length) :
    InvMid { h with nextId := h.nextId + 1,
                    spans := smSet h.spans id
                      { s with length := n, location := Location.inUse },
                    pagemap := pmSet h.pagemap (s.start + n - 1) id,
                    normalFree := removeId h.normalFree id,
                    stats := { h.stats with
                      free_bytes := h.stats.free_bytes - spanBytes s } }
           h.nextId
           { start := s.start + n, length := s.length - n,
             location := s.location, sizeclass := 0, sample := false } := by
  have hmem : (id, s) ∈ h.spans := alGet_mem hget
  have hidlt : id < h.nextId := hinv.keysLt (id, s) hmem
  have hstart : 1 ≤ s.start := hinv.core.startPos (id, s) hmem
  have hrkeys : ∀ e ∈ alRemove h.spans id, e.1 ≠ id :=
    alGet_eq_none_iff.mp (alGet_alRemove_self h.spans id)
  have hdisjS : ∀ e ∈ alRemove h.spans id, SpanDisj e.2 s := by
    intro e he
    obtain ⟨hem, hne⟩ := mem_alRemove.mp he
    exact disj_of_mem_mem hinv.core.disj hem hmem hne
  have hrcore := invCore_alRemove hinv.core id
  have hlists := listsInv_removeNormal hinv.lists hget hloc
  have hdecN := sumLenIf_remove isNormal hinv.core.nodup hget
  rw [if_pos (by simp [isNormal, hloc])] at hdecN
  have hdecR := sumLenIf_remove isReturned hinv.core.nodup hget
  rw [if_neg (by simp [isReturned, hloc]), Nat.zero_add] at hdecR
  have hsm : smSet h.spans id { s with length := n, location := Location.inUse }
      = (id, ({ s with length := n, location := Location.inUse } : Span))
        :: alRemove h.spans id := rfl
  refine InvMid.mk ⟨?_, ?_, ?_, ?_, ?_, ?_⟩ ⟨?_, ?_, ?_, ?_, ?_, ?_⟩
    ?_ ?_ ?_ ?_ ?_ ?_ ?_ ?_ ?_ ?_ ?_
  · show (keysOf (smSet h.spans id
      { s with length := n, location := Location.inUse })).Nodup
    rw [hsm]
    unfold keysOf
    rw [List.map_cons]
    refine List.nodup_cons.mpr ⟨?_, hrcore.nodup⟩
    intro hc
    obtain ⟨e, he, heq⟩ := List.mem_map.mp hc
    exact hrkeys e he heq
  · intro e he
    rw [hsm] at he
    rcases List.mem_cons.mp he with he | he
    · rw [he]
      exact hstart
    · exact hrcore.startPos e he
  · intro e he
    rw [hsm] at he
    rcases List.mem_cons.mp he with he | he
    · rw [he]
      exact hn
    · exact hrcore.lenPos e he
  · show (smSet h.spans id
      { s with length := n, location := Location.inUse }).Pairwise
        (fun a b => SpanDisj a.2 b.2)
    rw [hsm, List.pairwise_cons]
    constructor
    · intro e he
      have hd := hdisjS e he
      unfold SpanDisj at hd
      show s.start + n ≤ e.2.start ∨ e.2.start + e.2.length ≤ s.start
      omega
    · exact hrcore.disj
  · intro e he
    rw [hsm] at he
    rcases List.mem_cons.mp he with he | he
    · rw [he]
      show alGet (pmSet h.pagemap (s.start + n - 1) id) s.start = some id
      rw [alGet_pmSet]
      split
      · rfl
      · exact hinv.core.pmFirst (id, s) hmem
    · have hd := hdisjS e he
      have hel := hrcore.lenPos e he
      unfold SpanDisj at hd
      show alGet (pmSet h.pagemap (s.start + n - 1) id) e.2.start = some e.1
      rw [alGet_pmSet, if_neg (by omega)]
      exact hrcore.pmFirst e he
  · intro e he hlen2
    rw [hsm] at he
    rcases List.mem_cons.mp he with he | he
    · rw [he]
      show alGet (pmSet h.pagemap (s.start + n - 1) id) (s.start + n - 1) = some id
      rw [alGet_pmSet, if_pos rfl]
    · have hd := hdisjS e he
      have hel := hrcore.lenPos e he
      unfold SpanDisj at hd
      show alGet (pmSet h.pagemap (s.start + n - 1) id)
        (e.2.start + e.2.length - 1) = some e.1
      rw [alGet_pmSet, if_neg (by omega)]
      exact hrcore.pmLast e he hlen2
  · intro x hx
    have hxid : x ≠ id := by
      intro hc
      rw [hc] at hx
      exact not_mem_removeId (sorted_nodup hinv.lists.nfSorted) hx
    show locOf (smSet h.spans id
      { s with length := n, location := Location.inUse }) x
        = some Location.onNormalFreelist
    have hres := hlists.nfSub x hx
    unfold locOf at hres ⊢
    rw [alGet_smSet_ne h.spans _ hxid]
    rw [alGet_alRemove_ne h.spans hxid] at hres
    exact hres
  · intro e he hloc2
    rw [hsm] at he
    rcases List.mem_cons.mp he with he | he
    · rw [he] at hloc2
      simp at hloc2
    · exact hlists.nfFull e he hloc2
  · refine pairwise_keyOf_congr ?_ hlists.nfSorted
    intro x hx
    have hxid : x ≠ id := by
      intro hc
      rw [hc] at hx
      exact not_mem_removeId (sorted_nodup hinv.lists.nfSorted) hx
    show keyOf (smSet h.spans id
      { s with length := n, location := Location.inUse }) x
        = keyOf (alRemove h.spans id) x
    rw [keyOf_smSet_ne h.spans _ hxid, keyOf_alRemove_ne hxid]
  · intro x hx
    have hxid : x ≠ id := by
      intro hc
      rw [hc] at hx
      have hcontra := hinv.lists.rfSub id hx
      unfold locOf at hcontra
      rw [hget] at hcontra
      simp [hloc] at hcontra
    show locOf (smSet h.spans id
      { s with length := n, location := Location.inUse }) x
        = some Location.onReturnedFreelist
    have hres := hlists.rfSub x hx
    unfold locOf at hres ⊢
    rw [alGet_smSet_ne h.spans _ hxid]
    rw [alGet_alRemove_ne h.spans hxid] at hres
    exact hres
  · intro e he hloc2
    rw [hsm] at he
    rcases List.mem_cons.mp he with he | he
    · rw [he] at hloc2
      simp at hloc2
    · exact hlists.rfFull e he hloc2
  · refine pairwise_keyOf_congr ?_ hlists.rfSorted
    intro x hx
    have hxid : x ≠ id := by
      intro hc
      rw [hc] at hx
      have hcontra := hinv.lists.rfSub id hx
      unfold locOf at hcontra
      rw [hget] at hcontra
      simp [hloc] at hcontra
    show keyOf (smSet h.spans id
      { s with length := n, location := Location.inUse }) x
        = keyOf (alRemove h.spans id) x
    rw [keyOf_smSet_ne h.spans _ hxid, keyOf_alRemove_ne hxid]
  · intro e he
    rw [hsm] at he
    rcases List.mem_cons.mp he with he | he
    · rw [he]
      show id < h.nextId + 1
      omega
    · have := hinv.keysLt e (mem_alRemove.mp he).1
      show e.1 < h.nextId + 1
      omega
  · show h.nextId < h.nextId + 1
    exact Nat.lt_succ_self h.nextId
  · show alGet (smSet h.spans id
      { s with length := n, location := Location.inUse }) h.nextId = none
    rw [alGet_smSet_ne h.spans _ (by omega)]
    rw [alGet_eq_none_iff]
    intro e he hc
    have := hinv.keysLt e he
    omega
  · show 1 ≤ s.start + n
    omega
  · show 1 ≤ s.length - n
    omega
  · intro e he
    rw [hsm] at he
    rcases List.mem_cons.mp he with he | he
    · rw [he]
      show SpanDisj ({ s with length := n, location := Location.inUse } : Span)
        { start := s.start + n, length := s.length - n, location := s.location,
          sizeclass := 0, sample := false }
      unfold SpanDisj
      left
      show s.start + n ≤ s.start + n
      omega
    · have hd := hdisjS e he
      have hel := hrcore.lenPos e he
      unfold SpanDisj at hd
      show e.2.start + e.2.length ≤ s.start + n ∨ s.start + n + (s.length - n) ≤ e.2.start
      omega
  · show s.location ≠ Location.inUse
    rw [hloc]
    simp
  · show h.stats.free_bytes - spanBytes s
      = kPageSize * sumLenIf isNormal (smSet h.spans id
          { s with length := n, location := Location.inUse })
    rw [sumLenIf_smSet, if_neg (by simp [isNormal]), Nat.zero_add,
        hinv.statsInv.free_eq, hdecN, Nat.mul_add]
    unfold spanBytes
    omega
  · show h.stats.unmapped_bytes
      = kPageSize * sumLenIf isReturned (smSet h.spans id
          { s with length := n, location := Location.inUse })
    rw [sumLenIf_smSet, if_neg (by simp [isReturned]), Nat.zero_add,
        hinv.statsInv.unmapped_eq, hdecR]
  · show h.stats.system_bytes
      = kPageSize * (sumLenAll (smSet h.spans id
          { s with length := n, location := Location.inUse }) + (s.length - n))
    have h1 : sumLenAll (smSet h.spans id
        { s with length := n, location := Location.inUse }) + (s.length - n)
        = sumLenAll h.spans := by
      rw [sumLenAll_smSet, sumLenAll_remove hinv.core.nodup hget]
      show n + sumLenAll (alRemove h.spans id) + (s.length - n)
        = s.length + sumLenAll (alRemove h.spans id)
      omega
    rw [h1]
    exact hinv.statsInv.system_eq
  · show h.stats.committed_bytes + h.stats.unmapped_bytes
      + (if s.location = Location.onReturnedFreelist then
          spanBytes { start := s.start + n, length := s.length - n,
                      location := s.location, sizeclass := 0, sample := false } else 0)
      = h.stats.system_bytes
    rw [if_neg (by rw [hloc]; simp), Nat.add_zero]
    exact hinv.statsInv.committed_eq


/-- Shrinking a returned free span in place to its first `n` pages (hand-out
part committed and now IN_USE) puts the heap in the mid-free state whose
in-flight span is the leftover (still returned). -/
theorem invMid_carve_shrink_returned {h : Heap} {id n : Nat} {s : Span}
    (hinv : Inv h) (hget : alGet h.spans id = some s)
    (hloc : s.location = Location.onReturnedFreelist)
    (hn : 1 ≤ n) (hlt : n < s.length) :
    InvMid { h with nextId := h.nextId + 1,
                    spans := smSet h.spans id
                      { s with length := n, location := Location.inUse },
                    pagemap := pmSet h.pagemap (s.start + n - 1) id,
                    returnedFree := removeId h.returnedFree id,
                    stats := { h.stats with
                      unmapped_bytes := h.stats.unmapped_bytes - spanBytes s,
                      committed_bytes := h.stats.committed_bytes + kPageSize * n } }
           h.nextId
           { start := s.start + n, length := s.length - n,
             location := s.location, sizeclass := 0, sample := false } := by
  have hmem : (id, s) ∈ h.spans := alGet_mem hget
  have hidlt : id < h.nextId := hinv.keysLt (id, s) hmem
  have hstart : 1 ≤ s.start := hinv.core.startPos (id, s) hmem
  have hrkeys : ∀ e ∈ alRemove h.spans id, e.1 ≠ id :=
    alGet_eq_none_iff.mp (alGet_alRemove_self h.spans id)
  have hdisjS : ∀ e ∈ alRemove h.spans id, SpanDisj e.2 s := by
    intro e he
    obtain ⟨hem, hne⟩ := mem_alRemove.mp he
    exact disj_of_mem_mem hinv.core.disj hem hmem hne
  have hrcore := invCore_alRemove hinv.core id
  have hlists := listsInv_removeReturned hinv.lists hget hloc
  have hdecN := sumLenIf_remove isNormal hinv.core.nodup hget
  rw [if_neg (by simp [isNormal, hloc]), Nat.zero_add] at hdecN
  have hdecR := sumLenIf_remove isReturned hinv.core.nodup hget
  rw [if_pos (by simp [isReturned, hloc])] at hdecR
  have hsm : smSet h.spans id { s with length := n, location := Location.inUse }
      = (id, ({ s with length := n, location := Location.inUse } : Span))
        :: alRemove h.spans id := rfl
  refine InvMid.mk ⟨?_, ?_, ?_, ?_, ?_, ?_⟩ ⟨?_, ?_, ?_, ?_, ?_, ?_⟩
    ?_ ?_ ?_ ?_ ?_ ?_ ?_ ?_ ?_ ?_ ?_
  · show (keysOf (smSet h.spans id
      { s with length := n, location := Location.inUse })).Nodup
    rw [hsm]
    unfold keysOf
    rw [List.map_cons]
    refine List.nodup_cons.mpr ⟨?_, hrcore.nodup⟩
    intro hc
    obtain ⟨e, he, heq⟩ := List.mem_map.mp hc
    exact hrkeys e he heq
  · intro e he
    rw [hsm] at he
    rcases List.mem_cons.mp he with he | he
    · rw [he]
      exact hstart
    · exact hrcore.startPos e he
  · intro e he
    rw [hsm] at he
    rcases List.mem_cons.mp he with he | he
    · rw [he]
      exact hn
    · exact hrcore.lenPos e he
  · show (smSet h.spans id
      { s with length := n, location := Location.inUse }).Pairwise
        (fun a b => SpanDisj a.2 b.2)
    rw [hsm, List.pairwise_cons]
    constructor
    · intro e he
      have hd := hdisjS e he
      unfold SpanDisj at hd
      show s.start + n ≤ e.2.start ∨ e.2.start + e.2.length ≤ s.start
      omega
    · exact hrcore.disj
  · intro e he
    rw [hsm] at he
    rcases List.mem_cons.mp he with he | he
    · rw [he]
      show alGet (pmSet h.pagemap (s.start + n - 1) id) s.start = some id
      rw [alGet_pmSet]
      split
      · rfl
      · exact hinv.core.pmFirst (id, s) hmem
    · have hd := hdisjS e he
      have hel := hrcore.lenPos e he
      unfold SpanDisj at hd
      show alGet (pmSet h.pagemap (s.start + n - 1) id) e.2.start = some e.1
      rw [alGet_pmSet, if_neg (by omega)]
      exact hrcore.pmFirst e he
  · intro e he hlen2
    rw [hsm] at he
    rcases List.mem_cons.mp he with he | he
    · rw [he]
      show alGet (pmSet h.pagemap (s.start + n - 1) id) (s.start + n - 1) = some id
      rw [alGet_pmSet, if_pos rfl]
    · have hd := hdisjS e he
      have hel := hrcore.lenPos e he
      unfold SpanDisj at hd
      show alGet (pmSet h.pagemap (s.start + n - 1) id)
        (e.2.start + e.2.length - 1) = some e.1
      rw [alGet_pmSet, if_neg (by omega)]
      exact hrcore.pmLast e he hlen2
  · intro x hx
    have hxid : x ≠ id := by
      intro hc
      rw [hc] at hx
      have hcontra := hinv.lists.nfSub id hx
      unfold locOf at hcontra
      rw [hget] at hcontra
      simp [hloc] at hcontra
    show locOf (smSet h.spans id
      { s with length := n, location := Location.inUse }) x
        = some Location.onNormalFreelist
    have hres := hlists.nfSub x hx
    unfold locOf at hres ⊢
    rw [alGet_smSet_ne h.spans _ hxid]
    rw [alGet_alRemove_ne h.spans hxid] at hres
    exact hres
  · intro e he hloc2
    rw [hsm] at he
    rcases List.mem_cons.mp he with he | he
    · rw [he] at hloc2
      simp at hloc2
    · exact hlists.nfFull e he hloc2
  · refine pairwise_keyOf_congr ?_ hlists.nfSorted
    intro x hx
    have hxid : x ≠ id := by
      intro hc
      rw [hc] at hx
      have hcontra := hinv.lists.nfSub id hx
      unfold locOf at hcontra
      rw [hget] at hcontra
      simp [hloc] at hcontra
    show keyOf (smSet h.spans id
      { s with length := n, location := Location.inUse }) x
        = keyOf (alRemove h.spans id) x
    rw [keyOf_smSet_ne h.spans _ hxid, keyOf_alRemove_ne hxid]
  · intro x hx
    have hxid : x ≠ id := by
      intro hc
      rw [hc] at hx
      exact not_mem_removeId (sorted_nodup hinv.lists.rfSorted) hx
    show locOf (smSet h.spans id
      { s with length := n, location := Location.inUse }) x
        = some Location.onReturnedFreelist
    have hres := hlists.rfSub x hx
    unfold locOf at hres ⊢
    rw [alGet_smSet_ne h.spans _ hxid]
    rw [alGet_alRemove_ne h.spans hxid] at hres
    exact hres
  · intro e he hloc2
    rw [hsm] at he
    rcases List.mem_cons.mp he with he | he
    · rw [he] at hloc2
      simp at hloc2
    · exact hlists.rfFull e he hloc2
  · refine pairwise_keyOf_congr ?_ hlists.rfSorted
    intro x hx
    have hxid : x ≠ id := by
      intro hc
      rw [hc] at hx
      exact not_mem_removeId (sorted_nodup hinv.lists.rfSorted) hx
    show keyOf (smSet h.spans id
      { s with length := n, location := Location.inUse }) x
        = keyOf (alRemove h.spans id) x
    rw [keyOf_smSet_ne h.spans _ hxid, keyOf_alRemove_ne hxid]
  · intro e he
    rw [hsm] at he
    rcases List.mem_cons.mp he with he | he
    · rw [he]
      show id < h.nextId + 1
      omega
    · have := hinv.keysLt e (mem_alRemove.mp he).1
      show e.1 < h.nextId + 1
      omega
  · show h.nextId < h.nextId + 1
    exact Nat.lt_succ_self h.nextId
  · show alGet (smSet h.spans id
      { s with length := n, location := Location.inUse }) h.nextId = none
    rw [alGet_smSet_ne h.spans _ (by omega)]
    rw [alGet_eq_none_iff]
    intro e he hc
    have := hinv.keysLt e he
    omega
  · show 1 ≤ s.start + n
    omega
  · show 1 ≤ s.length - n
    omega
  · intro e he
    rw [hsm] at he
    rcases List.mem_cons.mp he with he | he
    · rw [he]
      show SpanDisj ({ s with length := n, location := Location.inUse } : Span)
        { start := s.start + n, length := s.length - n, location := s.location,
          sizeclass := 0, sample := false }
      unfold SpanDisj
      left
      show s.start + n ≤ s.start + n
      omega
    · have hd := hdisjS e he
      have hel := hrcore.lenPos e he
      unfold SpanDisj at hd
      show e.2.start + e.2.length ≤ s.start + n ∨ s.start + n + (s.length - n) ≤ e.2.start
      omega
  · show s.location ≠ Location.inUse
    rw [hloc]
    simp
  · show h.stats.free_bytes
      = kPageSize * sumLenIf isNormal (smSet h.spans id
          { s with length := n, location := Location.inUse })
    rw [sumLenIf_smSet, if_neg (by simp [isNormal]), Nat.zero_add,
        hinv.statsInv.free_eq, hdecN]
  · show h.stats.unmapped_bytes - spanBytes s
      = kPageSize * sumLenIf isReturned (smSet h.spans id
          { s with length := n, location := Location.inUse })
    rw [sumLenIf_smSet, if_neg (by simp [isReturned]), Nat.zero_add,
        hinv.statsInv.unmapped_eq, hdecR, Nat.mul_add]
    unfold spanBytes
    omega
  · show h.stats.system_bytes
      = kPageSize * (sumLenAll (smSet h.spans id
          { s with length := n, location := Location.inUse }) + (s.length - n))
    have h1 : sumLenAll (smSet h.spans id
        { s with length := n, location := Location.inUse }) + (s.length - n)
        = sumLenAll h.spans := by
      rw [sumLenAll_smSet, sumLenAll_remove hinv.core.nodup hget]
      show n + sumLenAll (alRemove h.spans id) + (s.length - n)
        = s.length + sumLenAll (alRemove h.spans id)
      omega
    rw [h1]
    exact hinv.statsInv.system_eq
  · show h.stats.committed_bytes + kPageSize * n
      + (h.stats.unmapped_bytes - spanBytes s)
      + (if s.location = Location.onReturnedFreelist then
          spanBytes { start := s.start + n, length := s.length - n,
                      location := s.location, sizeclass := 0, sample := false } else 0)
      = h.stats.system_bytes
    rw [if_pos hloc]
    have hcu := hinv.statsInv.committed_eq
    have hub : kPageSize * s.length ≤ h.stats.unmapped_bytes := by
      rw [hinv.statsInv.unmapped_eq, hdecR, Nat.mul_add]
      omega
    have hsplit : kPageSize * (s.length - n) + kPageSize * n = kPageSize * s.length := by
      rw [← Nat.mul_add]
      congr 1
      omega
    unfold spanBytes at hub hcu ⊢
    have hproj : (⟨s.start + n, s.length - n, s.location, 0, false⟩ : Span).length
        = s.length - n := rfl
    rw [hproj]
    omega


/-- Carving a normal free span exactly (requested length equals the span
length) keeps the invariant: the span is just relocated to IN_USE and taken
off the normal free structure. -/
theorem inv_carve_exact_normal {h : Heap} {id n : Nat} {s : Span}
    (hinv : Inv h) (hget : alGet h.spans id = some s)
    (hloc : s.location = Location.onNormalFreelist) (hne : n = s.length) :
    Inv { h with spans := smSet h.spans id
                   { s with length := n, location := Location.inUse },
                 normalFree := removeId h.normalFree id,
                 stats := { h.stats with
                   free_bytes := h.stats.free_bytes - spanBytes s } } := by
  have hmem : (id, s) ∈ h.spans := alGet_mem hget
  have hidlt : id < h.nextId := hinv.keysLt (id, s) hmem
  have hstart : 1 ≤ s.start := hinv.core.startPos (id, s) hmem
  have hslen : 1 ≤ s.length := hinv.core.lenPos (id, s) hmem
  have hrkeys : ∀ e ∈ alRemove h.spans id, e.1 ≠ id :=
    alGet_eq_none_iff.mp (alGet_alRemove_self h.spans id)
  have hdisjS : ∀ e ∈ alRemove h.spans id, SpanDisj e.2 s := by
    intro e he
    obtain ⟨hem, hne2⟩ := mem_alRemove.mp he
    exact disj_of_mem_mem hinv.core.disj hem hmem hne2
  have hrcore := invCore_alRemove hinv.core id
  have hlists := listsInv_removeNormal hinv.lists hget hloc
  have hdecN := sumLenIf_remove isNormal hinv.core.nodup hget
  rw [if_pos (by simp [isNormal, hloc])] at hdecN
  have hdecR := sumLenIf_remove isReturned hinv.core.nodup hget
  rw [if_neg (by simp [isReturned, hloc]), Nat.zero_add] at hdecR
  have hsm : smSet h.spans id { s with length := n, location := Location.inUse }
      = (id, ({ s with length := n, location := Location.inUse } : Span))
        :: alRemove h.spans id := rfl
  refine Inv.mk ⟨?_, ?_, ?_, ?_, ?_, ?_⟩ ⟨?_, ?_, ?_, ?_, ?_, ?_⟩ ⟨?_, ?_, ?_, ?_⟩ ?_
  · show (keysOf (smSet h.spans id
      { s with length := n, location := Location.inUse })).Nodup
    rw [hsm]
    unfold keysOf
    rw [List.map_cons]
    refine List.nodup_cons.mpr ⟨?_, hrcore.nodup⟩
    intro hc
    obtain ⟨e, he, heq⟩ := List.mem_map.mp hc
    exact hrkeys e he heq
  · intro e he
    rw [hsm] at he
    rcases List.mem_cons.mp he with he | he
    · rw [he]
      exact hstart
    · exact hrcore.startPos e he
  · intro e he
    rw [hsm] at he
    rcases List.mem_cons.mp he with he | he
    · rw [he]
      show 1 ≤ n
      omega
    · exact hrcore.lenPos e he
  · show (smSet h.spans id
      { s with length := n, location := Location.inUse }).Pairwise
        (fun a b => SpanDisj a.2 b.2)
    rw [hsm, List.pairwise_cons]
    constructor
    · intro e he
      have hd := hdisjS e he
      unfold SpanDisj at hd
      show s.start + n ≤ e.2.start ∨ e.2.start + e.2.length ≤ s.start
      omega
    · exact hrcore.disj
  · intro e he
    rw [hsm] at he
    rcases List.mem_cons.mp he with he | he
    · rw [he]
      show alGet h.pagemap s.start = some id
      exact hinv.core.pmFirst (id, s) hmem
    · exact hrcore.pmFirst e he
  · intro e he hlen2
    rw [hsm] at he
    rcases List.mem_cons.mp he with he | he
    · rw [he]
      rw [he] at hlen2
      have hlen2n : 1 < n := hlen2
      show alGet h.pagemap (s.start + n - 1) = some id
      rw [hne]
      refine hinv.core.pmLast (id, s) hmem ?_
      show 1 < s.length
      omega
    · exact hrcore.pmLast e he hlen2
  · intro x hx
    have hxid : x ≠ id := by
      intro hc
      rw [hc] at hx
      exact not_mem_removeId (sorted_nodup hinv.lists.nfSorted) hx
    show locOf (smSet h.spans id
      { s with length := n, location := Location.inUse }) x
        = some Location.onNormalFreelist
    have hres := hlists.nfSub x hx
    unfold locOf at hres ⊢
    rw [alGet_smSet_ne h.spans _ hxid]
    rw [alGet_alRemove_ne h.spans hxid] at hres
    exact hres
  · intro e he hloc2
    rw [hsm] at he
    rcases List.mem_cons.mp he with he | he
    · rw [he] at hloc2
      simp at hloc2
    · exact hlists.nfFull e he hloc2
  · refine pairwise_keyOf_congr ?_ hlists.nfSorted
    intro x hx
    have hxid : x ≠ id := by
      intro hc
      rw [hc] at hx
      exact not_mem_removeId (sorted_nodup hinv.lists.nfSorted) hx
    show keyOf (smSet h.spans id
      { s with length := n, location := Location.inUse }) x
        = keyOf (alRemove h.spans id) x
    rw [keyOf_smSet_ne h.spans _ hxid, keyOf_alRemove_ne hxid]
  · intro x hx
    have hxid : x ≠ id := by
      intro hc
      rw [hc] at hx
      have hcontra := hinv.lists.rfSub id hx
      unfold locOf at hcontra
      rw [hget] at hcontra
      simp [hloc] at hcontra
    show locOf (smSet h.spans id
      { s with length := n, location := Location.inUse }) x
        = some Location.onReturnedFreelist
    have hres := hlists.rfSub x hx
    unfold locOf at hres ⊢
    rw [alGet_smSet_ne h.spans _ hxid]
    rw [alGet_alRemove_ne h.spans hxid] at hres
    exact hres
  · intro e he hloc2
    rw [hsm] at he
    rcases List.mem_cons.mp he with he | he
    · rw [he] at hloc2
      simp at hloc2
    · exact hlists.rfFull e he hloc2
  · refine pairwise_keyOf_congr ?_ hlists.rfSorted
    intro x hx
    have hxid : x ≠ id := by
      intro hc
      rw [hc] at hx
      have hcontra := hinv.lists.rfSub id hx
      unfold locOf at hcontra
      rw [hget] at hcontra
      simp [hloc] at hcontra
    show keyOf (smSet h.spans id
      { s with length := n, location := Location.inUse }) x
        = keyOf (alRemove h.spans id) x
    rw [keyOf_smSet_ne h.spans _ hxid, keyOf_alRemove_ne hxid]
  · show h.stats.free_bytes - spanBytes s
      = kPageSize * sumLenIf isNormal (smSet h.spans id
          { s with length := n, location := Location.inUse })
    rw [sumLenIf_smSet, if_neg (by simp [isNormal]), Nat.zero_add,
        hinv.statsInv.free_eq, hdecN, Nat.mul_add]
    unfold spanBytes
    omega
  · show h.stats.unmapped_bytes
      = kPageSize * sumLenIf isReturned (smSet h.spans id
          { s with length := n, location := Location.inUse })
    rw [sumLenIf_smSet, if_neg (by simp [isReturned]), Nat.zero_add,
        hinv.statsInv.unmapped_eq, hdecR]
  · show h.stats.system_bytes
      = kPageSize * sumLenAll (smSet h.spans id
          { s with length := n, location := Location.inUse })
    have h1 : sumLenAll (smSet h.spans id
        { s with length := n, location := Location.inUse })
        = sumLenAll h.spans := by
      rw [sumLenAll_smSet, sumLenAll_remove hinv.core.nodup hget]
      show n + sumLenAll (alRemove h.spans id)
        = s.length + sumLenAll (alRemove h.spans id)
      omega
    rw [h1]
    exact hinv.statsInv.system_eq
  · show h.stats.committed_bytes + h.stats.unmapped_bytes = h.stats.system_bytes
    exact hinv.statsInv.committed_eq
  · intro e he
    rw [hsm] at he
    rcases List.mem_cons.mp he with he | he
    · rw [he]
      exact hidlt
    · exact hinv.keysLt e (mem_alRemove.mp he).1

/-- Carving a returned free span exactly keeps the invariant: the span is
committed, relocated to IN_USE and taken off the returned free structure. -/
theorem inv_carve_exact_returned {h : Heap} {id n : Nat} {s : Span}
    (hinv : Inv h) (hget : alGet h.spans id = some s)
    (hloc : s.location = Location.onReturnedFreelist) (hne : n = s.length) :
    Inv { h with spans := smSet h.spans id
                   { s with length := n, location := Location.inUse },
                 returnedFree := removeId h.returnedFree id,
                 stats := { h.stats with
                   unmapped_bytes := h.stats.unmapped_bytes - spanBytes s,
                   committed_bytes := h.stats.committed_bytes + kPageSize * n } } := by
  have hmem : (id, s) ∈ h.spans := alGet_mem hget
  have hidlt : id < h.nextId := hinv.keysLt (id, s) hmem
  have hstart : 1 ≤ s.start := hinv.core.startPos (id, s) hmem
  have hslen : 1 ≤ s.length := hinv.core.lenPos (id, s) hmem
  have hrkeys : ∀ e ∈ alRemove h.spans id, e.1 ≠ id :=
    alGet_eq_none_iff.mp (alGet_alRemove_self h.spans id)
  have hdisjS : ∀ e ∈ alRemove h.spans id, SpanDisj e.2 s := by
    intro e he
    obtain ⟨hem, hne2⟩ := mem_alRemove.mp he
    exact disj_of_mem_mem hinv.core.disj hem hmem hne2
  have hrcore := invCore_alRemove hinv.core id
  have hlists := listsInv_removeReturned hinv.lists hget hloc
  have hdecN := sumLenIf_remove isNormal hinv.core.nodup hget
  rw [if_neg (by simp [isNormal, hloc]), Nat.zero_add] at hdecN
  have hdecR := sumLenIf_remove isReturned hinv.core.nodup hget
  rw [if_pos (by simp [isReturned, hloc])] at hdecR
  have hsm : smSet h.spans id { s with length := n, location := Location.inUse }
      = (id, ({ s with length := n, location := Location.inUse } : Span))
        :: alRemove h.spans id := rfl
  refine Inv.mk ⟨?_, ?_, ?_, ?_, ?_, ?_⟩ ⟨?_, ?_, ?_, ?_, ?_, ?_⟩ ⟨?_, ?_, ?_, ?_⟩ ?_
  · show (keysOf (smSet h.spans id
      { s with length := n, location := Location.inUse })).Nodup
    rw [hsm]
    unfold keysOf
    rw [List.map_cons]
    refine List.nodup_cons.mpr ⟨?_, hrcore.nodup⟩
    intro hc
    obtain ⟨e, he, heq⟩ := List.mem_map.mp hc
    exact hrkeys e he heq
  · intro e he
    rw [hsm] at he
    rcases List.mem_cons.mp he with he | he
    · rw [he]
      exact hstart
    · exact hrcore.startPos e he
  · intro e he
    rw [hsm] at he
    rcases List.mem_cons.mp he with he | he
    · rw [he]
      show 1 ≤ n
      omega
    · exact hrcore.lenPos e he
  · show (smSet h.spans id
      { s with length := n, location := Location.inUse }).Pairwise
        (fun a b => SpanDisj a.2 b.2)
    rw [hsm, List.pairwise_cons]
    constructor
    · intro e he
      have hd := hdisjS e he
      unfold SpanDisj at hd
      show s.start + n ≤ e.2.start ∨ e.2.start + e.2.length ≤ s.start
      omega
    · exact hrcore.disj
  · intro e he
    rw [hsm] at he
    rcases List.mem_cons.mp he with he | he
    · rw [he]
      show alGet h.pagemap s.start = some id
      exact hinv.core.pmFirst (id, s) hmem
    · exact hrcore.pmFirst e he
  · intro e he hlen2
    rw [hsm] at he
    rcases List.mem_cons.mp he with he | he
    · rw [he]
      rw [he] at hlen2
      have hlen2n : 1 < n := hlen2
      show alGet h.pagemap (s.start + n - 1) = some id
      rw [hne]
      refine hinv.core.pmLast (id, s) hmem ?_
      show 1 < s.length
      omega
    · exact hrcore.pmLast e he hlen2
  · intro x hx
    have hxid : x ≠ id := by
      intro hc
      rw [hc] at hx
      have hcontra := hinv.lists.nfSub id hx
      unfold locOf at hcontra
      rw [hget] at hcontra
      simp [hloc] at hcontra
    show locOf (smSet h.spans id
      { s with length := n, location := Location.inUse }) x
        = some Location.onNormalFreelist
    have hres := hlists.nfSub x hx
    unfold locOf at hres ⊢
    rw [alGet_smSet_ne h.spans _ hxid]
    rw [alGet_alRemove_ne h.spans hxid] at hres
    exact hres
  · intro e he hloc2
    rw [hsm] at he
    rcases List.mem_cons.mp he with he | he
    · rw [he] at hloc2
      simp at hloc2
    · exact hlists.nfFull e he hloc2
  · refine pairwise_keyOf_congr ?_ hlists.nfSorted
    intro x hx
    have hxid : x ≠ id := by
      intro hc
      rw [hc] at hx
      have hcontra := hinv.lists.nfSub id hx
      unfold locOf at hcontra
      rw [hget] at hcontra
      simp [hloc] at hcontra
    show keyOf (smSet h.spans id
      { s with length := n, location := Location.inUse }) x
        = keyOf (alRemove h.spans id) x
    rw [keyOf_smSet_ne h.spans _ hxid, keyOf_alRemove_ne hxid]
  · intro x hx
    have hxid : x ≠ id := by
      intro hc
      rw [hc] at hx
      exact not_mem_removeId (sorted_nodup hinv.lists.rfSorted) hx
    show locOf (smSet h.spans id
      { s with length := n, location := Location.inUse }) x
        = some Location.onReturnedFreelist
    have hres := hlists.rfSub x hx
    unfold locOf at hres ⊢
    rw [alGet_smSet_ne h.spans _ hxid]
    rw [alGet_alRemove_ne h.spans hxid] at hres
    exact hres
  · intro e he hloc2
    rw [hsm] at he
    rcases List.mem_cons.mp he with he | he
    · rw [he] at hloc2
      simp at hloc2
    · exact hlists.rfFull e he hloc2
  · refine pairwise_keyOf_congr ?_ hlists.rfSorted
    intro x hx
    have hxid : x ≠ id := by
      intro hc
      rw [hc] at hx
      exact not_mem_removeId (sorted_nodup hinv.lists.rfSorted) hx
    show keyOf (smSet h.spans id
      { s with length := n, location := Location.inUse }) x
        = keyOf (alRemove h.spans id) x
    rw [keyOf_smSet_ne h.spans _ hxid, keyOf_alRemove_ne hxid]
  · show h.stats.free_bytes
      = kPageSize * sumLenIf isNormal (smSet h.spans id
          { s with length := n, location := Location.inUse })
    rw [sumLenIf_smSet, if_neg (by simp [isNormal]), Nat.zero_add,
        hinv.statsInv.free_eq, hdecN]
  · show h.stats.unmapped_bytes - spanBytes s
      = kPageSize * sumLenIf isReturned (smSet h.spans id
          { s with length := n, location := Location.inUse })
    rw [sumLenIf_smSet, if_neg (by simp [isReturned]), Nat.zero_add,
        hinv.statsInv.unmapped_eq, hdecR, Nat.mul_add]
    unfold spanBytes
    omega
  · show h.stats.system_bytes
      = kPageSize * sumLenAll (smSet h.spans id
          { s with length := n, location := Location.inUse })
    have h1 : sumLenAll (smSet h.spans id
        { s with length := n, location := Location.inUse })
        = sumLenAll h.spans := by
      rw [sumLenAll_smSet, sumLenAll_remove hinv.core.nodup hget]
      show n + sumLenAll (alRemove h.spans id)
        = s.length + sumLenAll (alRemove h.spans id)
      omega
    rw [h1]
    exact hinv.statsInv.system_eq
  · show h.stats.committed_bytes + kPageSize * n
      + (h.stats.unmapped_bytes - spanBytes s) = h.stats.system_bytes
    have hcu := hinv.statsInv.committed_eq
    have hub : kPageSize * s.length ≤ h.stats.unmapped_bytes := by
      rw [hinv.statsInv.unmapped_eq, hdecR, Nat.mul_add]
      omega
    have hnn : kPageSize * n = kPageSize * s.length := by
      rw [hne]
    unfold spanBytes
    omega
  · intro e he
    rw [hsm] at he
    rcases List.mem_cons.mp he with he | he
    · rw [he]
      exact hidlt
    · exact hinv.keysLt e (mem_alRemove.mp he).1


/-- `Carve` preserves the heap invariant. -/
theorem inv_carve (h : Heap) (id n : Nat) (hinv : Inv h) : Inv (carve h id n) := by
  unfold carve
  cases hget : alGet h.spans id with
  | none =>
    simp only [hget]
    exact hinv
  | some s =>
    simp only [hget]
    by_cases hguard : s.location = Location.inUse ∨ s.length < n ∨ n = 0
    · rw [if_pos hguard]
      exact hinv
    · rw [if_neg hguard]
      push_neg at hguard
      obtain ⟨hnuse, hlen, hn0⟩ := hguard
      have hn1 : 1 ≤ n := by omega
      have hnle : n ≤ s.length := by omega
      by_cases hlocN : s.location = Location.onNormalFreelist
      · rw [removeFromFreeSet_eq_normal hget hlocN]
        dsimp only
        by_cases hlt : n < s.length
        · rw [if_pos hlt]
          rw [if_neg (by rw [hlocN]; simp)]
          exact inv_mergeExit (invMid_carve_shrink_normal hinv hget hlocN hn1 hlt)
        · rw [if_neg hlt]
          rw [if_neg (by rw [hlocN]; simp)]
          exact inv_carve_exact_normal hinv hget hlocN (by omega)
      · have hlocR : s.location = Location.onReturnedFreelist := by
          cases hval : s.location
          · exact absurd hval hnuse
          · exact absurd hval hlocN
          · rfl
        rw [removeFromFreeSet_eq_returned hget hlocR]
        dsimp only
        by_cases hlt : n < s.length
        · rw [if_pos hlt]
          rw [if_pos hlocR]
          exact inv_mergeExit (invMid_carve_shrink_returned hinv hget hlocR hn1 hlt)
        · rw [if_neg hlt]
          rw [if_pos hlocR]
          exact inv_carve_exact_returned hinv hget hlocR (by omega)


/-- Growing the heap through a well-behaved system allocator preserves the
invariant. -/
theorem inv_growHeap (h : Heap) (sys : SysBehavior) (ask : Nat)
    (hgood : GoodSys sys h) (hinv : Inv h) : Inv (growHeap h sys ask) := by
  unfold growHeap
  cases hres : sys.growResult ask with
  | none =>
    simp only [hres]
    exact ⟨hinv.core, hinv.lists, hinv.statsInv, hinv.keysLt⟩
  | some br =>
    simp only [hres]
    obtain ⟨hact, hbase, hfresh⟩ := hgood ask br.1 br.2 (by rw [hres])
    have hact1 : 1 ≤ br.2 := by
      have h3 := le_trans (le_max_right ask kMinSystemAlloc) hact
      unfold kMinSystemAlloc at h3
      omega
    exact inv_mergeIntoFreeSet true (invMid_grow_entry hinv hbase hact1 hfresh)

/-- `New` preserves the heap invariant. -/
theorem inv_newSpan (h : Heap) (sys : SysBehavior) (n : Nat)
    (hgood : GoodSys sys h) (hinv : Inv h) : Inv (newSpan h sys n).2 := by
  unfold newSpan
  by_cases hn : n = 0
  · rw [if_pos hn]
    exact hinv
  · rw [if_neg hn]
    cases hs : searchFree h n with
    | some id =>
      simp only [hs]
      exact inv_carve h id n hinv
    | none =>
      simp only [hs]
      cases hs2 : searchFree (growHeap h sys (max n kMinSystemAlloc)) n with
      | some id =>
        simp only [hs2]
        exact inv_carve _ id n (inv_growHeap h sys _ hgood hinv)
      | none =>
        simp only [hs2]
        exact inv_growHeap h sys _ hgood hinv


/-! ## Split preserves the invariant -/

/-- The heap state after a successful `Split` satisfies the invariant: the
original span keeps its first `n` pages and a fresh IN_USE span covers the
tail, with boundary pages recorded. -/
theorem inv_split_state {h : Heap} {id n : Nat} {s : Span}
    (hinv : Inv h) (hget : alGet h.spans id = some s)
    (hloc : s.location = Location.inUse)
    (hn : 0 < n) (hlt : n < s.length) :
    Inv { h with nextId := h.nextId + 1,
                 spans := smSet (smSet h.spans id { s with length := n }) h.nextId
                   ⟨s.start + n, s.length - n, Location.inUse, 0, false⟩,
                 pagemap := pmSet (recordSpan h.pagemap h.nextId
                     ⟨s.start + n, s.length - n, Location.inUse, 0, false⟩)
                   (s.start + n - 1) id } := by
  have hmem : (id, s) ∈ h.spans := alGet_mem hget
  have hidlt : id < h.nextId := hinv.keysLt (id, s) hmem
  have hstart : 1 ≤ s.start := hinv.core.startPos (id, s) hmem
  have habs : alGet h.spans h.nextId = none := by
    rw [alGet_eq_none_iff]
    intro e he hc
    have := hinv.keysLt e he
    omega
  have habs2 : alGet (alRemove h.spans id) h.nextId = none := by
    rw [alGet_alRemove_ne h.spans (by omega)]
    exact habs
  have hne12 : id ≠ h.nextId := by omega
  have hrkeys : ∀ e ∈ alRemove h.spans id, e.1 ≠ id :=
    alGet_eq_none_iff.mp (alGet_alRemove_self h.spans id)
  have hdisjS : ∀ e ∈ alRemove h.spans id, SpanDisj e.2 s := by
    intro e he
    obtain ⟨hem, hne2⟩ := mem_alRemove.mp he
    exact disj_of_mem_mem hinv.core.disj hem hmem hne2
  have hrcore := invCore_alRemove hinv.core id
  have hdecN := sumLenIf_remove isNormal hinv.core.nodup hget
  rw [if_neg (by simp [isNormal, hloc]), Nat.zero_add] at hdecN
  have hdecR := sumLenIf_remove isReturned hinv.core.nodup hget
  rw [if_neg (by simp [isReturned, hloc]), Nat.zero_add] at hdecR
  have hrem2 : alRemove (smSet h.spans id { s with length := n }) h.nextId
      = smSet h.spans id { s with length := n } := by
    refine alRemove_of_get_none ?_
    rw [alGet_smSet_ne h.spans _ (by omega)]
    exact habs
  have hsm2 : smSet (smSet h.spans id { s with length := n }) h.nextId
        (⟨s.start + n, s.length - n, Location.inUse, 0, false⟩ : Span)
      = (h.nextId, (⟨s.start + n, s.length - n, Location.inUse, 0, false⟩ : Span))
        :: (id, ({ s with length := n } : Span)) :: alRemove h.spans id := by
    show (h.nextId, (⟨s.start + n, s.length - n, Location.inUse, 0, false⟩ : Span))
        :: alRemove (smSet h.spans id { s with length := n }) h.nextId = _
    rw [hrem2]
    rfl
  refine Inv.mk ⟨?_, ?_, ?_, ?_, ?_, ?_⟩ ⟨?_, ?_, ?_, ?_, ?_, ?_⟩ ⟨?_, ?_, ?_, ?_⟩ ?_
  · show (keysOf (smSet (smSet h.spans id { s with length := n }) h.nextId
      ⟨s.start + n, s.length - n, Location.inUse, 0, false⟩)).Nodup
    rw [hsm2]
    unfold keysOf
    rw [List.map_cons, List.map_cons]
    refine List.nodup_cons.mpr ⟨?_, List.nodup_cons.mpr ⟨?_, hrcore.nodup⟩⟩
    · intro hc
      rcases List.mem_cons.mp hc with hc | hc
      · exact absurd hc (by omega)
      · obtain ⟨e, he, heq⟩ := List.mem_map.mp hc
        have := hinv.keysLt e (mem_alRemove.mp he).1
        omega
    · intro hc
      obtain ⟨e, he, heq⟩ := List.mem_map.mp hc
      exact hrkeys e he heq
  · intro e he
    rw [hsm2] at he
    rcases List.mem_cons.mp he with he | he
    · rw [he]
      show 1 ≤ s.start + n
      omega
    · rcases List.mem_cons.mp he with he | he
      · rw [he]
        exact hstart
      · exact hrcore.startPos e he
  · intro e he
    rw [hsm2] at he
    rcases List.mem_cons.mp he with he | he
    · rw [he]
      show 1 ≤ s.length - n
      omega
    · rcases List.mem_cons.mp he with he | he
      · rw [he]
        show 1 ≤ n
        omega
      · exact hrcore.lenPos e he
  · show (smSet (smSet h.spans id { s with length := n }) h.nextId
      (⟨s.start + n, s.length - n, Location.inUse, 0, false⟩ : Span)).Pairwise
        (fun a b => SpanDisj a.2 b.2)
    rw [hsm2]
    refine List.pairwise_cons.mpr ⟨?_, List.pairwise_cons.mpr ⟨?_, hrcore.disj⟩⟩
    · intro e he
      rcases List.mem_cons.mp he with he | he
      · rw [he]
        show s.start + n + (s.length - n) ≤ s.start ∨ s.start + n ≤ s.start + n
        omega
      · have hd := hdisjS e he
        unfold SpanDisj at hd
        show s.start + n + (s.length - n) ≤ e.2.start
          ∨ e.2.start + e.2.length ≤ s.start + n
        omega
    · intro e he
      have hd := hdisjS e he
      unfold SpanDisj at hd
      show s.start + n ≤ e.2.start ∨ e.2.start + e.2.length ≤ s.start
      omega
  · intro e he
    rw [hsm2] at he
    rcases List.mem_cons.mp he with he | he
    · rw [he]
      show alGet (pmSet (recordSpan h.pagemap h.nextId
          ⟨s.start + n, s.length - n, Location.inUse, 0, false⟩)
          (s.start + n - 1) id) (s.start + n) = some h.nextId
      rw [alGet_pmSet, if_neg (by omega)]
      exact recordSpan_get_start h.pagemap h.nextId
        ⟨s.start + n, s.length - n, Location.inUse, 0, false⟩
    · rcases List.mem_cons.mp he with he | he
      · rw [he]
        show alGet (pmSet (recordSpan h.pagemap h.nextId
            ⟨s.start + n, s.length - n, Location.inUse, 0, false⟩)
            (s.start + n - 1) id) s.start = some id
        rw [alGet_pmSet]
        by_cases hq : s.start = s.start + n - 1
        · rw [if_pos hq]
        · rw [if_neg hq]
          have hother := recordSpan_get_other h.pagemap h.nextId
            (⟨s.start + n, s.length - n, Location.inUse, 0, false⟩ : Span)
            (show s.start ≠ s.start + n by omega)
            (show s.start ≠ s.start + n + (s.length - n) - 1 by omega)
          rw [hother]
          exact hinv.core.pmFirst (id, s) hmem
      · have hd := hdisjS e he
        have helen := hrcore.lenPos e he
        unfold SpanDisj at hd
        show alGet (pmSet (recordSpan h.pagemap h.nextId
            ⟨s.start + n, s.length - n, Location.inUse, 0, false⟩)
            (s.start + n - 1) id) e.2.start = some e.1
        rw [alGet_pmSet, if_neg (by omega)]
        have hother := recordSpan_get_other h.pagemap h.nextId
          (⟨s.start + n, s.length - n, Location.inUse, 0, false⟩ : Span)
          (show e.2.start ≠ s.start + n by omega)
          (show e.2.start ≠ s.start + n + (s.length - n) - 1 by omega)
        rw [hother]
        exact hrcore.pmFirst e he
  · intro e he hlen2
    rw [hsm2] at he
    rcases List.mem_cons.mp he with he | he
    · rw [he]
      rw [he] at hlen2
      have hlen2n : 1 < s.length - n := hlen2
      show alGet (pmSet (recordSpan h.pagemap h.nextId
          ⟨s.start + n, s.length - n, Location.inUse, 0, false⟩)
          (s.start + n - 1) id) (s.start + n + (s.length - n) - 1) = some h.nextId
      rw [alGet_pmSet, if_neg (by omega)]
      exact recordSpan_get_last h.pagemap h.nextId
        (⟨s.start + n, s.length - n, Location.inUse, 0, false⟩ : Span) hlen2n
    · rcases List.mem_cons.mp he with he | he
      · rw [he]
        show alGet (pmSet (recordSpan h.pagemap h.nextId
            ⟨s.start + n, s.length - n, Location.inUse, 0, false⟩)
            (s.start + n - 1) id) (s.start + n - 1) = some id
        rw [alGet_pmSet, if_pos rfl]
      · have hd := hdisjS e he
        have helen := hrcore.lenPos e he
        unfold SpanDisj at hd
        show alGet (pmSet (recordSpan h.pagemap h.nextId
            ⟨s.start + n, s.length - n, Location.inUse, 0, false⟩)
            (s.start + n - 1) id) (e.2.start + e.2.length - 1) = some e.1
        rw [alGet_pmSet, if_neg (by omega)]
        have hother := recordSpan_get_other h.pagemap h.nextId
          (⟨s.start + n, s.length - n, Location.inUse, 0, false⟩ : Span)
          (show e.2.start + e.2.length - 1 ≠ s.start + n by omega)
          (show e.2.start + e.2.length - 1 ≠ s.start + n + (s.length - n) - 1 by omega)
        rw [hother]
        exact hrcore.pmLast e he hlen2
  · intro x hx
    have hxid : x ≠ id := by
      intro hc
      rw [hc] at hx
      have hcontra := hinv.lists.nfSub id hx
      unfold locOf at hcontra
      rw [hget] at hcontra
      simp [hloc] at hcontra
    have hxtid : x ≠ h.nextId := by
      intro hc
      rw [hc] at hx
      have hcontra := hinv.lists.nfSub h.nextId hx
      unfold locOf at hcontra
      rw [habs] at hcontra
      simp at hcontra
    show locOf (smSet (smSet h.spans id { s with length := n }) h.nextId
        ⟨s.start + n, s.length - n, Location.inUse, 0, false⟩) x
      = some Location.onNormalFreelist
    have hres := hinv.lists.nfSub x hx
    unfold locOf at hres ⊢
    rw [hsm2, alGet_cons, if_neg hxtid, alGet_cons, if_neg hxid,
        alGet_alRemove_ne h.spans hxid]
    exact hres
  · intro e he hloc2
    rw [hsm2] at he
    rcases List.mem_cons.mp he with he | he
    · rw [he] at hloc2
      simp at hloc2
    · rcases List.mem_cons.mp he with he | he
      · rw [he] at hloc2
        have hx : s.location = Location.onNormalFreelist := hloc2
        rw [hloc] at hx
        simp at hx
      · exact hinv.lists.nfFull e (mem_alRemove.mp he).1 hloc2
  · refine pairwise_keyOf_congr ?_ hinv.lists.nfSorted
    intro x hx
    have hxid : x ≠ id := by
      intro hc
      rw [hc] at hx
      have hcontra := hinv.lists.nfSub id hx
      unfold locOf at hcontra
      rw [hget] at hcontra
      simp [hloc] at hcontra
    have hxtid : x ≠ h.nextId := by
      intro hc
      rw [hc] at hx
      have hcontra := hinv.lists.nfSub h.nextId hx
      unfold locOf at hcontra
      rw [habs] at hcontra
      simp at hcontra
    show keyOf (smSet (smSet h.spans id { s with length := n }) h.nextId
        ⟨s.start + n, s.length - n, Location.inUse, 0, false⟩) x
      = keyOf h.spans x
    unfold keyOf
    rw [hsm2, alGet_cons, if_neg hxtid, alGet_cons, if_neg hxid,
        alGet_alRemove_ne h.spans hxid]
  · intro x hx
    have hxid : x ≠ id := by
      intro hc
      rw [hc] at hx
      have hcontra := hinv.lists.rfSub id hx
      unfold locOf at hcontra
      rw [hget] at hcontra
      simp [hloc] at hcontra
    have hxtid : x ≠ h.nextId := by
      intro hc
      rw [hc] at hx
      have hcontra := hinv.lists.rfSub h.nextId hx
      unfold locOf at hcontra
      rw [habs] at hcontra
      simp at hcontra
    show locOf (smSet (smSet h.spans id { s with length := n }) h.nextId
        ⟨s.start + n, s.length - n, Location.inUse, 0, false⟩) x
      = some Location.onReturnedFreelist
    have hres := hinv.lists.rfSub x hx
    unfold locOf at hres ⊢
    rw [hsm2, alGet_cons, if_neg hxtid, alGet_cons, if_neg hxid,
        alGet_alRemove_ne h.spans hxid]
    exact hres
  · intro e he hloc2
    rw [hsm2] at he
    rcases List.mem_cons.mp he with he | he
    · rw [he] at hloc2
      simp at hloc2
    · rcases List.mem_cons.mp he with he | he
      · rw [he] at hloc2
        have hx : s.location = Location.onReturnedFreelist := hloc2
        rw [hloc] at hx
        simp at hx
      · exact hinv.lists.rfFull e (mem_alRemove.mp he).1 hloc2
  · refine pairwise_keyOf_congr ?_ hinv.lists.rfSorted
    intro x hx
    have hxid : x ≠ id := by
      intro hc
      rw [hc] at hx
      have hcontra := hinv.lists.rfSub id hx
      unfold locOf at hcontra
      rw [hget] at hcontra
      simp [hloc] at hcontra
    have hxtid : x ≠ h.nextId := by
      intro hc
      rw [hc] at hx
      have hcontra := hinv.lists.rfSub h.nextId hx
      unfold locOf at hcontra
      rw [habs] at hcontra
      simp at hcontra
    show keyOf (smSet (smSet h.spans id { s with length := n }) h.nextId
        ⟨s.start + n, s.length - n, Location.inUse, 0, false⟩) x
      = keyOf h.spans x
    unfold keyOf
    rw [hsm2, alGet_cons, if_neg hxtid, alGet_cons, if_neg hxid,
        alGet_alRemove_ne h.spans hxid]
  · show h.stats.free_bytes
      = kPageSize * sumLenIf isNormal (smSet (smSet h.spans id { s with length := n })
          h.nextId ⟨s.start + n, s.length - n, Location.inUse, 0, false⟩)
    rw [sumLenIf_smSet, hrem2, sumLenIf_smSet,
        if_neg (by simp [isNormal]), if_neg (by simp [isNormal, hloc]),
        Nat.zero_add, Nat.zero_add, hinv.statsInv.free_eq, hdecN]
  · show h.stats.unmapped_bytes
      = kPageSize * sumLenIf isReturned (smSet (smSet h.spans id { s with length := n })
          h.nextId ⟨s.start + n, s.length - n, Location.inUse, 0, false⟩)
    rw [sumLenIf_smSet, hrem2, sumLenIf_smSet,
        if_neg (by simp [isReturned]), if_neg (by simp [isReturned, hloc]),
        Nat.zero_add, Nat.zero_add, hinv.statsInv.unmapped_eq, hdecR]
  · show h.stats.system_bytes
      = kPageSize * sumLenAll (smSet (smSet h.spans id { s with length := n })
          h.nextId ⟨s.start + n, s.length - n, Location.inUse, 0, false⟩)
    rw [sumLenAll_smSet, hrem2, sumLenAll_smSet]
    show h.stats.system_bytes
      = kPageSize * (s.length - n + (n + sumLenAll (alRemove h.spans id)))
    have harith : s.length - n + (n + sumLenAll (alRemove h.spans id))
        = sumLenAll h.spans := by
      rw [sumLenAll_remove hinv.core.nodup hget]
      omega
    rw [harith]
    exact hinv.statsInv.system_eq
  · show h.stats.committed_bytes + h.stats.unmapped_bytes = h.stats.system_bytes
    exact hinv.statsInv.committed_eq
  · intro e he
    rw [hsm2] at he
    rcases List.mem_cons.mp he with he | he
    · rw [he]
      show h.nextId < h.nextId + 1
      omega
    · rcases List.mem_cons.mp he with he | he
      · rw [he]
        show id < h.nextId + 1
        omega
      · have := hinv.keysLt e (mem_alRemove.mp he).1
        show e.1 < h.nextId + 1
        omega

/-- `Split` preserves the heap invariant. -/
theorem inv_splitSpan (h : Heap) (id n : Nat) (hinv : Inv h) :
    Inv (splitSpan h id n).2 := by
  unfold splitSpan
  cases hget : alGet h.spans id with
  | none =>
    simp only [hget]
    exact hinv
  | some s =>
    simp only [hget]
    by_cases hguard : s.location = Location.inUse ∧ s.sizeclass = 0
        ∧ 0 < n ∧ n < s.length
    · rw [if_pos hguard]
      obtain ⟨hloc, hsz, hn0, hlt⟩ := hguard
      exact inv_split_state hinv hget hloc hn0 hlt
    · rw [if_neg hguard]
      exact hinv


/-! ## The invariant over all public operations and reachable states -/

/-- `SetAggressiveDecommit` preserves the heap invariant. -/
theorem inv_setAggressive (h : Heap) (b : Bool) (hinv : Inv h) :
    Inv (SetAggressiveDecommit h b) :=
  ⟨hinv.core, hinv.lists, hinv.statsInv, hinv.keysLt⟩

/-- The empty heap satisfies the invariant. -/
theorem inv_emptyHeap : Inv emptyHeap := by decide

/-- Every public operation preserves the heap invariant. -/
theorem inv_step {h h' : Heap} (hs : Step h h') (hinv : Inv h) : Inv h' := by
  cases hs with
  | newStep sys n hgood => exact inv_newSpan h sys n hgood hinv
  | deleteStep sys id => exact inv_deleteSpan h sys id hinv
  | splitStep id n => exact inv_splitSpan h id n hinv
  | releaseStep sys n => exact inv_releaseAtLeastNPages h sys n hinv
  | setAggressiveStep b => exact inv_setAggressive h b hinv

/-- Every reachable heap state satisfies the invariant. -/
theorem inv_of_reach {h : Heap} (hr : Reach h) : Inv h := by
  induction hr with
  | empty => exact inv_emptyHeap
  | step h h2 hr hs ih => exact inv_step hs ih


/-! ## Stats effect of the release path (claim C2) -/

/-- With `premerge = false` (the release path) a coalescing attempt of a
returned in-flight span moves no bytes in or out of the free and system
statistics; the unmapped statistic only loses exactly the bytes the in-flight
span gains, and the span stays returned. -/
theorem coalesceOne_stats_release {h : Heap} (sys : SysBehavior) {id : Nat}
    {s : Span} (prevSide : Bool) (hm : InvMid h id s)
    (hsloc : s.location = Location.onReturnedFreelist) :
    (coalesceOne h sys id s prevSide false).1.stats.system_bytes
        = h.stats.system_bytes ∧
    (coalesceOne h sys id s prevSide false).1.stats.free_bytes
        = h.stats.free_bytes ∧
    (coalesceOne h sys id s prevSide false).1.stats.unmapped_bytes
        + spanBytes (coalesceOne h sys id s prevSide false).2
      = h.stats.unmapped_bytes + spanBytes s ∧
    (coalesceOne h sys id s prevSide false).2.location
        = Location.onReturnedFreelist := by
  unfold coalesceOne
  rcases hc : coalesceCandidate h id s prevSide with _ | ⟨pid, p⟩
  · exact ⟨rfl, rfl, rfl, hsloc⟩
  · simp only []
    obtain ⟨hpget, hadj, hploc, hpid⟩ := coalesceCandidate_spec hc
    by_cases heq : p.location = s.location
    · rw [if_pos heq]
      have hprloc : p.location = Location.onReturnedFreelist := by
        rw [heq, hsloc]
      have hbound : spanBytes p ≤ h.stats.unmapped_bytes := by
        rw [hm.unmapped_eq, sumLenIf_remove isReturned hm.core.nodup hpget,
            if_pos (by simp [isReturned, hprloc])]
        unfold spanBytes
        rw [Nat.mul_add]
        exact Nat.le_add_right _ _
      rw [doMerge_eq_returned hpget hprloc]
      refine ⟨rfl, rfl, ?_, ?_⟩
      · show h.stats.unmapped_bytes - spanBytes p
            + spanBytes (mergedSpan s p prevSide)
          = h.stats.unmapped_bytes + spanBytes s
        unfold spanBytes at hbound ⊢
        rw [mergedSpan_length, Nat.mul_add]
        omega
      · rw [mergedSpan_location]
        exact hsloc
    · rw [if_neg heq, if_pos trivial]
      exact ⟨rfl, rfl, rfl, hsloc⟩

/-- Recording a returned span in the span store and pagemap and inserting it
into the returned free structure adds exactly its bytes to the unmapped
statistic. -/
theorem insertToFreeSet_smSet_stats (h : Heap) (id : Nat) (s : Span)
    (hloc : s.location = Location.onReturnedFreelist) :
    (insertToFreeSet { h with spans := smSet h.spans id s,
                              pagemap := recordSpan h.pagemap id s } id).stats
      = { h.stats with
          unmapped_bytes := h.stats.unmapped_bytes + spanBytes s } := by
  have hget : alGet (smSet h.spans id s) id = some s := by
    show alGet ((id, s) :: alRemove h.spans id) id = some s
    rw [alGet_cons, if_pos rfl]
  rw [insertToFreeSet_eq_returned hget hloc]

/-- On the release path (`premerge = false`) the whole merge step shifts
exactly the in-flight span's bytes into the unmapped statistic and changes
neither the free nor the system statistic. -/
theorem mergeIntoFreeSet_stats_release {h : Heap} (sys : SysBehavior) {id : Nat}
    {s : Span} (hm : InvMid h id s)
    (hsloc : s.location = Location.onReturnedFreelist) :
    (mergeIntoFreeSet h sys id s false).stats.system_bytes
        = h.stats.system_bytes ∧
    (mergeIntoFreeSet h sys id s false).stats.free_bytes
        = h.stats.free_bytes ∧
    (mergeIntoFreeSet h sys id s false).stats.unmapped_bytes
      = h.stats.unmapped_bytes + spanBytes s := by
  obtain ⟨hs1, hf1, hu1, hl1⟩ := coalesceOne_stats_release sys true hm hsloc
  have hm1 := @invMid_coalesceOne h sys id s true false hm
  obtain ⟨hs2, hf2, hu2, hl2⟩ := coalesceOne_stats_release sys false hm1 hl1
  unfold mergeIntoFreeSet
  dsimp only
  rw [insertToFreeSet_smSet_stats _ id _ hl2]
  refine ⟨hs2.trans hs1, hf2.trans hf1, ?_⟩
  show (coalesceOne (coalesceOne h sys id s true false).1 sys id
        (coalesceOne h sys id s true false).2 false false).1.stats.unmapped_bytes
      + spanBytes (coalesceOne (coalesceOne h sys id s true false).1 sys id
        (coalesceOne h sys id s true false).2 false false).2
    = h.stats.unmapped_bytes + spanBytes s
  exact hu2.trans hu1


/-- Stats effect of one `ReleaseSpan` call: the system statistic never
changes, and exactly the released pages move from the free statistic to the
unmapped statistic. -/
theorem releaseSpan_stats (h : Heap) (sys : SysBehavior) (id : Nat)
    (hinv : Inv h) :
    (releaseSpan h sys id).2.stats.system_bytes = h.stats.system_bytes ∧
    (releaseSpan h sys id).2.stats.free_bytes
      = h.stats.free_bytes - kPageSize * (releaseSpan h sys id).1 ∧
    kPageSize * (releaseSpan h sys id).1 ≤ h.stats.free_bytes ∧
    (releaseSpan h sys id).2.stats.unmapped_bytes
      = h.stats.unmapped_bytes + kPageSize * (releaseSpan h sys id).1 := by
  unfold releaseSpan
  rcases hget : alGet h.spans id with _ | s
  · simp only [hget]
    exact ⟨trivial, by simp, by simp, by simp⟩
  · simp only [hget]
    by_cases hne : s.location ≠ Location.onNormalFreelist
    · rw [if_pos hne]
      exact ⟨rfl, by simp, by simp, by simp⟩
    · rw [if_neg hne]
      have hloc : s.location = Location.onNormalFreelist := not_not.mp hne
      have hmem : id ∈ h.normalFree :=
        hinv.lists.nfFull (id, s) (alGet_mem hget) hloc
      by_cases hdec : sys.decommitOk s.start s.length = true
      · rw [if_pos hdec]
        rw [removeFromFreeSet_eq_normal hget hloc]
        have hmid := invMid_release_entry hinv hget hloc
        obtain ⟨hs, hf, hu⟩ := mergeIntoFreeSet_stats_release sys hmid rfl
        have hB : spanBytes s ≤ h.stats.free_bytes := by
          rw [hinv.statsInv.free_eq, sumLenIf_remove isNormal hinv.core.nodup hget,
              if_pos (by simp [isNormal, hloc])]
          unfold spanBytes
          rw [Nat.mul_add]
          exact Nat.le_add_right _ _
        exact ⟨hs, hf, hB, hu⟩
      · rw [if_neg hdec]
        rw [insert_remove_restore h id s hinv hget hloc hmem]
        exact ⟨rfl, by simp, by simp, by simp⟩

/-- Stats effect of the release scan: the loop shifts exactly the returned
number of pages from the free statistic to the unmapped statistic. -/
theorem releaseLoop_stats (fuel : Nat) (h : Heap) (sys : SysBehavior)
    (need : Nat) (hinv : Inv h) :
    (releaseLoop fuel h sys need).2.stats.system_bytes = h.stats.system_bytes ∧
    (releaseLoop fuel h sys need).2.stats.free_bytes
      = h.stats.free_bytes - kPageSize * (releaseLoop fuel h sys need).1 ∧
    kPageSize * (releaseLoop fuel h sys need).1 ≤ h.stats.free_bytes ∧
    (releaseLoop fuel h sys need).2.stats.unmapped_bytes
      = h.stats.unmapped_bytes + kPageSize * (releaseLoop fuel h sys need).1 := by
  induction fuel generalizing h need with
  | zero =>
    exact ⟨rfl, by simp [releaseLoop], by simp [releaseLoop], by simp [releaseLoop]⟩
  | succ fuel ih =>
    simp only [releaseLoop]
    rcases hnf : h.normalFree with _ | ⟨id, rest⟩
    · exact ⟨rfl, by simp, by simp, by simp⟩
    · dsimp only
      obtain ⟨hs, hf, hB, hu⟩ := releaseSpan_stats h sys id hinv
      have hinv2 : Inv (releaseSpan h sys id).2 := inv_releaseSpan h sys id hinv
      by_cases h0 : (releaseSpan h sys id).1 = 0
      · rw [if_pos h0]
        rw [h0] at hf hu
        exact ⟨hs, by simpa using hf, by simp, by simpa using hu⟩
      · rw [if_neg h0]
        by_cases hle : need ≤ (releaseSpan h sys id).1
        · rw [if_pos hle]
          exact ⟨hs, hf, hB, hu⟩
        · rw [if_neg hle]
          obtain ⟨hs2, hf2, hB2, hu2⟩ :=
            ih (releaseSpan h sys id).2 (need - (releaseSpan h sys id).1) hinv2
          refine ⟨hs2.trans hs, ?_, ?_, ?_⟩
          · show (releaseLoop fuel (releaseSpan h sys id).2 sys
                (need - (releaseSpan h sys id).1)).2.stats.free_bytes
              = h.stats.free_bytes - kPageSize * ((releaseSpan h sys id).1
                + (releaseLoop fuel (releaseSpan h sys id).2 sys
                    (need - (releaseSpan h sys id).1)).1)
            rw [hf2, hf, Nat.mul_add]
            omega
          · show kPageSize * ((releaseSpan h sys id).1
                + (releaseLoop fuel (releaseSpan h sys id).2 sys
                    (need - (releaseSpan h sys id).1)).1)
              ≤ h.stats.free_bytes
            rw [hf] at hB2
            rw [Nat.mul_add]
            omega
          · show (releaseLoop fuel (releaseSpan h sys id).2 sys
                (need - (releaseSpan h sys id).1)).2.stats.unmapped_bytes
              = h.stats.unmapped_bytes + kPageSize * ((releaseSpan h sys id).1
                + (releaseLoop fuel (releaseSpan h sys id).2 sys
                    (need - (releaseSpan h sys id).1)).1)
            rw [hu2, hu, Nat.mul_add]
            omega


/-! ## Reachable fixtures -/

/-- The fixture allocator behaves well on the empty heap: its only grant is
8 fresh pages at base 1. -/
theorem goodSys_sysW_empty : GoodSys sysW emptyHeap := by
  intro n base actual heq
  have hx : (if n ≤ 8 then some ((1 : Nat), (8 : Nat)) else none)
      = some (base, actual) := heq
  by_cases hn : n ≤ 8
  · rw [if_pos hn] at hx
    simp only [Option.some.injEq, Prod.mk.injEq] at hx
    obtain ⟨hb, ha⟩ := hx
    refine ⟨?_, by omega, ?_⟩
    · show max n kMinSystemAlloc ≤ actual
      unfold kMinSystemAlloc
      exact max_le (by omega) (by omega)
    · intro e he
      simp [emptyHeap] at he
  · rw [if_neg hn] at hx
    simp at hx

/-- `heapW1` is reachable: one `new(4)` on the empty heap. -/
theorem reach_heapW1 : Reach heapW1 :=
  Reach.step emptyHeap heapW1 Reach.empty
    (Step.newStep emptyHeap sysW 4 goodSys_sysW_empty)

/-- `heapW2` is reachable: `new(4)` then `delete` of the allocation. -/
theorem reach_heapW2 : Reach heapW2 :=
  Reach.step heapW1 heapW2 reach_heapW1 (Step.deleteStep heapW1 sysF 0)

/-! ## Claims C1, C5 and C2 -/

/-- Claim C1: `RecordSpan` sets exactly the span's boundary pagemap slots —
the first page always, the last page only when the length exceeds 1, and no
other slot — and in every reachable heap state the pagemap maps every known
span's first page to it, and also its last page when its length exceeds 1,
whatever the span's location state. -/
theorem claim_C1 :
    (∀ (pm : PageMap) (id : Nat) (s : Span),
      alGet (recordSpan pm id s) s.start = some id ∧
      (1 < s.length →
        alGet (recordSpan pm id s) (s.start + s.length - 1) = some id) ∧
      (∀ p, p ≠ s.start → p ≠ s.start + s.length - 1 →
        alGet (recordSpan pm id s) p = alGet pm p)) ∧
    (∀ h : Heap, Reach h → ∀ e ∈ h.spans,
      alGet h.pagemap e.2.start = some e.1 ∧
      (1 < e.2.length →
        alGet h.pagemap (e.2.start + e.2.length - 1) = some e.1)) := by
  constructor
  · intro pm id s
    exact ⟨recordSpan_get_start pm id s,
           fun hl => recordSpan_get_last pm id s hl,
           fun p h1 h2 => recordSpan_get_other pm id s h1 h2⟩
  · intro h hr e he
    have hinv := inv_of_reach hr
    exact ⟨hinv.core.pmFirst e he, fun hl => hinv.core.pmLast e he hl⟩

/-- Witness for claim C1: recording a 3-page span at page 2 maps page 2 to
it, and in the reachable state `heapW1` the 4-page span 0 at page 1 has its
first page 1 and last page 4 mapped to it. -/
theorem claim_C1_witness :
    alGet (recordSpan [] 7 ⟨2, 3, Location.inUse, 0, false⟩) 2 = some 7 ∧
    alGet heapW1.pagemap 1 = some 0 ∧
    alGet heapW1.pagemap 4 = some 0 := by
  have h1 := (claim_C1.1 [] 7 ⟨2, 3, Location.inUse, 0, false⟩).1
  have h2 := claim_C1.2 heapW1 reach_heapW1
    (0, ⟨1, 4, Location.inUse, 0, false⟩) (by decide)
  exact ⟨h1, h2.1, h2.2 (by decide)⟩

/-- Claim C5: in every quiescent heap state reachable from the empty heap by
the public operations, committed bytes equal system minus unmapped bytes
(equivalently committed + unmapped = system, hence committed ≤ system), and
system bytes are at least free + unmapped + in-use bytes. -/
theorem claim_C5 (h : Heap) (hr : Reach h) :
    h.stats.committed_bytes = h.stats.system_bytes - h.stats.unmapped_bytes ∧
    h.stats.committed_bytes + h.stats.unmapped_bytes = h.stats.system_bytes ∧
    h.stats.committed_bytes ≤ h.stats.system_bytes ∧
    h.stats.free_bytes + h.stats.unmapped_bytes
        + kPageSize * sumLenIf isInUse h.spans
      ≤ h.stats.system_bytes := by
  have hinv := inv_of_reach hr
  have hc := hinv.statsInv.committed_eq
  refine ⟨by omega, hc, by omega, ?_⟩
  rw [hinv.statsInv.free_eq, hinv.statsInv.unmapped_eq, hinv.statsInv.system_eq,
      ← sumLen_split h.spans, Nat.mul_add, Nat.mul_add]

/-- Witness for claim C5: the stats equation holds at the reachable state
`heapW1`. -/
theorem claim_C5_witness :
    heapW1.stats.committed_bytes + heapW1.stats.unmapped_bytes
      = heapW1.stats.system_bytes :=
  (claim_C5 heapW1 reach_heapW1).2.1

/-- Claim C2: in every reachable heap state `release_at_least(n)` never
changes the system statistic; it moves exactly the returned number of
released pages' bytes from the free statistic to the unmapped statistic (so
system bytes are never reduced), and the returned page count can exceed `n`
when a released span is larger than the remaining need: releasing the 4-page
span of `heapW2` on a request for 1 page returns 4. -/
theorem claim_C2 (h : Heap) (sys : SysBehavior) (n : Nat) (hr : Reach h) :
    ((releaseAtLeastNPages h sys n).2.stats.system_bytes
        = h.stats.system_bytes ∧
      (releaseAtLeastNPages h sys n).2.stats.free_bytes
        = h.stats.free_bytes - kPageSize * (releaseAtLeastNPages h sys n).1 ∧
      kPageSize * (releaseAtLeastNPages h sys n).1 ≤ h.stats.free_bytes ∧
      (releaseAtLeastNPages h sys n).2.stats.unmapped_bytes
        = h.stats.unmapped_bytes
          + kPageSize * (releaseAtLeastNPages h sys n).1) ∧
    1 < (releaseAtLeastNPages heapW2 sysW 1).1 := by
  refine ⟨?_, by decide⟩
  have hinv := inv_of_reach hr
  unfold releaseAtLeastNPages
  exact releaseLoop_stats h.normalFree.length h sys n hinv

/-- Witness for claim C2: releasing from the reachable state `heapW2` with a
request for one page keeps the system statistic and returns 4 pages. -/
theorem claim_C2_witness :
    (releaseAtLeastNPages heapW2 sysW 1).2.stats.system_bytes
      = heapW2.stats.system_bytes ∧
    1 < (releaseAtLeastNPages heapW2 sysW 1).1 := by
  have h := claim_C2 heapW2 sysW 1 reach_heapW2
  exact ⟨h.1.1, h.2⟩

end PH
